import Mathlib

/-!
# CN24: construction of a net graph from a JSON description

A shallow embedding of `JSONNetGraphFactory::AddLayers`
(`src/factory/JSONNetGraphFactory.cpp`) over the graph data structures of
`include/cn24/net/NetGraph.h`.

Conventions of the embedding:

* a `NetGraphNode*` is the position of the node in `nodes_` (`none` is `nullptr`);
* the `nodes` object of the configuration is the list of its `(key, value)` pairs
  in the order in which the `JSON::iterator` visits them;
* `while(true)` and the `for` statement over an `input` array take a fuel argument;
  `none` means that the fuel ran out before the statement was left;
* the generator `std::mt19937 rand(seed)` is a parameter: `mt19937 seed k` is the
  `k`-th value it produces.
-/

namespace Conv

/-! ## The configuration -/

/-- The value stored under an `input` or `output` key: missing, a string, an array of
strings, or a value of another JSON type. -/
inductive JSONValue where
  | absent
  | str (s : String)
  | arr (l : List String)
  | other
deriving DecidableEq, Repr

/-- The member `net_json_`. A node description is represented by its `input` entry, the
only entry that `AddLayers` reads; `nodes = none` means `count("nodes") != 1`. -/
structure NetJSON where
  nodes : Option (List (String × JSONValue))
  input : JSONValue
  output : JSONValue
deriving DecidableEq, Repr

/-- The call `nodes_json.count(s)`. -/
def jsonCount (nodes_json : List (String × JSONValue)) (s : String) : Nat :=
  (nodes_json.map Prod.fst).count s

/-- Lines 42-52 and 56-66: the names pushed on `input_nodes` / `output_nodes`. -/
def designated : JSONValue → List String
  | .str s => [s]
  | .arr l => l
  | _ => []

/-! ## The graph -/

/-- The struct `NetGraphConnection` of `NetGraph.h`. -/
structure NetGraphConnection where
  node : Option Nat
  buffer : Nat
  backprop : Bool
deriving DecidableEq, Repr

/-- The layer wrapped by a node: built from a node description with an injected seed,
an `ErrorLayer`, a training (dataset input) layer, or any other layer. -/
inductive LayerKind where
  | json (seed : Nat)
  | error
  | training
  | other
deriving DecidableEq, Repr

/-- The fields of `NetGraphNode` used by the factory. The class is declared in
`NetGraphNode.h`, which is not part of the sources at hand; a node that a constructor has
just made has `unique_id = -1` and `is_output = false`. -/
structure NetGraphNode where
  unique_name : String
  unique_id : Int
  input_connections : List NetGraphConnection
  is_output : Bool
  layer : LayerKind
deriving DecidableEq, Repr

/-- The data members of `NetGraph` that node insertion touches. -/
structure NetGraph where
  nodes_ : List NetGraphNode
  output_nodes_ : List Nat
  loss_nodes_ : List Nat
  training_nodes_ : List (Option Nat)
  last_uid : Int
deriving DecidableEq, Repr

/-- The names of the nodes of the graph, in node-list order. -/
def NetGraph.names (g : NetGraph) : List String :=
  g.nodes_.map NetGraphNode.unique_name

/-- Modelled from the spec: `NetGraph::ContainsNode` is not part of the sources at hand.
Lookup by name. -/
def NetGraph.ContainsNode (g : NetGraph) (name : String) : Bool :=
  decide (name ∈ g.names)

/-- Modelled from the spec: `NetGraph::GetNode` is not part of the sources at hand.
Lookup by name; a null/absent result for unknown names. -/
def NetGraph.GetNode (g : NetGraph) (name : String) : Option Nat :=
  if name ∈ g.names then some (g.names.indexOf name) else none

/-- Modelled from the spec: `NetGraph::AddNode` is declared in `NetGraph.h` but its body is
not part of the sources at hand. It appends the node to the node list, assigns it the next
id, classifies it into the role lists and makes it available to lookup by name; it fails
(`none`) if a node with the same name already exists. -/
def NetGraph.AddNode (g : NetGraph) (node : NetGraphNode) : Option NetGraph :=
  if g.ContainsNode node.unique_name then none
  else
    let idx := g.nodes_.length
    some
      { nodes_ := g.nodes_ ++ [{ node with unique_id := g.last_uid + 1 }]
        output_nodes_ := if node.is_output then g.output_nodes_ ++ [idx] else g.output_nodes_
        loss_nodes_ := if node.layer = LayerKind.error then g.loss_nodes_ ++ [idx]
          else g.loss_nodes_
        training_nodes_ := if node.layer = LayerKind.training
          then g.training_nodes_ ++ [some idx] else g.training_nodes_
        last_uid := g.last_uid + 1 }

/-! ## `AddLayers` -/

/-- The ways in which a call of `AddLayers` ends, with the graph at that point. -/
inductive Outcome where
  /-- Line 28: `return false`, no `nodes` entry. -/
  | noNodes (g : NetGraph)
  /-- Line 35: element 0 of an empty `training_nodes_` is read. -/
  | outOfBounds (g : NetGraph)
  /-- Line 40: `return false`, the dataset input node is `nullptr`. -/
  | noTrainingNode (g : NetGraph)
  /-- Line 132: `return false`, a source node is missing. -/
  | missingSource (name : String) (g : NetGraph)
  /-- Line 160: `return false`, reporting `suspect_node`. -/
  | invalid (suspect_node : String) (g : NetGraph)
  /-- Line 169: `return false`, an output node is missing. -/
  | missingOutput (name : String) (g : NetGraph)
  /-- The call `AddNode` failed. -/
  | addNodeFailed (g : NetGraph)
  /-- Lines 179-180: `Initialize()` is called and `IsComplete()` is returned. -/
  | initialized (g : NetGraph)
deriving DecidableEq, Repr

/-- The graph at the end of the call. -/
def Outcome.graph : Outcome → NetGraph
  | .noNodes g => g
  | .outOfBounds g => g
  | .noTrainingNode g => g
  | .missingSource _ g => g
  | .invalid _ g => g
  | .missingOutput _ g => g
  | .addNodeFailed g => g
  | .initialized g => g

/-- The locals `can_insert_node`, `suspect_node` and `node_input_connections`. -/
structure InputCheck where
  can_insert_node : Bool
  suspect_node : String
  node_input_connections : List String
deriving DecidableEq, Repr

/-- Lines 92-98 (and 103-109): the check of one input reference `s` of node `key`. -/
def checkInput (graph : NetGraph) (nodes_json : List (String × JSONValue)) (key s : String)
    (c : InputCheck) : InputCheck :=
  let graph_contains_node := graph.ContainsNode s
  { can_insert_node := c.can_insert_node && graph_contains_node
    suspect_node :=
      if !graph_contains_node && jsonCount nodes_json s != 1 then key else c.suspect_node
    node_input_connections := c.node_input_connections ++ [s] }

/-- Lines 100-110: `for (unsigned int i = 0; i < node_json["input"].size();) { ... }`.
The statement has no increment expression and the body does not assign `i`, so the
recursive call is made with the same `i`. -/
def inputArrayLoop (graph : NetGraph) (nodes_json : List (String × JSONValue)) (key : String)
    (input : List String) : Nat → Nat → InputCheck → Option InputCheck
  | 0, _, _ => none
  | fuel + 1, i, c =>
    if h : i < input.length then
      inputArrayLoop graph nodes_json key input fuel i
        (checkInput graph nodes_json key (input.get ⟨i, h⟩) c)
    else some c

/-- Lines 89-111: the check of the `input` entry of node `key`. -/
def checkInputs (fuel : Nat) (graph : NetGraph) (nodes_json : List (String × JSONValue))
    (key : String) (input : JSONValue) (c : InputCheck) : Option InputCheck :=
  match input with
  | .str s => some (checkInput graph nodes_json key s c)
  | .arr l => inputArrayLoop graph nodes_json key l fuel 0 c
  | _ => some c

/-- Lines 126-136: one backprop connection per entry of `node_input_connections`;
`Except.error s` is the `return false` of line 132. -/
def wireInputs (graph : NetGraph) :
    List String → List NetGraphConnection → Except String (List NetGraphConnection)
  | [], acc => .ok acc
  | s :: rest, acc =>
    match graph.GetNode s with
    | none => .error s
    | some source_node => wireInputs graph rest (acc ++ [⟨some source_node, 0, true⟩])

/-- Lines 139-144: a connection to the dataset input node for every entry of `input_nodes`
that equals the key. -/
def wireDatasetInput (dataset_input_node : Option Nat) (key : String) :
    List String → List NetGraphConnection → List NetGraphConnection
  | [], acc => acc
  | input_node_name :: rest, acc =>
    wireDatasetInput dataset_input_node key rest
      (if input_node_name = key then acc ++ [⟨dataset_input_node, 0, false⟩] else acc)

/-- Lines 147-149: the output flag. -/
def outputFlag (key : String) : List String → Bool → Bool
  | [], b => b
  | output_node_name :: rest, b =>
    outputFlag key rest (if output_node_name = key then true else b)

/-- The locals of one round of the `while` loop, with the graph and the number of values
drawn from `rand` so far. -/
structure ScanState where
  graph : NetGraph
  draws : Nat
  inserted_a_node : Bool
  should_have_inserted_a_node : Bool
  suspect_node : String
deriving DecidableEq, Repr

/-- The parts of the call that stay fixed during the loop. -/
structure Context where
  rand : Nat → Nat
  nodes_json : List (String × JSONValue)
  input_nodes : List String
  output_nodes : List String
  dataset_input_node : Option Nat

/-- Lines 113-154: assembly and insertion of node `key`. -/
def insertNode (ctx : Context) (key : String) (c : InputCheck) (st : ScanState) :
    Except Outcome ScanState :=
  let new_random_seed := ctx.rand st.draws
  match wireInputs st.graph c.node_input_connections [] with
  | .error s => .error (.missingSource s st.graph)
  | .ok conns =>
    let node : NetGraphNode :=
      { unique_name := key
        unique_id := -1
        input_connections := wireDatasetInput ctx.dataset_input_node key ctx.input_nodes conns
        is_output := outputFlag key ctx.output_nodes false
        layer := .json new_random_seed }
    match st.graph.AddNode node with
    | none => .error (.addNodeFailed st.graph)
    | some g =>
      .ok { st with graph := g, draws := st.draws + 1, inserted_a_node := true,
                    suspect_node := c.suspect_node }

/-- Lines 75-155: the `for` loop over the declared nodes, from the position `rest`. -/
def scanNodes (ctx : Context) (fuel : Nat) :
    List (String × JSONValue) → ScanState → Option (Except Outcome ScanState)
  | [], st => some (.ok st)
  | (key, input) :: rest, st =>
    if st.graph.ContainsNode key then scanNodes ctx fuel rest st
    else
      let st1 := { st with should_have_inserted_a_node := true }
      match checkInputs fuel st1.graph ctx.nodes_json key input ⟨true, st1.suspect_node, []⟩ with
      | none => none
      | some c =>
        if c.can_insert_node then
          match insertNode ctx key c st1 with
          | .error o => some (.error o)
          | .ok st2 => scanNodes ctx fuel rest st2
        else scanNodes ctx fuel rest { st1 with suspect_node := c.suspect_node }

/-- What the `while` loop hands on when it is left by `break`; `rounds` counts the
executions of its body. -/
structure LoopExit where
  graph : NetGraph
  draws : Nat
  rounds : Nat
deriving DecidableEq, Repr

/-- Lines 70-162: the `while(true)` loop; `rounds` executions of the body are done. -/
def insertionLoop (ctx : Context) (fuel : Nat) :
    Nat → NetGraph → Nat → Nat → Option (Except Outcome LoopExit)
  | 0, _, _, _ => none
  | n + 1, graph, draws, rounds =>
    match scanNodes ctx fuel ctx.nodes_json ⟨graph, draws, false, false, ""⟩ with
    | none => none
    | some (.error o) => some (.error o)
    | some (.ok st) =>
      if !st.inserted_a_node && !st.should_have_inserted_a_node then
        some (.ok ⟨st.graph, st.draws, rounds + 1⟩)
      else if !st.inserted_a_node && st.should_have_inserted_a_node then
        some (.error (.invalid st.suspect_node st.graph))
      else insertionLoop ctx fuel n st.graph st.draws (rounds + 1)

/-- Lines 165-177: the loss layers of the outputs. -/
def addLossLayers (dataset_input_node : Option Nat) : List String → NetGraph → Outcome
  | [], graph => .initialized graph
  | output_node_name :: rest, graph =>
    match graph.GetNode output_node_name with
    | none => .missingOutput output_node_name graph
    | some output_node =>
      let error_node : NetGraphNode :=
        { unique_name := "loss_" ++ output_node_name
          unique_id := -1
          input_connections :=
            [⟨some output_node, 0, true⟩, ⟨dataset_input_node, 1, false⟩,
             ⟨dataset_input_node, 3, false⟩]
          is_output := false
          layer := .error }
      match graph.AddNode error_node with
      | none => .addNodeFailed graph
      | some g => addLossLayers dataset_input_node rest g

/-- The context of the loop, from the configuration and the dataset input node. -/
def mkContext (mt19937 : Nat → Nat → Nat) (net_json_ : NetJSON)
    (nodes_json : List (String × JSONValue)) (dataset_input_node : Option Nat) (seed : Nat) :
    Context :=
  { rand := mt19937 seed
    nodes_json := nodes_json
    input_nodes := designated net_json_.input
    output_nodes := designated net_json_.output
    dataset_input_node := dataset_input_node }

/-- The function `JSONNetGraphFactory::AddLayers(NetGraph &graph, unsigned int seed)`. -/
def AddLayers (mt19937 : Nat → Nat → Nat) (net_json_ : NetJSON) (fuel : Nat)
    (graph : NetGraph) (seed : Nat) : Option Outcome :=
  match net_json_.nodes with
  | none => some (.noNodes graph)
  | some nodes_json =>
    match graph.training_nodes_ with
    | [] => some (.outOfBounds graph)
    | dataset_input_node :: _ =>
      if net_json_.input ≠ .absent ∧ dataset_input_node = none then
        some (.noTrainingNode graph)
      else
        let ctx := mkContext mt19937 net_json_ nodes_json dataset_input_node seed
        match insertionLoop ctx fuel fuel graph 0 0 with
        | none => none
        | some (.error o) => some o
        | some (.ok e) => some (addLossLayers dataset_input_node ctx.output_nodes e.graph)

/-- The value returned by `AddLayers`, given the effect of `Initialize()` and the
predicate `IsComplete()` (both outside the sources at hand); reading past the end of
`training_nodes_` and a failing `AddNode` return nothing. -/
def Outcome.returned (Initialize : NetGraph → NetGraph) (IsComplete : NetGraph → Bool) :
    Outcome → Option Bool
  | .outOfBounds _ => none
  | .addNodeFailed _ => none
  | .initialized g => some (IsComplete (Initialize g))
  | _ => some false

/-! ## `AddLayers` with `AddNode` as a parameter

`NetGraph.h` declares `void AddNode(NetGraphNode* node)`; the body is not part of the
sources at hand, and `AddLayers` tests nothing after a call (lines 152 and 176). What a call
does with a name that a node of the graph bears already is therefore left open in this
section: `add graph node` is the graph after the call, or `none` if the call does not come
back. The functions are those of the section before, with `add` in the place of
`NetGraph.AddNode`.
-/

/-- Modelled from the spec: what `NetGraph::AddNode` does with a node that it takes in. The
node is appended to the node list with the next id and classified into the role lists; the
name is not looked at. -/
def NetGraph.AddNodeUnchecked (g : NetGraph) (node : NetGraphNode) : NetGraph :=
  let idx := g.nodes_.length
  { nodes_ := g.nodes_ ++ [{ node with unique_id := g.last_uid + 1 }]
    output_nodes_ := if node.is_output then g.output_nodes_ ++ [idx] else g.output_nodes_
    loss_nodes_ := if node.layer = LayerKind.error then g.loss_nodes_ ++ [idx]
      else g.loss_nodes_
    training_nodes_ := if node.layer = LayerKind.training
      then g.training_nodes_ ++ [some idx] else g.training_nodes_
    last_uid := g.last_uid + 1 }

/-- Lines 113-154: assembly and insertion of node `key`, with `add` for `AddNode`. -/
def insertNodeVia (add : NetGraph → NetGraphNode → Option NetGraph) (ctx : Context)
    (key : String) (c : InputCheck) (st : ScanState) : Except Outcome ScanState :=
  let new_random_seed := ctx.rand st.draws
  match wireInputs st.graph c.node_input_connections [] with
  | .error s => .error (.missingSource s st.graph)
  | .ok conns =>
    let node : NetGraphNode :=
      { unique_name := key
        unique_id := -1
        input_connections := wireDatasetInput ctx.dataset_input_node key ctx.input_nodes conns
        is_output := outputFlag key ctx.output_nodes false
        layer := .json new_random_seed }
    match add st.graph node with
    | none => .error (.addNodeFailed st.graph)
    | some g =>
      .ok { st with graph := g, draws := st.draws + 1, inserted_a_node := true,
                    suspect_node := c.suspect_node }

/-- Lines 75-155: the `for` loop over the declared nodes, with `add` for `AddNode`. -/
def scanNodesVia (add : NetGraph → NetGraphNode → Option NetGraph) (ctx : Context)
    (fuel : Nat) : List (String × JSONValue) → ScanState → Option (Except Outcome ScanState)
  | [], st => some (.ok st)
  | (key, input) :: rest, st =>
    if st.graph.ContainsNode key then scanNodesVia add ctx fuel rest st
    else
      let st1 := { st with should_have_inserted_a_node := true }
      match checkInputs fuel st1.graph ctx.nodes_json key input ⟨true, st1.suspect_node, []⟩ with
      | none => none
      | some c =>
        if c.can_insert_node then
          match insertNodeVia add ctx key c st1 with
          | .error o => some (.error o)
          | .ok st2 => scanNodesVia add ctx fuel rest st2
        else scanNodesVia add ctx fuel rest { st1 with suspect_node := c.suspect_node }

/-- Lines 70-162: the `while(true)` loop, with `add` for `AddNode`. -/
def insertionLoopVia (add : NetGraph → NetGraphNode → Option NetGraph) (ctx : Context)
    (fuel : Nat) : Nat → NetGraph → Nat → Nat → Option (Except Outcome LoopExit)
  | 0, _, _, _ => none
  | n + 1, graph, draws, rounds =>
    match scanNodesVia add ctx fuel ctx.nodes_json ⟨graph, draws, false, false, ""⟩ with
    | none => none
    | some (.error o) => some (.error o)
    | some (.ok st) =>
      if !st.inserted_a_node && !st.should_have_inserted_a_node then
        some (.ok ⟨st.graph, st.draws, rounds + 1⟩)
      else if !st.inserted_a_node && st.should_have_inserted_a_node then
        some (.error (.invalid st.suspect_node st.graph))
      else insertionLoopVia add ctx fuel n st.graph st.draws (rounds + 1)

/-- Lines 165-177: the loss layers of the outputs, with `add` for `AddNode`. -/
def addLossLayersVia (add : NetGraph → NetGraphNode → Option NetGraph)
    (dataset_input_node : Option Nat) : List String → NetGraph → Outcome
  | [], graph => .initialized graph
  | output_node_name :: rest, graph =>
    match graph.GetNode output_node_name with
    | none => .missingOutput output_node_name graph
    | some output_node =>
      let error_node : NetGraphNode :=
        { unique_name := "loss_" ++ output_node_name
          unique_id := -1
          input_connections :=
            [⟨some output_node, 0, true⟩, ⟨dataset_input_node, 1, false⟩,
             ⟨dataset_input_node, 3, false⟩]
          is_output := false
          layer := .error }
      match add graph error_node with
      | none => .addNodeFailed graph
      | some g => addLossLayersVia add dataset_input_node rest g

/-- The function `JSONNetGraphFactory::AddLayers(NetGraph &graph, unsigned int seed)`, with
`add` for `AddNode`. -/
def AddLayersVia (add : NetGraph → NetGraphNode → Option NetGraph)
    (mt19937 : Nat → Nat → Nat) (net_json_ : NetJSON) (fuel : Nat) (graph : NetGraph)
    (seed : Nat) : Option Outcome :=
  match net_json_.nodes with
  | none => some (.noNodes graph)
  | some nodes_json =>
    match graph.training_nodes_ with
    | [] => some (.outOfBounds graph)
    | dataset_input_node :: _ =>
      if net_json_.input ≠ .absent ∧ dataset_input_node = none then
        some (.noTrainingNode graph)
      else
        let ctx := mkContext mt19937 net_json_ nodes_json dataset_input_node seed
        match insertionLoopVia add ctx fuel fuel graph 0 0 with
        | none => none
        | some (.error o) => some o
        | some (.ok e) =>
          some (addLossLayersVia add dataset_input_node ctx.output_nodes e.graph)

/-! ## The dataset input layer

A shallow embedding of `src/net/DatasetInputLayer.cpp`.

* The class `Dataset` is an external collaborator: a dataset is the record of what its
  member functions return. A fetch yields `true` or `false` for a batch slot and a sample
  index.
* A `CombinedTensor*` is `none` (`nullptr`) or the shape of the tensor; the contents of the
  weight tensor are kept per batch slot as the last thing written there.
* `generator_` is the state of the `std::mt19937` member; `std::shuffle` and the draws of
  the loss sampling are given by a record of functions on that state.
* The cursors are `unsigned int`. Each of the two increments is guarded by a comparison
  with a bound that is an `unsigned int` (resp. the size of a vector filled by a loop over
  one), so it does not wrap; the sum `elements_total_` is taken modulo `2^32`.
-/

/-- The enumeration `Task`; its declaration is not part of the sources at hand, the
enumerators are the ones that the sources name. -/
inductive Task where
  | SEMANTIC_SEGMENTATION
  | CLASSIFICATION
  | DETECTION
deriving DecidableEq, Repr

/-- The enumeration `Method`; its declaration is not part of the sources at hand, the
enumerators are the ones that the sources name. -/
inductive Method where
  | FCN
  | PATCH
deriving DecidableEq, Repr

/-- What the member functions of a `Dataset` return. -/
structure Dataset where
  GetTrainingSamples : Nat
  GetTestingSamples : Nat
  GetTask : Task
  GetMethod : Method
  GetWidth : Nat
  GetHeight : Nat
  GetLabelMaps : Nat
  GetInputMaps : Nat
  GetTrainingSample : Nat → Nat → Bool
  GetTestingSample : Nat → Nat → Bool
  GetTrainingMetadata : Nat → Nat → Bool
  GetTestingMetadata : Nat → Nat → Bool

/-- The local variable of `CreateOutputs` that a new tensor is bound to. -/
inductive BufferRole where
  | data_output
  | label_output
  | helper_output
  | localized_error_output
deriving DecidableEq, Repr

/-- The shape of a `CombinedTensor` and whether a metadata buffer is attached to it. The
constructor is declared outside the sources at hand; the arguments that a call leaves out
are taken to be 1. -/
structure CombinedTensor where
  role : BufferRole
  samples : Nat
  width : Nat
  height : Nat
  maps : Nat
  metadata : Bool
deriving DecidableEq, Repr

/-- The class `NetGraphBuffer` of `NetGraph.h`. -/
structure NetGraphBuffer where
  description : String
  combined_tensor : Option CombinedTensor
deriving DecidableEq, Repr

/-- What one batch slot of the weight (localized error) tensor holds: nothing yet, what the
dataset has put there for a sample, that after the loss sampling of lines 251-266, or the
zeros of `Clear (0.0, sample)`. -/
inductive WeightData where
  | unwritten
  | loaded (testing : Bool) (element : Nat)
  | sampled (element : Nat)
  | cleared
deriving DecidableEq, Repr

/-- The data members of `DatasetInputLayer`. -/
structure DatasetInputLayer where
  active_dataset_ : Dataset
  batch_size_ : Nat
  label_maps_ : Nat
  input_maps_ : Nat
  elements_training_ : Nat
  elements_testing_ : Nat
  elements_total_ : Nat
  perm_ : List Nat
  current_element_ : Nat
  current_element_testing_ : Nat
  testing_ : Bool
  generator_ : Nat
  data_output_ : Option CombinedTensor
  label_output_ : Option CombinedTensor
  helper_output_ : Option CombinedTensor
  localized_error_output_ : Option CombinedTensor
  metadata_buffer_ : Bool
  localized_error_data : Nat → WeightData

/-- The library functions that use `generator_`: `shuffle g l` is the result of
`std::shuffle` on `l` in generator state `g`, with the state afterwards; `lossSampling g w h`
is the state after the draws of lines 255-265 for a weight tensor of width `w` and
height `h`. -/
structure Generator where
  shuffle : Nat → List Nat → List Nat × Nat
  lossSampling : Nat → Nat → Nat → Nat

/-- The ways in which a member function ends without returning: a read past the end of a
vector, the use of a null tensor pointer, and `FATAL`. -/
inductive Abort where
  | outOfBounds
  | nullPointer
  | fatal (message : String)
deriving DecidableEq, Repr

/-- A call of `GetTestingSample` or `GetTrainingSample`: the batch slot, the sample index,
the mode, and whether the weight of the slot is forced to zero. -/
structure Selection where
  sample : Nat
  selected_element : Nat
  testing : Bool
  force_no_weight : Bool
deriving DecidableEq, Repr

/-- The function `DatasetInputLayer::RedoPermutation`, lines 314-317. -/
def DatasetInputLayer.RedoPermutation (rnd : Generator) (L : DatasetInputLayer) :
    DatasetInputLayer :=
  { L with perm_ := (rnd.shuffle L.generator_ L.perm_).1
           generator_ := (rnd.shuffle L.generator_ L.perm_).2 }

/-- The function `DatasetInputLayer::SetActiveDataset`, lines 53-75. -/
def DatasetInputLayer.SetActiveDataset (rnd : Generator) (L : DatasetInputLayer)
    (dataset : Dataset) : DatasetInputLayer :=
  let L1 : DatasetInputLayer :=
    { L with active_dataset_ := dataset
             elements_training_ := dataset.GetTrainingSamples
             elements_testing_ := dataset.GetTestingSamples
             elements_total_ := (dataset.GetTrainingSamples + dataset.GetTestingSamples) % 2 ^ 32
             perm_ := List.range dataset.GetTrainingSamples }
  let L2 := L1.RedoPermutation rnd
  { L2 with current_element_testing_ := 0, current_element_ := 0 }

/-- Lines 211-237: the choice of the sample for one batch slot, with the layer afterwards
and `force_no_weight`. -/
def DatasetInputLayer.selectElement (rnd : Generator) (L : DatasetInputLayer) :
    Except Abort (Nat × Bool × DatasetInputLayer) :=
  if L.testing_ then
    if L.current_element_testing_ ≥ L.elements_testing_ then .ok (0, true, L)
    else
      .ok (L.current_element_testing_, false,
        { L with current_element_testing_ := L.current_element_testing_ + 1 })
  else
    if h : L.current_element_ < L.perm_.length then
      let selected_element := L.perm_.get ⟨L.current_element_, h⟩
      let L1 := { L with current_element_ := L.current_element_ + 1 }
      if L1.current_element_ ≥ L1.perm_.length then
        .ok (selected_element, false,
          DatasetInputLayer.RedoPermutation rnd { L1 with current_element_ := 0 })
      else .ok (selected_element, false, L1)
    else .error .outOfBounds

/-- The batch slot `sample` of the weight tensor is overwritten. -/
def DatasetInputLayer.writeWeight (L : DatasetInputLayer) (sample : Nat) (w : WeightData) :
    DatasetInputLayer :=
  { L with localized_error_data := Function.update L.localized_error_data sample w }

/-- Line 251: whether the loss sampling is done for this batch slot. -/
def DatasetInputLayer.samplesLoss (L : DatasetInputLayer) (force_no_weight : Bool) : Bool :=
  !L.testing_ && !force_no_weight && L.active_dataset_.GetMethod = Method.FCN
    && L.active_dataset_.GetTask = Task.SEMANTIC_SEGMENTATION

/-- Lines 243-270, the weights of batch slot `sample`: written by the dataset, thinned by
the loss sampling in training mode for `FCN` semantic segmentation, cleared if
`force_no_weight` is set. -/
def DatasetInputLayer.adjustWeights (rnd : Generator) (L : DatasetInputLayer)
    (weight : CombinedTensor) (sample selected_element : Nat) (force_no_weight : Bool) :
    DatasetInputLayer :=
  let L1 := L.writeWeight sample (.loaded L.testing_ selected_element)
  let L2 :=
    if L1.samplesLoss force_no_weight then
      DatasetInputLayer.writeWeight
        { L1 with generator_ := rnd.lossSampling L1.generator_ weight.width weight.height }
        sample (.sampled selected_element)
    else L1
  if force_no_weight then L2.writeWeight sample .cleared else L2

/-- Lines 242-245: the value of `success` after the fetch of the sample. -/
def DatasetInputLayer.fetchSample (L : DatasetInputLayer) (sample selected_element : Nat) :
    Bool :=
  if L.testing_ then L.active_dataset_.GetTestingSample sample selected_element
  else L.active_dataset_.GetTrainingSample sample selected_element

/-- Lines 273-278: the value of `success` after the fetch of the metadata, which only a
detection dataset is asked for. -/
def DatasetInputLayer.fetchMetadata (L : DatasetInputLayer) (sample selected_element : Nat)
    (success : Bool) : Bool :=
  if L.active_dataset_.GetTask = Task.DETECTION then
    if L.testing_ then L.active_dataset_.GetTestingMetadata sample selected_element
    else L.active_dataset_.GetTrainingMetadata sample selected_element
  else success

/-- Lines 239-282: the sample is copied into batch slot `sample`. -/
def DatasetInputLayer.loadSample (rnd : Generator) (L : DatasetInputLayer)
    (sample selected_element : Nat) (force_no_weight : Bool) :
    Except Abort DatasetInputLayer :=
  match L.data_output_, L.label_output_, L.helper_output_, L.localized_error_output_ with
  | some _, some _, some _, some weight =>
    let success := L.fetchSample sample selected_element
    if !success then .error (.fatal "Cannot load samples from Dataset!")
    else if !L.fetchMetadata sample selected_element success then
      .error (.fatal "Cannot load metadata from Dataset!")
    else .ok (L.adjustWeights rnd weight sample selected_element force_no_weight)
  | _, _, _, _ => .error .nullPointer

/-- Lines 210-283: the body of the loop for batch slot `sample`, with the call made to the
dataset. -/
def DatasetInputLayer.sampleStep (rnd : Generator) (L : DatasetInputLayer) (sample : Nat) :
    Except Abort (DatasetInputLayer × Selection) :=
  match L.selectElement rnd with
  | .error a => .error a
  | .ok (selected_element, force_no_weight, L1) =>
    match L1.loadSample rnd sample selected_element force_no_weight with
    | .error a => .error a
    | .ok L2 => .ok (L2, ⟨sample, selected_element, L.testing_, force_no_weight⟩)

/-- The body of the loop for the batch slots `slots`, one after the other, with the calls
made to the dataset. -/
def DatasetInputLayer.sampleSteps (rnd : Generator) :
    List Nat → DatasetInputLayer → Except Abort (DatasetInputLayer × List Selection)
  | [], L => .ok (L, [])
  | sample :: rest, L =>
    match L.sampleStep rnd sample with
    | .error a => .error a
    | .ok (L1, sel) =>
      match DatasetInputLayer.sampleSteps rnd rest L1 with
      | .error a => .error a
      | .ok (L2, sels) => .ok (L2, sel :: sels)

/-- The function `DatasetInputLayer::SelectAndLoadSamples`, lines 203-284 (without
`BUILD_OPENCL`). -/
def DatasetInputLayer.SelectAndLoadSamples (rnd : Generator) (L : DatasetInputLayer) :
    Except Abort (DatasetInputLayer × List Selection) :=
  DatasetInputLayer.sampleSteps rnd (List.range L.batch_size_) L

/-- The function `DatasetInputLayer::SetTestingMode`, lines 319-332. -/
def DatasetInputLayer.SetTestingMode (L : DatasetInputLayer) (testing : Bool) :
    DatasetInputLayer :=
  let L1 :=
    if testing != L.testing_ then
      if testing then { L with current_element_testing_ := 0 } else L
    else L
  { L1 with testing_ := testing }

/-- The function `DatasetInputLayer::CreateOutputs`, lines 77-173: the value returned and
the vector `outputs` afterwards. -/
def DatasetInputLayer.CreateOutputs (L : DatasetInputLayer)
    (inputs outputs : List (Option CombinedTensor)) : Bool × List (Option CombinedTensor) :=
  if inputs.length ≠ 0 then (false, outputs)
  else
    let ds := L.active_dataset_
    if ds.GetTask = Task.SEMANTIC_SEGMENTATION then
      if ds.GetMethod = Method.FCN then
        (true, outputs ++
          [some ⟨.data_output, L.batch_size_, ds.GetWidth, ds.GetHeight, L.input_maps_, false⟩,
           some ⟨.label_output, L.batch_size_, ds.GetWidth, ds.GetHeight, L.label_maps_, false⟩,
           some ⟨.helper_output, L.batch_size_, ds.GetWidth, ds.GetHeight, 2, false⟩,
           some ⟨.localized_error_output, L.batch_size_, ds.GetWidth, ds.GetHeight, 1, false⟩])
      else if ds.GetMethod = Method.PATCH then
        (true, outputs ++
          [some ⟨.data_output, L.batch_size_, ds.GetWidth, ds.GetHeight, L.input_maps_, false⟩,
           some ⟨.label_output, L.batch_size_, 1, 1, L.label_maps_, false⟩,
           some ⟨.helper_output, L.batch_size_, 1, 1, 2, false⟩,
           some ⟨.localized_error_output, L.batch_size_, 1, 1, 1, false⟩])
      else (true, outputs)
    else if ds.GetTask = Task.CLASSIFICATION then
      (true, outputs ++
        [some ⟨.data_output, L.batch_size_, ds.GetWidth, ds.GetHeight, L.input_maps_, false⟩,
         some ⟨.label_output, L.batch_size_, 1, 1, L.label_maps_, false⟩,
         some ⟨.helper_output, L.batch_size_, 1, 1, 2, false⟩,
         some ⟨.localized_error_output, L.batch_size_, 1, 1, 1, false⟩])
    else if ds.GetTask = Task.DETECTION then
      (true, outputs ++
        [some ⟨.data_output, L.batch_size_, ds.GetWidth, ds.GetHeight, L.input_maps_, false⟩,
         some ⟨.label_output, L.batch_size_, 1, 1, 1, true⟩,
         some ⟨.helper_output, L.batch_size_, 1, 1, 1, false⟩,
         some ⟨.localized_error_output, 0, 1, 1, 1, false⟩])
    else (true, outputs)

/-- The function `DatasetInputLayer::Connect`, lines 175-201: lines 180-183 read the
elements 0 to 3 of `outputs` before its size is looked at. -/
def DatasetInputLayer.Connect (L : DatasetInputLayer)
    (inputs outputs : List (Option CombinedTensor)) : Except Abort (Bool × DatasetInputLayer) :=
  match outputs with
  | data_output :: label_output :: helper_output :: localized_error_output :: _ =>
    if data_output = none ∨ label_output = none ∨ localized_error_output = none then
      .ok (false, L)
    else
      let valid := inputs.length == 0 && outputs.length == 4
      if valid then
        let L1 := { L with data_output_ := data_output
                           label_output_ := label_output
                           helper_output_ := helper_output
                           localized_error_output_ := localized_error_output }
        let L2 :=
          if L1.active_dataset_.GetTask = Task.DETECTION then
            { L1 with metadata_buffer_ :=
                match L1.label_output_ with
                | some t => t.metadata
                | none => false }
          else L1
        .ok (valid, L2)
      else .ok (valid, L)
  | _ => .error .outOfBounds

/-- The function `DatasetInputLayer::CreateBufferDescriptors`, lines 334-347. -/
def DatasetInputLayer.CreateBufferDescriptors (buffers : List NetGraphBuffer) :
    List NetGraphBuffer :=
  buffers ++ [⟨"Data Output", none⟩, ⟨"Label", none⟩, ⟨"Helper", none⟩, ⟨"Weight", none⟩]

/-- The function `DatasetInputLayer::GetLabelWidth`, lines 298-300. -/
def DatasetInputLayer.GetLabelWidth (L : DatasetInputLayer) : Nat :=
  if L.active_dataset_.GetMethod = Method.PATCH ∨ L.active_dataset_.GetTask = Task.CLASSIFICATION
      ∨ L.active_dataset_.GetTask = Task.DETECTION then 1
  else L.active_dataset_.GetWidth

/-- The function `DatasetInputLayer::GetLabelHeight`, lines 302-304. -/
def DatasetInputLayer.GetLabelHeight (L : DatasetInputLayer) : Nat :=
  if L.active_dataset_.GetMethod = Method.PATCH ∨ L.active_dataset_.GetTask = Task.CLASSIFICATION
      ∨ L.active_dataset_.GetTask = Task.DETECTION then 1
  else L.active_dataset_.GetHeight

/-! ## Specification-level notions -/

/-- The connection `c`, held by the node at position `i`, has a source node that stands
at a strictly smaller position. -/
def NetGraphConnection.sourceBefore (c : NetGraphConnection) (i : Nat) : Prop :=
  match c.node with
  | some j => j < i
  | none => False

instance (c : NetGraphConnection) (i : Nat) : Decidable (c.sourceBefore i) := by
  unfold NetGraphConnection.sourceBefore
  cases c.node <;> infer_instance

/-- The node list is in topological order: the source of every connection of every node
precedes the node. -/
def NetGraph.TopologicalOrder (g : NetGraph) : Prop :=
  ∀ (i : Nat) (h : i < g.nodes_.length),
    ∀ c ∈ (g.nodes_.get ⟨i, h⟩).input_connections, c.sourceBefore i

/-- The pointer `dataset_input_node` read at line 35 (`none` also for an empty list). -/
def NetGraph.datasetInputNode (g : NetGraph) : Option Nat :=
  g.training_nodes_.headD none

/-- The loop context of a call of `AddLayers`. -/
def contextOf (mt19937 : Nat → Nat → Nat) (net_json_ : NetJSON) (graph : NetGraph)
    (seed : Nat) : Context :=
  mkContext mt19937 net_json_ (net_json_.nodes.getD []) graph.datasetInputNode seed

/-- The node that lines 113-150 assemble for the declared node `key` with entry `input`,
when all its sources are nodes of `g`. -/
def declaredNode (ctx : Context) (g : NetGraph) (key : String) (input : JSONValue)
    (seed : Nat) : NetGraphNode :=
  { unique_name := key
    unique_id := -1
    input_connections :=
      (designated input).map (fun s => ⟨g.GetNode s, 0, true⟩) ++
        List.replicate (ctx.input_nodes.count key) ⟨ctx.dataset_input_node, 0, false⟩
    is_output := decide (key ∈ ctx.output_nodes)
    layer := .json seed }

/-- The node that lines 171-175 assemble for the output `o`. -/
def lossNode (dataset_input_node : Option Nat) (g : NetGraph) (o : String) : NetGraphNode :=
  { unique_name := "loss_" ++ o
    unique_id := -1
    input_connections :=
      [⟨g.GetNode o, 0, true⟩, ⟨dataset_input_node, 1, false⟩, ⟨dataset_input_node, 3, false⟩]
    is_output := false
    layer := .error }

/-- The graph `g2` is obtained from `g` by successful calls of `AddNode`, each with a
declared node whose sources are present or with the loss node of a present output
among `outs`. -/
inductive Built (ctx : Context) (outs : List String) (g : NetGraph) : NetGraph → Prop where
  | refl : Built ctx outs g g
  | declared {g1 g2 : NetGraph} (key : String) (input : JSONValue) (seed : Nat) :
      Built ctx outs g g1 → (key, input) ∈ ctx.nodes_json →
      (∀ s ∈ designated input, s ∈ g1.names) →
      g1.AddNode (declaredNode ctx g1 key input seed) = some g2 → Built ctx outs g g2
  | loss {g1 g2 : NetGraph} (o : String) :
      Built ctx outs g g1 → o ∈ outs → o ∈ g1.names →
      g1.AddNode (lossNode ctx.dataset_input_node g1 o) = some g2 → Built ctx outs g g2

/-- Every entry of `training_nodes_` points to a node of the graph. -/
def NetGraph.TrainingNodesValid (g : NetGraph) : Prop :=
  ∀ p ∈ g.training_nodes_, ∃ d, p = some d ∧ d < g.nodes_.length

/-- The function `add` behaves as `AddNode` does on a name that is new to the graph, and
whenever a call comes back it has appended the node: the `AddNode` that refuses a name that
exists (spec 4.1) and the one that does not look at the name are both of this kind. -/
def AddNodeLike (add : NetGraph → NetGraphNode → Option NetGraph) : Prop :=
  ∀ (g : NetGraph) (node : NetGraphNode),
    (node.unique_name ∉ g.names → add g node = some (g.AddNodeUnchecked node)) ∧
      ∀ g2, add g node = some g2 → g2 = g.AddNodeUnchecked node

/-- The `AddNode` that takes in every node, whatever its name. -/
def addNodeAlways (g : NetGraph) (node : NetGraphNode) : Option NetGraph :=
  some (g.AddNodeUnchecked node)

/-- The graphs that calls of `AddNode` make of the graph of a new `NetGraph` object (the
data members are private, and `AddNode` is the one member function that inserts). -/
inductive NetGraph.Constructed : NetGraph → Prop where
  | fresh : NetGraph.Constructed ⟨[], [], [], [], -1⟩
  | addNode {g : NetGraph} (node : NetGraphNode) :
      NetGraph.Constructed g → NetGraph.Constructed (g.AddNodeUnchecked node)

/-- No declared node has a non-empty `input` array. -/
def NoInputList (nodes_json : List (String × JSONValue)) : Prop :=
  ∀ p ∈ nodes_json, ∀ (a : String) (l : List String), p.2 ≠ .arr (a :: l)

/-- The number of declared nodes that are not in the graph. -/
def absentCount (nodes_json : List (String × JSONValue)) (g : NetGraph) : Nat :=
  nodes_json.countP fun p => !g.ContainsNode p.1

/-- The declared node `p` is not in the graph and its `input` names neither a node of the
graph nor a declared node, as tested at lines 95 and 106. -/
def Dangling (nodes_json : List (String × JSONValue)) (g : NetGraph)
    (p : String × JSONValue) : Prop :=
  p.1 ∉ g.names ∧ ∃ s, p.2 = .str s ∧ s ∉ g.names ∧ jsonCount nodes_json s ≠ 1

/-- No dangling and no cyclic input references: every input reference names a node of the
graph or a declared node of strictly smaller rank. -/
def Resolvable (nodes_json : List (String × JSONValue)) (g : NetGraph) (rank : String → Nat) :
    Prop :=
  ∀ p ∈ nodes_json, ∀ s ∈ designated p.2,
    s ∈ g.names ∨ ((∃ input, (s, input) ∈ nodes_json) ∧ rank s < rank p.1)

/-- The graph held when a scan or the loop is left. -/
def exitGraph {α : Type} (graphOf : α → NetGraph) : Except Outcome α → NetGraph
  | .ok a => graphOf a
  | .error o => o.graph

/-- The layers of nodes built from declarations with the values number `d`, `d + 1`, ...,
`d + m - 1` of the generator as their seeds. -/
def seedsFrom (rand : Nat → Nat) (d m : Nat) : List LayerKind :=
  (List.range' d m).map fun k => LayerKind.json (rand k)

/-- The four tensor pointers that `SelectAndLoadSamples` uses are set. -/
def DatasetInputLayer.Connected (L : DatasetInputLayer) : Prop :=
  L.data_output_ ≠ none ∧ L.label_output_ ≠ none ∧ L.helper_output_ ≠ none ∧
    L.localized_error_output_ ≠ none

/-- The dataset delivers every sample and every metadata record that it is asked for. -/
def Dataset.Delivers (ds : Dataset) : Prop :=
  ∀ sample element : Nat,
    ds.GetTrainingSample sample element = true ∧ ds.GetTestingSample sample element = true ∧
    ds.GetTrainingMetadata sample element = true ∧ ds.GetTestingMetadata sample element = true

/-- The fetches that one passage through the loop body makes for batch slot `sample` and
sample index `element` succeed: that of lines 242-245 and, for a detection dataset, that of
lines 273-278, each in the mode of the layer. Otherwise the passage ends in `FATAL`. -/
def DatasetInputLayer.Loads (L : DatasetInputLayer) (sample element : Nat) : Prop :=
  L.fetchSample sample element = true ∧ L.fetchMetadata sample element true = true

instance (L : DatasetInputLayer) (sample element : Nat) : Decidable (L.Loads sample element) := by
  unfold DatasetInputLayer.Loads
  infer_instance

/-- The contract of `std::shuffle`: the result is a permutation of the argument. -/
def Generator.Shuffles (rnd : Generator) : Prop :=
  ∀ (g : Nat) (l : List Nat), (rnd.shuffle g l).1.Perm l

/-- The layers that arise from a call of `SetActiveDataset` (the constructor ends with one)
by calls of `SelectAndLoadSamples` that return and calls of `SetTestingMode`. -/
inductive DatasetInputLayer.Reachable (rnd : Generator) : DatasetInputLayer → Prop where
  | setActive (L : DatasetInputLayer) (dataset : Dataset) :
      DatasetInputLayer.Reachable rnd (L.SetActiveDataset rnd dataset)
  | select {L L2 : DatasetInputLayer} {sels : List Selection} :
      DatasetInputLayer.Reachable rnd L → L.SelectAndLoadSamples rnd = .ok (L2, sels) →
      DatasetInputLayer.Reachable rnd L2
  | setTesting {L : DatasetInputLayer} (testing : Bool) :
      DatasetInputLayer.Reachable rnd L → DatasetInputLayer.Reachable rnd (L.SetTestingMode testing)

/-- The layers at the head of the loop body of `SelectAndLoadSamples`, within a call or
between two calls: those that arise from a call of `SetActiveDataset` by passages through
the loop body that come back and by calls of `SetTestingMode`. -/
inductive DatasetInputLayer.SlotReachable (rnd : Generator) : DatasetInputLayer → Prop where
  | setActive (L : DatasetInputLayer) (dataset : Dataset) :
      DatasetInputLayer.SlotReachable rnd (L.SetActiveDataset rnd dataset)
  | slot {L L2 : DatasetInputLayer} {sel : Selection} (sample : Nat) :
      DatasetInputLayer.SlotReachable rnd L → L.sampleStep rnd sample = .ok (L2, sel) →
      DatasetInputLayer.SlotReachable rnd L2
  | setTesting {L : DatasetInputLayer} (testing : Bool) :
      DatasetInputLayer.SlotReachable rnd L →
      DatasetInputLayer.SlotReachable rnd (L.SetTestingMode testing)

/-- What holds of the cursors and the permutation in every reachable layer. -/
def DatasetInputLayer.CursorsValid (L : DatasetInputLayer) : Prop :=
  L.perm_.Perm (List.range L.elements_training_) ∧
    (0 < L.elements_training_ → L.current_element_ < L.perm_.length) ∧
    L.current_element_testing_ ≤ L.elements_testing_

/-! ## Example inputs -/

/-- A stand-in for the generator: the `k`-th value for seed `s` is `s + k`. -/
def countingGenerator : Nat → Nat → Nat := fun seed k => seed + k

/-- A graph that holds a dataset input node only. -/
def dataGraph : NetGraph :=
  ⟨[⟨"data", 0, [], false, .training⟩], [], [], [some 0], 0⟩

/-- A graph that holds a dataset input node and a node named `A`. -/
def presentGraph : NetGraph :=
  ⟨[⟨"data", 0, [], false, .training⟩, ⟨"A", 1, [], false, .other⟩], [], [], [some 0], 1⟩

/-- A graph that holds a dataset input node and a node named `src`. -/
def sourceGraph : NetGraph :=
  ⟨[⟨"data", 0, [], false, .training⟩, ⟨"src", 1, [], false, .other⟩], [], [], [some 0], 1⟩

/-- The chain `A → B → C`, visited in the order `C`, `A`, `B`. -/
def chainConfig : NetJSON :=
  ⟨some [("C", .str "B"), ("A", .absent), ("B", .str "A")], .absent, .absent⟩

/-- The chain `A → B → C`, visited in the order of the keys. -/
def chainConfigByKey : NetJSON :=
  ⟨some [("A", .absent), ("B", .str "A"), ("C", .str "B")], .absent, .absent⟩

/-- The chain `A → B → C` with output `C`. -/
def chainOutputConfig : NetJSON :=
  ⟨some [("C", .str "B"), ("A", .absent), ("B", .str "A")], .absent, .str "C"⟩

/-- The ranks of the nodes of the chain. -/
def chainRank : String → Nat := fun s => if s = "A" then 0 else if s = "B" then 1 else 2

/-- One node without input. -/
def singleNodeConfig : NetJSON := ⟨some [("A", .absent)], .absent, .absent⟩

/-- The node `A` refers to `Z`, which is declared nowhere. -/
def danglingConfig : NetJSON := ⟨some [("A", .str "Z")], .absent, .absent⟩

/-- The node `A` has no input; the node `B` refers to `Z`, which is declared nowhere. -/
def partialConfig : NetJSON := ⟨some [("A", .absent), ("B", .str "Z")], .absent, .absent⟩

/-- The node `A` reads `src` and is named twice among the dataset-fed inputs. -/
def doubleInputConfig : NetJSON := ⟨some [("A", .str "src")], .arr ["A", "A"], .absent⟩

/-- The node `A` reads `src`, is fed by the dataset and is the output. -/
def inputOutputConfig : NetJSON := ⟨some [("A", .str "src")], .str "A", .str "A"⟩

/-- The node `N` lists the one source `data`. -/
def listInputConfig : NetJSON := ⟨some [("N", .arr ["data"])], .absent, .absent⟩

/-- The outputs `Z` and `A`, of which only `A` is declared. -/
def missingFirstOutputConfig : NetJSON := ⟨some [("A", .absent)], .absent, .arr ["Z", "A"]⟩

/-- The output `X` named twice. -/
def repeatedOutputConfig : NetJSON := ⟨some [("X", .absent)], .absent, .arr ["X", "X"]⟩

/-- The cycle `A → B → A`. -/
def cycleConfig : NetJSON := ⟨some [("A", .str "B"), ("B", .str "A")], .absent, .absent⟩

/-- A configuration without a `nodes` entry. -/
def noNodesConfig : NetJSON := ⟨none, .str "A", .str "A"⟩

/-- A graph with one node and an empty list of training nodes. -/
def noTrainingGraph : NetGraph := ⟨[⟨"src", 0, [], false, .other⟩], [], [], [], 0⟩

/-- The node `A` reads `src` and is fed by the dataset. -/
def datasetFedConfig : NetJSON := ⟨some [("A", .str "src")], .str "A", .absent⟩

/-- A generator whose shuffle reverses the list and whose every use advances the state. -/
def reversingGenerator : Generator :=
  ⟨fun g l => (l.reverse, g + 1), fun g _ _ => g + 1⟩

/-- A dataset for semantic segmentation with 3 training and 2 testing samples that
delivers whatever it is asked for. -/
def smallDataset : Dataset :=
  ⟨3, 2, .SEMANTIC_SEGMENTATION, .FCN, 4, 4, 2, 3, fun _ _ => true, fun _ _ => true,
    fun _ _ => true, fun _ _ => true⟩

/-- A dataset without training samples. -/
def emptyDataset : Dataset :=
  ⟨0, 2, .CLASSIFICATION, .PATCH, 4, 4, 2, 3, fun _ _ => true, fun _ _ => true,
    fun _ _ => true, fun _ _ => true⟩

/-- A layer with batch size 2 before `SetActiveDataset`, with its four tensors connected. -/
def blankLayer (dataset : Dataset) (testing : Bool) : DatasetInputLayer :=
  { active_dataset_ := dataset
    batch_size_ := 2
    label_maps_ := dataset.GetLabelMaps
    input_maps_ := dataset.GetInputMaps
    elements_training_ := 0
    elements_testing_ := 0
    elements_total_ := 0
    perm_ := []
    current_element_ := 0
    current_element_testing_ := 0
    testing_ := testing
    generator_ := 0
    data_output_ := some ⟨.data_output, 2, 4, 4, 3, false⟩
    label_output_ := some ⟨.label_output, 2, 4, 4, 2, false⟩
    helper_output_ := some ⟨.helper_output, 2, 4, 4, 2, false⟩
    localized_error_output_ := some ⟨.localized_error_output, 2, 4, 4, 1, false⟩
    metadata_buffer_ := false
    localized_error_data := fun _ => .unwritten }

/-- The layer for `smallDataset` in training mode, after `SetActiveDataset`. -/
def trainingLayer : DatasetInputLayer :=
  (blankLayer smallDataset false).SetActiveDataset reversingGenerator smallDataset

/-- The layer for `smallDataset` in testing mode, after `SetActiveDataset`. -/
def testingLayer : DatasetInputLayer :=
  (blankLayer smallDataset true).SetActiveDataset reversingGenerator smallDataset

/-- The layer for `emptyDataset` in training mode, after `SetActiveDataset`. -/
def emptyLayer : DatasetInputLayer :=
  (blankLayer emptyDataset false).SetActiveDataset reversingGenerator emptyDataset

/-- A dataset for semantic segmentation with 3 training and 2 testing samples that
refuses every sample index past its counts and has no metadata. -/
def checkedDataset : Dataset :=
  ⟨3, 2, .SEMANTIC_SEGMENTATION, .FCN, 4, 4, 2, 3, fun _ e => decide (e < 3),
    fun _ e => decide (e < 2), fun _ _ => false, fun _ _ => false⟩

/-- The layer for `checkedDataset` in training mode with batch size 2, after
`SetActiveDataset`. -/
def checkedTrainingLayer : DatasetInputLayer :=
  (blankLayer checkedDataset false).SetActiveDataset reversingGenerator checkedDataset

/-- The layer `checkedTrainingLayer` after three passages through the loop body, for the
slots 0, 1 and 0: one epoch is done and the second batch is half filled. -/
def secondEpochLayer : DatasetInputLayer :=
  match DatasetInputLayer.sampleSteps reversingGenerator [0, 1, 0] checkedTrainingLayer with
  | .ok (L, _) => L
  | .error _ => checkedTrainingLayer

/-- The layer for `checkedDataset` in testing mode with batch size 2, after
`SetActiveDataset`. -/
def checkedTestingLayer : DatasetInputLayer :=
  (blankLayer checkedDataset true).SetActiveDataset reversingGenerator checkedDataset

/-- The layer for `checkedDataset` in testing mode with batch size 3, after
`SetActiveDataset`. -/
def wideTestingLayer : DatasetInputLayer :=
  DatasetInputLayer.SetActiveDataset reversingGenerator
    { blankLayer checkedDataset true with batch_size_ := 3 } checkedDataset

/-! ## Lookup and insertion -/

theorem containsNode_iff (g : NetGraph) (s : String) :
    g.ContainsNode s = true ↔ s ∈ g.names := by
  simp [NetGraph.ContainsNode]

theorem containsNode_eq_false_iff (g : NetGraph) (s : String) :
    g.ContainsNode s = false ↔ s ∉ g.names := by
  simp [NetGraph.ContainsNode]

theorem getNode_of_mem {g : NetGraph} {s : String} (h : s ∈ g.names) :
    g.GetNode s = some (g.names.indexOf s) := by
  simp [NetGraph.GetNode, h]

theorem getNode_eq_some {g : NetGraph} {s : String} {i : Nat} (h : g.GetNode s = some i) :
    s ∈ g.names ∧ i = g.names.indexOf s ∧ i < g.nodes_.length := by
  unfold NetGraph.GetNode at h
  split at h
  · rename_i hm
    refine ⟨hm, by simpa using h.symm, ?_⟩
    have := List.indexOf_lt_length.2 hm
    simp only [Option.some.injEq] at h
    subst h
    simpa [NetGraph.names] using this
  · cases h

theorem addNode_some {g g2 : NetGraph} {node : NetGraphNode} (h : g.AddNode node = some g2) :
    node.unique_name ∉ g.names ∧
      g2.nodes_ = g.nodes_ ++ [{ node with unique_id := g.last_uid + 1 }] := by
  unfold NetGraph.AddNode at h
  split at h
  · cases h
  · rename_i hc
    simp only [Option.some.injEq] at h
    subst h
    exact ⟨by simpa [NetGraph.ContainsNode] using hc, rfl⟩

theorem addNode_names {g g2 : NetGraph} {node : NetGraphNode} (h : g.AddNode node = some g2) :
    g2.names = g.names ++ [node.unique_name] := by
  simp [NetGraph.names, (addNode_some h).2]

theorem addNode_of_not_mem (g : NetGraph) (node : NetGraphNode)
    (h : node.unique_name ∉ g.names) : ∃ g2, g.AddNode node = some g2 := by
  unfold NetGraph.AddNode
  rw [if_neg (by simpa [NetGraph.ContainsNode] using h)]
  exact ⟨_, rfl⟩

theorem addNode_none {g : NetGraph} {node : NetGraphNode} (h : g.AddNode node = none) :
    node.unique_name ∈ g.names := by
  by_contra hn
  obtain ⟨g2, h2⟩ := addNode_of_not_mem g node hn
  rw [h] at h2
  cases h2

/-! ## The pieces of one insertion -/

theorem inputArrayLoop_some {graph : NetGraph} {nodes_json : List (String × JSONValue)}
    {key : String} {input : List String} :
    ∀ (fuel i : Nat) (c c2 : InputCheck),
      inputArrayLoop graph nodes_json key input fuel i c = some c2 →
        ¬ i < input.length ∧ c2 = c := by
  intro fuel
  induction fuel with
  | zero => intro i c c2 h; simp [inputArrayLoop] at h
  | succ n ih =>
    intro i c c2 h
    unfold inputArrayLoop at h
    split at h
    · rename_i hlt
      exact absurd hlt (ih _ _ _ h).1
    · rename_i hlt
      exact ⟨hlt, by simpa using h.symm⟩

theorem inputArrayLoop_diverges {graph : NetGraph} {nodes_json : List (String × JSONValue)}
    {key : String} {input : List String} (fuel i : Nat) (c : InputCheck)
    (hi : i < input.length) :
    inputArrayLoop graph nodes_json key input fuel i c = none := by
  cases h : inputArrayLoop graph nodes_json key input fuel i c with
  | none => rfl
  | some c2 => exact absurd hi (inputArrayLoop_some fuel i c c2 h).1

/-- A check that comes back has met a string, an empty array or no reference at all. -/
theorem checkInputs_some {fuel : Nat} {graph : NetGraph}
    {nodes_json : List (String × JSONValue)} {key : String} {input : JSONValue}
    {c c2 : InputCheck} (h : checkInputs fuel graph nodes_json key input c = some c2) :
    c2.node_input_connections = c.node_input_connections ++ designated input ∧
      c2.can_insert_node =
        (c.can_insert_node && (designated input).all fun s => graph.ContainsNode s) := by
  cases input with
  | absent => simp [checkInputs] at h; subst h; simp [designated]
  | other => simp [checkInputs] at h; subst h; simp [designated]
  | str s => simp [checkInputs] at h; subst h; simp [designated, checkInput]
  | arr l =>
    simp only [checkInputs] at h
    obtain ⟨hl, rfl⟩ := inputArrayLoop_some _ _ _ _ h
    have : l = [] := by
      cases l with
      | nil => rfl
      | cons a t => simp at hl
    subst this
    simp [designated]

theorem wireInputs_ok (graph : NetGraph) :
    ∀ (l : List String) (acc : List NetGraphConnection), (∀ s ∈ l, s ∈ graph.names) →
      wireInputs graph l acc = .ok (acc ++ l.map fun s => ⟨graph.GetNode s, 0, true⟩) := by
  intro l
  induction l with
  | nil => intro acc _; simp [wireInputs]
  | cons s t ih =>
    intro acc h
    have hs : s ∈ graph.names := h s (List.mem_cons_self _ _)
    simp only [wireInputs, getNode_of_mem hs]
    rw [ih _ (fun x hx => h x (List.mem_cons_of_mem _ hx))]
    simp [getNode_of_mem hs]

theorem wireDatasetInput_eq (ds : Option Nat) (key : String) :
    ∀ (l : List String) (acc : List NetGraphConnection),
      wireDatasetInput ds key l acc = acc ++ List.replicate (l.count key) ⟨ds, 0, false⟩ := by
  intro l
  induction l with
  | nil => intro acc; simp [wireDatasetInput]
  | cons a t ih =>
    intro acc
    simp only [wireDatasetInput, ih]
    by_cases h : a = key
    · subst h
      simp [List.replicate_succ, List.append_assoc]
    · have h2 : (a == key) = false := by simpa using h
      simp [h, List.count_cons, h2]

theorem outputFlag_eq (key : String) :
    ∀ (l : List String) (b : Bool), outputFlag key l b = (b || decide (key ∈ l)) := by
  intro l
  induction l with
  | nil => intro b; simp [outputFlag]
  | cons a t ih =>
    intro b
    simp only [outputFlag, ih]
    by_cases h : a = key
    · subst h; simp
    · have h2 : ¬ key = a := fun e => h e.symm
      simp [h, h2]

/-- The effect of `insertNode` when every source is a node of the graph. -/
theorem insertNode_of_sources (ctx : Context) (key : String) (input : JSONValue)
    (c : InputCheck) (st : ScanState)
    (hc : c.node_input_connections = designated input)
    (hs : ∀ s ∈ designated input, s ∈ st.graph.names) :
    insertNode ctx key c st =
      match st.graph.AddNode (declaredNode ctx st.graph key input (ctx.rand st.draws)) with
      | none => .error (.addNodeFailed st.graph)
      | some g => .ok { st with graph := g, draws := st.draws + 1, inserted_a_node := true,
                                suspect_node := c.suspect_node } := by
  unfold insertNode
  rw [hc, wireInputs_ok _ _ _ hs]
  simp only [wireDatasetInput_eq, outputFlag_eq, List.nil_append, Bool.false_or]
  rfl

/-! ## Every graph that `AddLayers` leaves behind is built by insertions -/

theorem scanNodes_built (ctx : Context) (outs : List String) (fuel : Nat) (g : NetGraph) :
    ∀ (rest : List (String × JSONValue)) (st : ScanState) (r : Except Outcome ScanState),
      (∀ p ∈ rest, p ∈ ctx.nodes_json) → Built ctx outs g st.graph →
      scanNodes ctx fuel rest st = some r → Built ctx outs g (exitGraph ScanState.graph r) := by
  intro rest
  induction rest with
  | nil =>
    intro st r _ hb h
    simp only [scanNodes, Option.some.injEq] at h
    subst h
    exact hb
  | cons p rest ih =>
    obtain ⟨key, input⟩ := p
    intro st r hsub hb h
    have hrest : ∀ p ∈ rest, p ∈ ctx.nodes_json := fun p hp => hsub p (List.mem_cons_of_mem _ hp)
    simp only [scanNodes] at h
    split at h
    · exact ih st r hrest hb h
    · split at h
      · cases h
      · rename_i c hc
        obtain ⟨hconn, hcan⟩ := checkInputs_some hc
        simp only [List.nil_append] at hconn
        split at h
        · rename_i hins
          rw [hcan] at hins
          simp only [Bool.true_and, List.all_eq_true, containsNode_iff] at hins
          have hI := insertNode_of_sources ctx key input c
            { st with should_have_inserted_a_node := true } hconn hins
          simp only [hI] at h
          cases hadd : st.graph.AddNode (declaredNode ctx st.graph key input (ctx.rand st.draws)) with
          | none =>
            simp only [hadd, Option.some.injEq] at h
            subst h
            exact hb
          | some g2 =>
            simp only [hadd] at h
            exact ih _ r hrest
              (Built.declared key input _ hb (hsub _ (List.mem_cons_self _ _)) hins hadd) h
        · refine ih _ r hrest ?_ h
          exact hb

theorem insertionLoop_built (ctx : Context) (outs : List String) (fuel : Nat) (g : NetGraph) :
    ∀ (n : Nat) (graph : NetGraph) (draws rounds : Nat) (r : Except Outcome LoopExit),
      Built ctx outs g graph → insertionLoop ctx fuel n graph draws rounds = some r →
      Built ctx outs g (exitGraph LoopExit.graph r) := by
  intro n
  induction n with
  | zero => intro graph draws rounds r _ h; simp [insertionLoop] at h
  | succ n ih =>
    intro graph draws rounds r hb h
    simp only [insertionLoop] at h
    split at h
    · cases h
    · rename_i o hs
      simp only [Option.some.injEq] at h
      subst h
      exact scanNodes_built ctx outs fuel g _ _ _ (fun _ hp => hp) hb hs
    · rename_i st hs
      have hst := scanNodes_built ctx outs fuel g _ _ _ (fun _ hp => hp) hb hs
      split at h
      · simp only [Option.some.injEq] at h
        subst h
        exact hst
      · split at h
        · simp only [Option.some.injEq] at h
          subst h
          exact hst
        · exact ih _ _ _ r hst h

theorem addLossLayers_built (ctx : Context) (outs : List String) (g : NetGraph) :
    ∀ (l : List String) (graph : NetGraph), (∀ o ∈ l, o ∈ outs) →
      Built ctx outs g graph →
      Built ctx outs g (addLossLayers ctx.dataset_input_node l graph).graph := by
  intro l
  induction l with
  | nil => intro graph _ hb; exact hb
  | cons o rest ih =>
    intro graph hsub hb
    simp only [addLossLayers]
    cases hget : graph.GetNode o with
    | none => exact hb
    | some i =>
      have hmem := (getNode_eq_some hget).1
      have hnode : (⟨"loss_" ++ o, -1, [⟨some i, 0, true⟩, ⟨ctx.dataset_input_node, 1, false⟩,
          ⟨ctx.dataset_input_node, 3, false⟩], false, .error⟩ : NetGraphNode)
          = lossNode ctx.dataset_input_node graph o := by
        simp [lossNode, hget]
      simp only [hnode]
      cases hadd : graph.AddNode (lossNode ctx.dataset_input_node graph o) with
      | none => exact hb
      | some g2 =>
        exact ih g2 (fun x hx => hsub x (List.mem_cons_of_mem _ hx))
          (Built.loss o hb (hsub o (List.mem_cons_self _ _)) hmem hadd)

theorem addLayers_built (mt19937 : Nat → Nat → Nat) (net_json_ : NetJSON) (fuel : Nat)
    (graph : NetGraph) (seed : Nat) (o : Outcome)
    (h : AddLayers mt19937 net_json_ fuel graph seed = some o) :
    Built (contextOf mt19937 net_json_ graph seed) (designated net_json_.output) graph
      o.graph := by
  unfold AddLayers at h
  split at h
  · simp only [Option.some.injEq] at h
    subst h
    exact Built.refl
  · rename_i nodes_json hn
    split at h
    · simp only [Option.some.injEq] at h
      subst h
      exact Built.refl
    · rename_i ds tl ht
      have hctx : contextOf mt19937 net_json_ graph seed
          = mkContext mt19937 net_json_ nodes_json ds seed := by
        simp [contextOf, hn, NetGraph.datasetInputNode, ht]
      rw [hctx]
      split at h
      · simp only [Option.some.injEq] at h
        subst h
        exact Built.refl
      · simp only at h
        split at h
        · cases h
        · rename_i out hl
          simp only [Option.some.injEq] at h
          subst h
          exact insertionLoop_built _ _ fuel graph _ _ _ _ _ Built.refl hl
        · rename_i e hl
          simp only [Option.some.injEq] at h
          subst h
          have hb := insertionLoop_built _ (designated net_json_.output) fuel graph _ _ _ _ _
            Built.refl hl
          exact addLossLayers_built (mkContext mt19937 net_json_ nodes_json ds seed) _ graph _ _
            (fun _ hx => hx) hb

/-! ## Invariants of built graphs -/

theorem built_extends {ctx : Context} {outs : List String} {g g2 : NetGraph}
    (h : Built ctx outs g g2) :
    g.nodes_ <+: g2.nodes_ := by
  induction h with
  | refl => exact List.prefix_refl _
  | declared key input seed _ _ _ hadd ih =>
    rw [(addNode_some hadd).2]
    exact ih.trans (List.prefix_append _ _)
  | loss o _ _ _ hadd ih =>
    rw [(addNode_some hadd).2]
    exact ih.trans (List.prefix_append _ _)

theorem built_names_extends {ctx : Context} {outs : List String} {g g2 : NetGraph}
    (h : Built ctx outs g g2) :
    g.names <+: g2.names := by
  obtain ⟨t, ht⟩ := built_extends h
  exact ⟨t.map NetGraphNode.unique_name, by simp [NetGraph.names, ← ht]⟩

theorem built_length_le {ctx : Context} {outs : List String} {g g2 : NetGraph}
    (h : Built ctx outs g g2) :
    g.nodes_.length ≤ g2.nodes_.length :=
  (built_extends h).length_le

theorem built_names_nodup {ctx : Context} {outs : List String} {g g2 : NetGraph}
    (h : Built ctx outs g g2)
    (hg : g.names.Nodup) : g2.names.Nodup := by
  induction h with
  | refl => exact hg
  | declared key input seed _ _ _ hadd ih =>
    rw [addNode_names hadd]
    exact List.Nodup.append ih (List.nodup_singleton _)
      (by simpa using (addNode_some hadd).1)
  | loss o _ _ _ hadd ih =>
    rw [addNode_names hadd]
    exact List.Nodup.append ih (List.nodup_singleton _)
      (by simpa using (addNode_some hadd).1)

theorem sourceBefore_getNode {g : NetGraph} {s : String} (hs : s ∈ g.names) (b : Nat)
    (p : Bool) : NetGraphConnection.sourceBefore ⟨g.GetNode s, b, p⟩ g.nodes_.length := by
  have h := getNode_of_mem hs
  have hlt := (getNode_eq_some h).2.2
  simp only [NetGraphConnection.sourceBefore, h]
  exact hlt

theorem topological_append {g1 g2 : NetGraph} {n : NetGraphNode}
    (h1 : g1.TopologicalOrder) (hn : g2.nodes_ = g1.nodes_ ++ [n])
    (hc : ∀ c ∈ n.input_connections, c.sourceBefore g1.nodes_.length) :
    g2.TopologicalOrder := by
  intro i hi c hmem
  simp only [List.get_eq_getElem] at hmem
  by_cases hlt : i < g1.nodes_.length
  · have e : g2.nodes_[i] = g1.nodes_[i] := by
      simp only [hn]
      exact List.getElem_append_left hlt
    rw [e] at hmem
    exact h1 i hlt c (by simpa using hmem)
  · have hlen : g2.nodes_.length = g1.nodes_.length + 1 := by simp [hn]
    have hi2 : i = g1.nodes_.length := by omega
    subst hi2
    have e : g2.nodes_[g1.nodes_.length] = n := by
      simp [hn]
    rw [e] at hmem
    exact hc c hmem

theorem built_topological {ctx : Context} {outs : List String} {g g2 : NetGraph}
    (h : Built ctx outs g g2)
    (hg : g.TopologicalOrder)
    (hds : ∃ d, ctx.dataset_input_node = some d ∧ d < g.nodes_.length) :
    g2.TopologicalOrder := by
  obtain ⟨d, hd, hdlt⟩ := hds
  induction h with
  | refl => exact hg
  | @declared g1 g3 key input seed hb _ hsrc hadd ih =>
    refine topological_append ih (addNode_some hadd).2 ?_
    intro c hc
    have hle := built_length_le hb
    simp only [declaredNode, List.mem_append, List.mem_map, List.mem_replicate] at hc
    rcases hc with ⟨s, hs, rfl⟩ | ⟨_, rfl⟩
    · exact sourceBefore_getNode (hsrc s hs) _ _
    · simp only [NetGraphConnection.sourceBefore, hd]
      omega
  | @loss g1 g3 o hb _ hmem hadd ih =>
    refine topological_append ih (addNode_some hadd).2 ?_
    intro c hc
    have hle := built_length_le hb
    simp only [lossNode, List.mem_cons, List.mem_singleton, List.not_mem_nil, or_false] at hc
    rcases hc with rfl | rfl | rfl
    · exact sourceBefore_getNode hmem _ _
    · simp only [NetGraphConnection.sourceBefore, hd]
      omega
    · simp only [NetGraphConnection.sourceBefore, hd]
      omega

theorem addLayers_no_training (mt19937 : Nat → Nat → Nat) (net_json_ : NetJSON) (fuel : Nat)
    (graph : NetGraph) (seed : Nat) (o : Outcome) (ht : graph.training_nodes_ = [])
    (h : AddLayers mt19937 net_json_ fuel graph seed = some o) : o.graph = graph := by
  unfold AddLayers at h
  cases hn : net_json_.nodes with
  | none =>
    simp only [hn, Option.some.injEq] at h
    subst h
    rfl
  | some nodes_json =>
    simp only [hn, ht, Option.some.injEq] at h
    subst h
    rfl

/-! ## Lookup is stable under insertion -/

theorem getNode_of_names_append {g1 g2 : NetGraph} {s : String} (t : List String)
    (hs : s ∈ g1.names) (h : g2.names = g1.names ++ t) : g2.GetNode s = g1.GetNode s := by
  have hs2 : s ∈ g2.names := by rw [h]; exact List.mem_append_left _ hs
  rw [getNode_of_mem hs, getNode_of_mem hs2, h, List.indexOf_append_of_mem hs]

theorem getNode_of_built {ctx : Context} {outs : List String} {g1 g2 : NetGraph}
    {s : String} (hb : Built ctx outs g1 g2) (hs : s ∈ g1.names) : g2.GetNode s = g1.GetNode s := by
  obtain ⟨t, ht⟩ := built_names_extends hb
  exact getNode_of_names_append t hs ht.symm

theorem mem_names_of_built {ctx : Context} {outs : List String} {g1 g2 : NetGraph}
    {s : String} (hb : Built ctx outs g1 g2) (hs : s ∈ g1.names) : s ∈ g2.names :=
  (built_names_extends hb).subset hs

theorem get_of_extends (l1 l2 : List NetGraphNode) (hp : l1 <+: l2) (i : Nat)
    (h1 : i < l1.length) (h2 : i < l2.length) : l2.get ⟨i, h2⟩ = l1.get ⟨i, h1⟩ := by
  obtain ⟨t, rfl⟩ := hp
  simp only [List.get_eq_getElem]
  exact List.getElem_append_left h1

theorem loss_name_injective {a b : String} (h : "loss_" ++ a = "loss_" ++ b) : a = b := by
  have hd := congrArg String.data h
  simp only [String.data_append, List.append_cancel_left_eq] at hd
  exact String.ext hd

/-- The shape of the nodes that the loop has inserted. -/
theorem built_declared_shape {ctx : Context} {outs : List String} {g g2 : NetGraph}
    (hb : Built ctx outs g g2) :
    ∀ (i : Nat) (hi : i < g2.nodes_.length), g.nodes_.length ≤ i →
      ∀ seed, (g2.nodes_.get ⟨i, hi⟩).layer = .json seed →
      ∃ input, ((g2.nodes_.get ⟨i, hi⟩).unique_name, input) ∈ ctx.nodes_json ∧
        (∀ s ∈ designated input, s ∈ g2.names) ∧
        (g2.nodes_.get ⟨i, hi⟩).input_connections =
          (designated input).map (fun s => ⟨g2.GetNode s, 0, true⟩) ++
            List.replicate (ctx.input_nodes.count (g2.nodes_.get ⟨i, hi⟩).unique_name)
              ⟨ctx.dataset_input_node, 0, false⟩ ∧
        (g2.nodes_.get ⟨i, hi⟩).is_output =
          decide ((g2.nodes_.get ⟨i, hi⟩).unique_name ∈ ctx.output_nodes) := by
  induction hb with
  | refl => intro i hi hle; omega
  | @declared g1 g3 key input sd hb1 hmem hsrc hadd ih =>
    intro i hi hle seed hj
    have hnodes := (addNode_some hadd).2
    have hnames := addNode_names hadd
    have hlen : g3.nodes_.length = g1.nodes_.length + 1 := by simp [hnodes]
    by_cases hlt : i < g1.nodes_.length
    · have e := get_of_extends g1.nodes_ g3.nodes_ ⟨_, hnodes.symm⟩ i hlt hi
      rw [e] at hj ⊢
      obtain ⟨inp, h1, h2, h3, h4⟩ := ih i hlt hle seed hj
      refine ⟨inp, h1, fun s hs => ?_, ?_, h4⟩
      · rw [hnames]; exact List.mem_append_left _ (h2 s hs)
      · rw [h3]
        congr 1
        apply List.map_congr_left
        intro s hs
        rw [getNode_of_names_append _ (h2 s hs) hnames]
    · have hi2 : i = g1.nodes_.length := by omega
      subst hi2
      have e : g3.nodes_.get ⟨g1.nodes_.length, hi⟩
          = { declaredNode ctx g1 key input sd with unique_id := g1.last_uid + 1 } := by
        simp [hnodes]
      rw [e]
      refine ⟨input, hmem, fun s hs => ?_, ?_, rfl⟩
      · rw [hnames]; exact List.mem_append_left _ (hsrc s hs)
      · simp only [declaredNode]
        congr 1
        apply List.map_congr_left
        intro s hs
        rw [getNode_of_names_append _ (hsrc s hs) hnames]
  | @loss g1 g3 o hb1 hmem hin hadd ih =>
    intro i hi hle seed hj
    have hnodes := (addNode_some hadd).2
    have hnames := addNode_names hadd
    have hlen : g3.nodes_.length = g1.nodes_.length + 1 := by simp [hnodes]
    by_cases hlt : i < g1.nodes_.length
    · have e := get_of_extends g1.nodes_ g3.nodes_ ⟨_, hnodes.symm⟩ i hlt hi
      rw [e] at hj ⊢
      obtain ⟨inp, h1, h2, h3, h4⟩ := ih i hlt hle seed hj
      refine ⟨inp, h1, fun s hs => ?_, ?_, h4⟩
      · rw [hnames]; exact List.mem_append_left _ (h2 s hs)
      · rw [h3]
        congr 1
        apply List.map_congr_left
        intro s hs
        rw [getNode_of_names_append _ (h2 s hs) hnames]
    · have hi2 : i = g1.nodes_.length := by omega
      subst hi2
      have e : g3.nodes_.get ⟨g1.nodes_.length, hi⟩
          = { lossNode ctx.dataset_input_node g1 o with unique_id := g1.last_uid + 1 } := by
        simp [hnodes]
      rw [e] at hj
      simp [lossNode] at hj

/-! ## The loss layers -/

theorem addLossLayers_extends (ds : Option Nat) (l : List String) (g : NetGraph) :
    g.nodes_ <+: (addLossLayers ds l g).graph.nodes_ :=
  built_extends (addLossLayers_built ⟨fun _ => 0, [], [], [], ds⟩ l g l g (fun _ h => h)
    Built.refl)

/-- One passage through the body of the loop of lines 165-177 for a present output whose
loss name is free. -/
theorem addLossLayers_cons (ds : Option Nat) (o : String) (rest : List String) (g : NetGraph)
    (ho : o ∈ g.names) (hfree : "loss_" ++ o ∉ g.names) :
    ∃ g2, g.AddNode (lossNode ds g o) = some g2 ∧
      addLossLayers ds (o :: rest) g = addLossLayers ds rest g2 := by
  obtain ⟨g2, h2⟩ := addNode_of_not_mem g (lossNode ds g o) hfree
  refine ⟨g2, h2, ?_⟩
  have hget := getNode_of_mem ho
  have hnode : (⟨"loss_" ++ o, -1, [⟨some (g.names.indexOf o), 0, true⟩, ⟨ds, 1, false⟩,
      ⟨ds, 3, false⟩], false, .error⟩ : NetGraphNode) = lossNode ds g o := by
    simp [lossNode, hget]
  simp only [addLossLayers, hget, hnode, h2]

theorem getNode_of_extends {g1 g2 : NetGraph} {s : String} (hp : g1.nodes_ <+: g2.nodes_)
    (hs : s ∈ g1.names) : g2.GetNode s = g1.GetNode s := by
  obtain ⟨t, ht⟩ := hp
  exact getNode_of_names_append (t.map NetGraphNode.unique_name) hs
    (by simp [NetGraph.names, ← ht])

theorem addLossLayers_nth (ds : Option Nat) :
    ∀ (pre : List String) (g : NetGraph) (o : String) (post : List String) (k : Nat),
      k = g.nodes_.length + pre.length →
      (∀ x ∈ pre ++ [o], x ∈ g.names) → (∀ x ∈ pre ++ [o], "loss_" ++ x ∉ g.names) →
      (pre ++ [o]).Nodup →
      ∃ n, (addLossLayers ds (pre ++ o :: post) g).graph.nodes_[k]? = some n ∧
        n.unique_name = "loss_" ++ o ∧
        n.input_connections =
          [⟨(addLossLayers ds (pre ++ o :: post) g).graph.GetNode o, 0, true⟩,
            ⟨ds, 1, false⟩, ⟨ds, 3, false⟩] ∧
        n.layer = .error := by
  intro pre
  induction pre with
  | nil =>
    intro g o post k hk hin hfree _
    simp only [List.nil_append, List.mem_singleton, forall_eq, List.length_nil,
      Nat.add_zero] at hin hfree hk
    obtain ⟨g2, hadd, hstep⟩ := addLossLayers_cons ds o post g hin hfree
    simp only [List.nil_append, hstep]
    have hnodes := (addNode_some hadd).2
    have hpre := addLossLayers_extends ds post g2
    obtain ⟨t, ht⟩ := hpre
    have hgp : g.nodes_ <+: (addLossLayers ds post g2).graph.nodes_ :=
      ⟨[{ lossNode ds g o with unique_id := g.last_uid + 1 }] ++ t, by
        rw [← ht, hnodes, List.append_assoc]⟩
    refine ⟨{ lossNode ds g o with unique_id := g.last_uid + 1 }, ?_, rfl, ?_, rfl⟩
    · rw [← ht, hnodes, hk, List.append_assoc, List.getElem?_append_right (le_refl _)]
      simp
    · rw [getNode_of_extends hgp hin]
      rfl
  | cons x pre ih =>
    intro g o post k hk hin hfree hnd
    have hx : x ∈ g.names := hin x (by simp)
    have hxf : "loss_" ++ x ∉ g.names := hfree x (by simp)
    obtain ⟨g2, hadd, hstep⟩ := addLossLayers_cons ds x (pre ++ o :: post) g hx hxf
    simp only [List.cons_append, hstep]
    have hnames := addNode_names hadd
    have hlen : g2.nodes_.length = g.nodes_.length + 1 := by simp [(addNode_some hadd).2]
    simp only [List.cons_append, List.nodup_cons] at hnd
    refine ih g2 o post k ?_ ?_ ?_ hnd.2
    · simp only [hk, hlen, List.length_cons]; omega
    · intro y hy
      rw [hnames]
      exact List.mem_append_left _ (hin y (List.mem_cons_of_mem _ hy))
    · intro y hy
      rw [hnames]
      simp only [lossNode, List.mem_append, List.mem_singleton, not_or]
      refine ⟨hfree y (List.mem_cons_of_mem _ hy), fun e => ?_⟩
      have := loss_name_injective e
      subst this
      exact hnd.1 hy

theorem addLossLayers_all (ds : Option Nat) :
    ∀ (outs : List String) (g : NetGraph), (∀ x ∈ outs, x ∈ g.names) →
      (∀ x ∈ outs, "loss_" ++ x ∉ g.names) → outs.Nodup →
      ∃ r, addLossLayers ds outs g = .initialized r ∧
        r.names = g.names ++ outs.map (fun x => "loss_" ++ x) := by
  intro outs
  induction outs with
  | nil => intro g _ _ _; exact ⟨g, rfl, by simp⟩
  | cons x rest ih =>
    intro g hin hfree hnd
    obtain ⟨g2, hadd, hstep⟩ := addLossLayers_cons ds x rest g (hin x (by simp))
      (hfree x (by simp))
    have hnames := addNode_names hadd
    simp only [List.nodup_cons] at hnd
    obtain ⟨r, hr, hrn⟩ := ih g2
      (fun y hy => by rw [hnames]; exact List.mem_append_left _ (hin y (List.mem_cons_of_mem _ hy)))
      (fun y hy => by
        rw [hnames]
        simp only [lossNode, List.mem_append, List.mem_singleton, not_or]
        refine ⟨hfree y (List.mem_cons_of_mem _ hy), fun e => ?_⟩
        have := loss_name_injective e
        subst this
        exact hnd.1 hy)
      hnd.2
    refine ⟨r, by rw [hstep, hr], ?_⟩
    rw [hrn, hnames]
    simp [lossNode]

/-! ## A declared node with a non-empty `input` array -/

/-- A scan that meets an absent node with a non-empty `input` array never gets past it. -/
theorem scanNodes_array_diverges (ctx : Context) (fuel : Nat) (key s : String)
    (l : List String) (rest : List (String × JSONValue)) (st : ScanState)
    (hk : st.graph.ContainsNode key = false) :
    scanNodes ctx fuel ((key, .arr (s :: l)) :: rest) st = none := by
  simp only [scanNodes, hk, checkInputs]
  rw [inputArrayLoop_diverges fuel 0 _ (by simp)]
  simp

/-! ## One step of a scan over nodes without input lists -/

theorem scanNodes_skip (ctx : Context) (fuel : Nat) (key : String) (input : JSONValue)
    (rest : List (String × JSONValue)) (st : ScanState) (hk : key ∈ st.graph.names) :
    scanNodes ctx fuel ((key, input) :: rest) st = scanNodes ctx fuel rest st := by
  simp [scanNodes, (containsNode_iff _ _).2 hk]

theorem scanNodes_insert (ctx : Context) (f : Nat) (key : String) (input : JSONValue)
    (rest : List (String × JSONValue)) (st : ScanState) (hk : key ∉ st.graph.names)
    (hl : ∀ (a : String) (l : List String), input ≠ .arr (a :: l))
    (hs : ∀ s ∈ designated input, s ∈ st.graph.names) :
    ∃ g2, st.graph.AddNode (declaredNode ctx st.graph key input (ctx.rand st.draws)) = some g2 ∧
      scanNodes ctx (f + 1) ((key, input) :: rest) st =
        scanNodes ctx (f + 1) rest ⟨g2, st.draws + 1, true, true, st.suspect_node⟩ := by
  obtain ⟨g2, hadd⟩ := addNode_of_not_mem st.graph
    (declaredNode ctx st.graph key input (ctx.rand st.draws)) hk
  refine ⟨g2, hadd, ?_⟩
  have hk2 := (containsNode_eq_false_iff _ _).2 hk
  cases input with
  | absent =>
    have hI := insertNode_of_sources ctx key .absent ⟨true, st.suspect_node, []⟩
      { st with should_have_inserted_a_node := true } rfl hs
    simp only [hadd] at hI
    simp [scanNodes, hk2, checkInputs, hI]
  | other =>
    have hI := insertNode_of_sources ctx key .other ⟨true, st.suspect_node, []⟩
      { st with should_have_inserted_a_node := true } rfl hs
    simp only [hadd] at hI
    simp [scanNodes, hk2, checkInputs, hI]
  | str s =>
    have hs1 : s ∈ st.graph.names := hs s (by simp [designated])
    have hc := (containsNode_iff _ _).2 hs1
    have hcheck : checkInput st.graph ctx.nodes_json key s ⟨true, st.suspect_node, []⟩
        = ⟨true, st.suspect_node, [s]⟩ := by
      simp [checkInput, hc]
    have hI := insertNode_of_sources ctx key (.str s) ⟨true, st.suspect_node, [s]⟩
      { st with should_have_inserted_a_node := true } (by simp [designated]) hs
    simp only [hadd] at hI
    simp [scanNodes, hk2, checkInputs, hcheck, hI]
  | arr l =>
    cases l with
    | cons a t => exact absurd rfl (hl a t)
    | nil =>
      have hI := insertNode_of_sources ctx key (.arr []) ⟨true, st.suspect_node, []⟩
        { st with should_have_inserted_a_node := true } rfl hs
      simp only [hadd] at hI
      simp [scanNodes, hk2, checkInputs, inputArrayLoop, hI]

theorem scanNodes_blocked (ctx : Context) (f : Nat) (key : String) (input : JSONValue)
    (rest : List (String × JSONValue)) (st : ScanState) (hk : key ∉ st.graph.names)
    (hl : ∀ (a : String) (l : List String), input ≠ .arr (a :: l))
    (hs : ¬ ∀ s ∈ designated input, s ∈ st.graph.names) :
    ∃ s, input = .str s ∧ s ∉ st.graph.names ∧
      scanNodes ctx (f + 1) ((key, input) :: rest) st =
        scanNodes ctx (f + 1) rest
          ⟨st.graph, st.draws, st.inserted_a_node, true,
            if jsonCount ctx.nodes_json s ≠ 1 then key else st.suspect_node⟩ := by
  have hk2 := (containsNode_eq_false_iff _ _).2 hk
  cases input with
  | absent => exact absurd (by simp [designated]) hs
  | other => exact absurd (by simp [designated]) hs
  | arr l =>
    cases l with
    | cons a t => exact absurd rfl (hl a t)
    | nil => exact absurd (by simp [designated]) hs
  | str s =>
    have hs1 : s ∉ st.graph.names := by simpa [designated] using hs
    have hc := (containsNode_eq_false_iff _ _).2 hs1
    refine ⟨s, rfl, hs1, ?_⟩
    by_cases hcount : jsonCount ctx.nodes_json s = 1
    · simp [scanNodes, hk2, checkInputs, checkInput, hc, hcount]
    · simp [scanNodes, hk2, checkInputs, checkInput, hc, hcount]

/-! ## A whole scan over nodes without input lists -/

/-- What a scan over declared nodes without input lists does: it comes back, it only adds
declared nodes, the flags only rise, and `suspect_node` is set by dangling references. -/
theorem scanNodes_spec (ctx : Context) (f : Nat) :
    ∀ (rest : List (String × JSONValue)) (st : ScanState),
      (∀ p ∈ rest, p ∈ ctx.nodes_json) →
      (∀ p ∈ rest, ∀ (a : String) (l : List String), p.2 ≠ .arr (a :: l)) →
      ∃ st2, scanNodes ctx (f + 1) rest st = some (.ok st2) ∧
        Built ctx [] st.graph st2.graph ∧
        (st.inserted_a_node = true → st2.inserted_a_node = true) ∧
        (st.should_have_inserted_a_node = true → st2.should_have_inserted_a_node = true) ∧
        (st2.inserted_a_node = false → st2.graph = st.graph ∧ st2.draws = st.draws) ∧
        (st2.inserted_a_node = true → st.inserted_a_node = true ∨
          ∃ p ∈ rest, p.1 ∉ st.graph.names ∧ p.1 ∈ st2.graph.names) ∧
        (∀ p ∈ rest, p.1 ∉ st.graph.names → (∀ s ∈ designated p.2, s ∈ st.graph.names) →
          st2.inserted_a_node = true) ∧
        (st2.should_have_inserted_a_node = false → ∀ p ∈ rest, p.1 ∈ st.graph.names) ∧
        (st2.inserted_a_node = false →
          (st2.suspect_node = st.suspect_node ∧ ∀ p ∈ rest, ¬ Dangling ctx.nodes_json st.graph p) ∨
          ∃ p ∈ rest, Dangling ctx.nodes_json st.graph p ∧ st2.suspect_node = p.1) := by
  intro rest
  induction rest with
  | nil =>
    intro st _ _
    refine ⟨st, rfl, Built.refl, id, id, fun _ => ⟨rfl, rfl⟩, fun h => Or.inl h, ?_, ?_, ?_⟩
    · intro p hp; cases hp
    · intro _ p hp; cases hp
    · intro _; exact Or.inl ⟨rfl, fun p hp => by cases hp⟩
  | cons hd rest ih =>
    obtain ⟨key, input⟩ := hd
    intro st hsub hl
    have hsub2 : ∀ p ∈ rest, p ∈ ctx.nodes_json := fun p hp => hsub p (List.mem_cons_of_mem _ hp)
    have hl2 : ∀ p ∈ rest, ∀ (a : String) (l : List String), p.2 ≠ .arr (a :: l) :=
      fun p hp => hl p (List.mem_cons_of_mem _ hp)
    have hlh : ∀ (a : String) (l : List String), input ≠ .arr (a :: l) :=
      hl (key, input) (List.mem_cons_self _ _)
    by_cases hk : key ∈ st.graph.names
    · -- the node is in the graph already: `continue`
      obtain ⟨st2, hscan, hb, h2, h3, h4, h5, h6, h7, h8⟩ := ih st hsub2 hl2
      refine ⟨st2, by rw [scanNodes_skip ctx _ key input rest st hk, hscan], hb, h2, h3, h4,
        ?_, ?_, ?_, ?_⟩
      · intro hi
        rcases h5 hi with h | ⟨p, hp, hp1, hp2⟩
        · exact Or.inl h
        · exact Or.inr ⟨p, List.mem_cons_of_mem _ hp, hp1, hp2⟩
      · intro p hp hp1 hp2
        rcases List.mem_cons.1 hp with rfl | hp
        · exact absurd hk hp1
        · exact h6 p hp hp1 hp2
      · intro hsh p hp
        rcases List.mem_cons.1 hp with rfl | hp
        · exact hk
        · exact h7 hsh p hp
      · intro hi
        rcases h8 hi with ⟨hs, hnone⟩ | ⟨p, hp, hd, hsus⟩
        · refine Or.inl ⟨hs, fun p hp => ?_⟩
          rcases List.mem_cons.1 hp with rfl | hp
          · exact fun hd => hd.1 hk
          · exact hnone p hp
        · exact Or.inr ⟨p, List.mem_cons_of_mem _ hp, hd, hsus⟩
    · by_cases hs : ∀ s ∈ designated input, s ∈ st.graph.names
      · -- every source is present: the node is inserted
        obtain ⟨g2, hadd, hstep⟩ := scanNodes_insert ctx f key input rest st hk hlh hs
        obtain ⟨st2, hscan, hb, h2, h3, _, _, _, _, _⟩ :=
          ih ⟨g2, st.draws + 1, true, true, st.suspect_node⟩ hsub2 hl2
        have hins : st2.inserted_a_node = true := h2 rfl
        have hscan2 : scanNodes ctx (f + 1) ((key, input) :: rest) st = some (.ok st2) := by
          rw [hstep, hscan]
        have hkey : key ∈ st2.graph.names := by
          refine mem_names_of_built hb ?_
          show key ∈ g2.names
          rw [addNode_names hadd]
          simp [declaredNode]
        refine ⟨st2, hscan2,
          scanNodes_built ctx [] (f + 1) st.graph _ st _ hsub Built.refl hscan2,
          fun _ => hins, fun _ => h3 rfl, ?_, ?_, fun _ _ _ _ => hins, ?_, ?_⟩
        · intro hi; rw [hins] at hi; cases hi
        · intro _
          exact Or.inr ⟨(key, input), List.mem_cons_self _ _, hk, hkey⟩
        · intro hsh; rw [h3 rfl] at hsh; cases hsh
        · intro hi; rw [hins] at hi; cases hi
      · -- a source is missing: the node stays out
        obtain ⟨s, hinput, hsabs, hstep⟩ := scanNodes_blocked ctx f key input rest st hk hlh hs
        obtain ⟨st2, hscan, hb, h2, h3, h4, h5, h6, h7, h8⟩ :=
          ih ⟨st.graph, st.draws, st.inserted_a_node, true,
            if jsonCount ctx.nodes_json s ≠ 1 then key else st.suspect_node⟩ hsub2 hl2
        refine ⟨st2, by rw [hstep, hscan], hb, h2, fun _ => h3 rfl, h4, ?_, ?_, ?_, ?_⟩
        · intro hi
          rcases h5 hi with h | ⟨p, hp, hp1, hp2⟩
          · exact Or.inl h
          · exact Or.inr ⟨p, List.mem_cons_of_mem _ hp, hp1, hp2⟩
        · intro p hp hp1 hp2
          rcases List.mem_cons.1 hp with rfl | hp
          · exact absurd hp2 hs
          · exact h6 p hp hp1 hp2
        · intro hsh; rw [h3 rfl] at hsh; cases hsh
        · intro hi
          rcases h8 hi with ⟨hsus, hnone⟩ | ⟨p, hp, hd, hsus⟩
          · by_cases hcount : jsonCount ctx.nodes_json s = 1
            · refine Or.inl ⟨by simpa [hcount] using hsus, fun p hp => ?_⟩
              rcases List.mem_cons.1 hp with rfl | hp
              · rintro ⟨_, s2, hs2, _, hc2⟩
                simp only [hinput, JSONValue.str.injEq] at hs2
                subst hs2
                exact hc2 hcount
              · exact hnone p hp
            · refine Or.inr ⟨(key, input), List.mem_cons_self _ _,
                ⟨hk, s, hinput, hsabs, hcount⟩, by simpa [hcount] using hsus⟩
          · exact Or.inr ⟨p, List.mem_cons_of_mem _ hp, hd, hsus⟩

/-- A scan over declared nodes that are all in the graph changes nothing. -/
theorem scanNodes_all_present (ctx : Context) (fuel : Nat) :
    ∀ (rest : List (String × JSONValue)) (st : ScanState),
      (∀ p ∈ rest, p.1 ∈ st.graph.names) → scanNodes ctx fuel rest st = some (.ok st) := by
  intro rest
  induction rest with
  | nil => intro st _; rfl
  | cons hd rest ih =>
    obtain ⟨key, input⟩ := hd
    intro st h
    rw [scanNodes_skip ctx fuel key input rest st (h (key, input) (List.mem_cons_self _ _))]
    exact ih st fun p hp => h p (List.mem_cons_of_mem _ hp)

/-! ## The rounds of the loop -/

theorem countP_lt_of_imp {α : Type} (p q : α → Bool) :
    ∀ (l : List α), (∀ x ∈ l, p x = true → q x = true) →
      (∃ x ∈ l, q x = true ∧ p x = false) → l.countP p < l.countP q := by
  intro l
  induction l with
  | nil => intro _ ⟨x, hx, _⟩; cases hx
  | cons a t ih =>
    intro himp hex
    have hle : t.countP p ≤ t.countP q :=
      List.countP_mono_left fun x hx => himp x (List.mem_cons_of_mem _ hx)
    simp only [List.countP_cons]
    obtain ⟨x, hx, hq, hp⟩ := hex
    rcases List.mem_cons.1 hx with rfl | hx
    · simp only [hq, hp, if_true]
      simp only [Bool.false_eq_true, if_false]
      omega
    · have hlt := ih (fun y hy => himp y (List.mem_cons_of_mem _ hy)) ⟨x, hx, hq, hp⟩
      have ha := himp a (List.mem_cons_self _ _)
      by_cases hpa : p a = true
      · simp only [hpa, ha hpa, if_true]
        omega
      · have hpa2 : p a = false := by simpa using hpa
        simp only [hpa2, Bool.false_eq_true, if_false]
        by_cases hqa : q a = true
        · simp only [hqa, if_true]; omega
        · have hqa2 : q a = false := by simpa using hqa
          simp only [hqa2, Bool.false_eq_true, if_false]; omega

theorem absentCount_lt {nodes_json : List (String × JSONValue)} {g g2 : NetGraph}
    (hsub : ∀ x ∈ g.names, x ∈ g2.names)
    (hex : ∃ p ∈ nodes_json, p.1 ∉ g.names ∧ p.1 ∈ g2.names) :
    absentCount nodes_json g2 < absentCount nodes_json g := by
  unfold absentCount
  apply countP_lt_of_imp
  · intro x _ hx
    simp only [Bool.not_eq_true', containsNode_eq_false_iff] at hx ⊢
    exact fun h => hx (hsub _ h)
  · obtain ⟨p, hp, h1, h2⟩ := hex
    refine ⟨p, hp, ?_, ?_⟩
    · simpa [containsNode_eq_false_iff] using h1
    · simpa [containsNode_iff] using h2

theorem absentCount_pos {nodes_json : List (String × JSONValue)} {g : NetGraph}
    {p : String × JSONValue} (hp : p ∈ nodes_json) (ha : p.1 ∉ g.names) :
    0 < absentCount nodes_json g := by
  unfold absentCount
  rw [List.countP_pos_iff]
  exact ⟨p, hp, by simpa [containsNode_eq_false_iff] using ha⟩

theorem resolvable_mono {nodes_json : List (String × JSONValue)} {g g2 : NetGraph}
    {rank : String → Nat} (hsub : ∀ x ∈ g.names, x ∈ g2.names)
    (h : Resolvable nodes_json g rank) : Resolvable nodes_json g2 rank := by
  intro p hp s hs
  rcases h p hp s hs with h1 | h1
  · exact Or.inl (hsub s h1)
  · exact Or.inr h1

/-- Among the absent declared nodes of a resolvable configuration, one has all its sources
in the graph. -/
theorem exists_insertable {nodes_json : List (String × JSONValue)} {g : NetGraph}
    {rank : String → Nat} (h : Resolvable nodes_json g rank) :
    ∀ (r : Nat) (p : String × JSONValue), p ∈ nodes_json → p.1 ∉ g.names → rank p.1 ≤ r →
      ∃ q ∈ nodes_json, q.1 ∉ g.names ∧ ∀ s ∈ designated q.2, s ∈ g.names := by
  intro r
  induction r with
  | zero =>
    intro p hp ha hr
    refine ⟨p, hp, ha, fun s hs => ?_⟩
    rcases h p hp s hs with h1 | ⟨_, h2⟩
    · exact h1
    · omega
  | succ r ih =>
    intro p hp ha hr
    by_cases hall : ∀ s ∈ designated p.2, s ∈ g.names
    · exact ⟨p, hp, ha, hall⟩
    · simp only [not_forall] at hall
      obtain ⟨s, hs, hsabs⟩ := hall
      rcases h p hp s hs with h1 | ⟨⟨input, hin⟩, h2⟩
      · exact absurd h1 hsabs
      · exact ih (s, input) hin hsabs (by simp only; omega)

/-- For a resolvable configuration without input lists the loop is left by `break` after
at most one round more than there are absent declared nodes, with every declared node in
the graph. -/
theorem insertionLoop_resolvable (ctx : Context) (f : Nat) (rank : String → Nat)
    (htame : NoInputList ctx.nodes_json) :
    ∀ (m : Nat) (g : NetGraph) (draws rounds n : Nat),
      absentCount ctx.nodes_json g ≤ m → Resolvable ctx.nodes_json g rank → m + 1 ≤ n →
      ∃ e, insertionLoop ctx (f + 1) n g draws rounds = some (.ok e) ∧
        e.rounds ≤ rounds + m + 1 ∧ ∀ p ∈ ctx.nodes_json, p.1 ∈ e.graph.names := by
  intro m
  induction m with
  | zero =>
    intro g draws rounds n hm _ hn
    have hall : ∀ p ∈ ctx.nodes_json, p.1 ∈ g.names := by
      intro p hp
      by_contra ha
      have := absentCount_pos hp ha
      omega
    obtain ⟨n2, rfl⟩ : ∃ n2, n = n2 + 1 := ⟨n - 1, by omega⟩
    have hscan := scanNodes_all_present ctx (f + 1) ctx.nodes_json
      ⟨g, draws, false, false, ""⟩ hall
    exact ⟨⟨g, draws, rounds + 1⟩, by simp [insertionLoop, hscan], by simp, hall⟩
  | succ m ih =>
    intro g draws rounds n hm hres hn
    obtain ⟨n2, rfl⟩ : ∃ n2, n = n2 + 1 := ⟨n - 1, by omega⟩
    by_cases hall : ∀ p ∈ ctx.nodes_json, p.1 ∈ g.names
    · have hscan := scanNodes_all_present ctx (f + 1) ctx.nodes_json
        ⟨g, draws, false, false, ""⟩ hall
      exact ⟨⟨g, draws, rounds + 1⟩, by simp [insertionLoop, hscan],
        by show rounds + 1 ≤ rounds + (m + 1) + 1; omega, hall⟩
    · simp only [not_forall] at hall
      obtain ⟨p, hp, ha⟩ := hall
      obtain ⟨q, hq, hqa, hqs⟩ := exists_insertable hres (rank p.1) p hp ha (le_refl _)
      obtain ⟨st2, hscan, hb, _, _, _, h5, h6, _, _⟩ :=
        scanNodes_spec ctx f ctx.nodes_json ⟨g, draws, false, false, ""⟩ (fun _ h => h) htame
      have hins : st2.inserted_a_node = true := h6 q hq hqa hqs
      have hsub : ∀ x ∈ g.names, x ∈ st2.graph.names := fun x hx => mem_names_of_built hb hx
      have hlt : absentCount ctx.nodes_json st2.graph < absentCount ctx.nodes_json g := by
        refine absentCount_lt hsub ?_
        rcases h5 hins with h | h
        · cases h
        · exact h
      obtain ⟨e, he, her, hea⟩ := ih st2.graph st2.draws (rounds + 1) n2 (by omega)
        (resolvable_mono hsub hres) (by omega)
      refine ⟨e, ?_, by omega, hea⟩
      simp [insertionLoop, hscan, hins, he]

theorem eq_of_nodup_keys {l : List (String × JSONValue)} (hnd : (l.map Prod.fst).Nodup)
    {k : String} {a b : JSONValue} (ha : (k, a) ∈ l) (hb : (k, b) ∈ l) : a = b := by
  induction l with
  | nil => cases ha
  | cons hd t ih =>
    simp only [List.map_cons, List.nodup_cons, List.mem_map, not_exists, not_and] at hnd
    rcases List.mem_cons.1 ha with ha | ha <;> rcases List.mem_cons.1 hb with hb | hb
    · rw [← ha] at hb
      exact (Prod.mk.inj hb).2.symm
    · exact absurd (by rw [← ha]) (hnd.1 (k, b) hb)
    · exact absurd (by rw [← hb]) (hnd.1 (k, a) ha)
    · exact ih hnd.2 ha hb

/-- The names that the loop adds are declared nodes whose sources are in the graph. -/
theorem built_loop_names {ctx : Context} {g g2 : NetGraph} (h : Built ctx [] g g2) :
    ∀ x ∈ g2.names, x ∈ g.names ∨
      ∃ input, (x, input) ∈ ctx.nodes_json ∧ ∀ s ∈ designated input, s ∈ g2.names := by
  induction h with
  | refl => intro x hx; exact Or.inl hx
  | @declared g1 g3 key input seed _ hmem hsrc hadd ih =>
    intro x hx
    have hnames := addNode_names hadd
    rw [hnames] at hx
    rcases List.mem_append.1 hx with hx | hx
    · rcases ih x hx with h1 | ⟨inp, h1, h2⟩
      · exact Or.inl h1
      · exact Or.inr ⟨inp, h1, fun s hs => by rw [hnames]; exact List.mem_append_left _ (h2 s hs)⟩
    · simp only [declaredNode, List.mem_singleton] at hx
      subst hx
      exact Or.inr ⟨input, hmem, fun s hs => by
        rw [hnames]; exact List.mem_append_left _ (hsrc s hs)⟩
  | loss o _ ho _ _ _ => cases ho

/-- With a declared node that is absent from the graph and whose reference is dangling,
the loop is left by the `return false` of line 160, and the reported node is absent from
the graph with a dangling reference. -/
theorem insertionLoop_dangling (ctx : Context) (f : Nat)
    (htame : NoInputList ctx.nodes_json) (hnd : (ctx.nodes_json.map Prod.fst).Nodup)
    (kD sD : String) (hD : (kD, JSONValue.str sD) ∈ ctx.nodes_json)
    (hsD : sD ∉ ctx.nodes_json.map Prod.fst) :
    ∀ (m : Nat) (g : NetGraph) (draws rounds n : Nat),
      absentCount ctx.nodes_json g ≤ m → kD ∉ g.names → sD ∉ g.names → m ≤ n →
      ∃ sus g2, insertionLoop ctx (f + 1) n g draws rounds = some (.error (.invalid sus g2)) ∧
        Built ctx [] g g2 ∧ ∃ p ∈ ctx.nodes_json, Dangling ctx.nodes_json g2 p ∧ sus = p.1 := by
  intro m
  induction m with
  | zero =>
    intro g draws rounds n hm hk _ _
    have := absentCount_pos hD hk
    omega
  | succ m ih =>
    intro g draws rounds n hm hk hs hn
    obtain ⟨n2, rfl⟩ : ∃ n2, n = n2 + 1 := ⟨n - 1, by omega⟩
    obtain ⟨st2, hscan, hb, _, _, h4, h5, _, h7, h8⟩ :=
      scanNodes_spec ctx f ctx.nodes_json ⟨g, draws, false, false, ""⟩ (fun _ h => h) htame
    cases hins : st2.inserted_a_node with
    | false =>
      have hg : st2.graph = g := (h4 hins).1
      have hsh : st2.should_have_inserted_a_node = true := by
        cases hsh : st2.should_have_inserted_a_node with
        | true => rfl
        | false => exact absurd (h7 hsh (kD, .str sD) hD) hk
      refine ⟨st2.suspect_node, st2.graph, by simp [insertionLoop, hscan, hins, hsh], hb, ?_⟩
      rcases h8 hins with ⟨_, hnone⟩ | ⟨p, hp, hd, hsus⟩
      · refine absurd ?_ (hnone (kD, .str sD) hD)
        exact ⟨hk, sD, rfl, hs, by
          unfold jsonCount
          rw [List.count_eq_zero.2 hsD]
          omega⟩
      · exact ⟨p, hp, by rw [hg]; exact hd, hsus⟩
    | true =>
      have hsub : ∀ x ∈ g.names, x ∈ st2.graph.names := fun x hx => mem_names_of_built hb hx
      have hlt : absentCount ctx.nodes_json st2.graph < absentCount ctx.nodes_json g := by
        refine absentCount_lt hsub ?_
        rcases h5 hins with h | h
        · cases h
        · exact h
      have hs2 : sD ∉ st2.graph.names := by
        intro hmem
        rcases built_loop_names hb sD hmem with h | ⟨inp, hin, _⟩
        · exact hs h
        · exact hsD (List.mem_map.2 ⟨(sD, inp), hin, rfl⟩)
      have hk2 : kD ∉ st2.graph.names := by
        intro hmem
        rcases built_loop_names hb kD hmem with h | ⟨inp, hin, hsrc⟩
        · exact hk h
        · have e := eq_of_nodup_keys hnd hin hD
          subst e
          exact hs2 (hsrc sD (by simp [designated]))
      obtain ⟨sus, g2, he, _, hp⟩ := ih st2.graph st2.draws (rounds + 1) n2 (by omega) hk2 hs2
        (by omega)
      have hloop : insertionLoop ctx (f + 1) (n2 + 1) g draws rounds
          = some (.error (.invalid sus g2)) := by
        simp [insertionLoop, hscan, hins, he]
      exact ⟨sus, g2, hloop,
        insertionLoop_built ctx [] (f + 1) g _ g draws rounds _ Built.refl hloop, hp⟩

/-- The call reaches the loop when there is a `nodes` entry and a dataset input node. -/
theorem addLayers_reaches_loop (mt19937 : Nat → Nat → Nat) (net_json_ : NetJSON) (fuel : Nat)
    (graph : NetGraph) (seed : Nat) (nodes_json : List (String × JSONValue))
    (ds : Option Nat) (tl : List (Option Nat)) (hn : net_json_.nodes = some nodes_json)
    (ht : graph.training_nodes_ = ds :: tl) (hds : net_json_.input = .absent ∨ ds ≠ none) :
    AddLayers mt19937 net_json_ fuel graph seed =
      match insertionLoop (mkContext mt19937 net_json_ nodes_json ds seed) fuel fuel graph 0 0
        with
      | none => none
      | some (.error o) => some o
      | some (.ok e) => some (addLossLayers ds (designated net_json_.output) e.graph) := by
  unfold AddLayers
  have hc : ¬ (net_json_.input ≠ .absent ∧ ds = none) := by
    rintro ⟨h1, h2⟩
    rcases hds with h | h
    · exact h1 h
    · exact h h2
  simp only [hn, ht, hc, if_false]
  rfl

/-! ## `AddNode` as a parameter -/

theorem addNode_eq_unchecked (g : NetGraph) (node : NetGraphNode) :
    g.AddNode node
      = if g.ContainsNode node.unique_name then none else some (g.AddNodeUnchecked node) :=
  rfl

theorem addNodeLike_addNode : AddNodeLike NetGraph.AddNode := by
  intro g node
  rw [addNode_eq_unchecked]
  refine ⟨fun h => ?_, fun g2 h => ?_⟩
  · rw [if_neg (by simpa [NetGraph.ContainsNode] using h)]
  · split at h
    · cases h
    · exact (Option.some.inj h).symm

theorem addNodeLike_always : AddNodeLike addNodeAlways :=
  fun _ _ => ⟨fun _ => rfl, fun _ h => (Option.some.inj h).symm⟩

theorem addNodeLike_fresh {add : NetGraph → NetGraphNode → Option NetGraph}
    (hadd : AddNodeLike add) (g : NetGraph) (node : NetGraphNode)
    (h : node.unique_name ∉ g.names) : add g node = g.AddNode node := by
  rw [(hadd g node).1 h, (addNodeLike_addNode g node).1 h]

theorem unchecked_nodes (g : NetGraph) (node : NetGraphNode) :
    (g.AddNodeUnchecked node).nodes_ = g.nodes_ ++ [{ node with unique_id := g.last_uid + 1 }] :=
  rfl

theorem insertNodeVia_eq {add : NetGraph → NetGraphNode → Option NetGraph}
    (hadd : AddNodeLike add) (ctx : Context) (key : String) (c : InputCheck) (st : ScanState)
    (hk : key ∉ st.graph.names) : insertNodeVia add ctx key c st = insertNode ctx key c st := by
  unfold insertNodeVia insertNode
  cases wireInputs st.graph c.node_input_connections [] with
  | error s => rfl
  | ok conns =>
    simp only
    rw [addNodeLike_fresh hadd _ _ (by exact hk)]

/-- The scan calls `AddNode` with names that are new to the graph only (line 81), so that
it does not matter what `AddNode` does with a name that exists. -/
theorem scanNodesVia_eq {add : NetGraph → NetGraphNode → Option NetGraph}
    (hadd : AddNodeLike add) (ctx : Context) (fuel : Nat) :
    ∀ (rest : List (String × JSONValue)) (st : ScanState),
      scanNodesVia add ctx fuel rest st = scanNodes ctx fuel rest st := by
  intro rest
  induction rest with
  | nil => intro st; rfl
  | cons p rest ih =>
    obtain ⟨key, input⟩ := p
    intro st
    simp only [scanNodesVia, scanNodes]
    by_cases hk : st.graph.ContainsNode key = true
    · rw [if_pos hk, if_pos hk]
      exact ih st
    · rw [if_neg hk, if_neg hk]
      have hk2 : key ∉ st.graph.names := by simpa [NetGraph.ContainsNode] using hk
      cases checkInputs fuel st.graph ctx.nodes_json key input ⟨true, st.suspect_node, []⟩ with
      | none => rfl
      | some c =>
        simp only
        by_cases hc : c.can_insert_node = true
        · rw [if_pos hc, if_pos hc]
          have e := insertNodeVia_eq hadd ctx key c
            { st with should_have_inserted_a_node := true } hk2
          rw [e]
          cases insertNode ctx key c { st with should_have_inserted_a_node := true } with
          | error o => rfl
          | ok st2 => exact ih st2
        · rw [if_neg hc, if_neg hc]
          exact ih _

theorem insertionLoopVia_eq {add : NetGraph → NetGraphNode → Option NetGraph}
    (hadd : AddNodeLike add) (ctx : Context) (fuel : Nat) :
    ∀ (n : Nat) (g : NetGraph) (draws rounds : Nat),
      insertionLoopVia add ctx fuel n g draws rounds = insertionLoop ctx fuel n g draws rounds := by
  intro n
  induction n with
  | zero => intro g draws rounds; rfl
  | succ n ih =>
    intro g draws rounds
    simp only [insertionLoopVia, insertionLoop, scanNodesVia_eq hadd]
    cases scanNodes ctx fuel ctx.nodes_json ⟨g, draws, false, false, ""⟩ with
    | none => rfl
    | some r =>
      cases r with
      | error o => rfl
      | ok st =>
        simp only
        split
        · rfl
        · split
          · rfl
          · exact ih _ _ _

theorem insertNode_returns (ctx : Context) (key : String) (c : InputCheck) (st : ScanState)
    (hk : key ∉ st.graph.names) (g : NetGraph) :
    insertNode ctx key c st ≠ .error (.addNodeFailed g) := by
  unfold insertNode
  cases wireInputs st.graph c.node_input_connections [] with
  | error s => simp
  | ok conns =>
    simp only
    obtain ⟨g2, h2⟩ := addNode_of_not_mem st.graph
      ⟨key, -1, wireDatasetInput ctx.dataset_input_node key ctx.input_nodes conns,
        outputFlag key ctx.output_nodes false, .json (ctx.rand st.draws)⟩ hk
    rw [h2]
    simp

/-- No call of `AddNode` made by a scan is refused: line 81 has passed over the names that
the graph holds. -/
theorem scanNodes_returns (ctx : Context) (fuel : Nat) :
    ∀ (rest : List (String × JSONValue)) (st : ScanState) (g : NetGraph),
      scanNodes ctx fuel rest st ≠ some (.error (.addNodeFailed g)) := by
  intro rest
  induction rest with
  | nil => intro st g; simp [scanNodes]
  | cons p rest ih =>
    obtain ⟨key, input⟩ := p
    intro st g
    simp only [scanNodes]
    by_cases hk : st.graph.ContainsNode key = true
    · rw [if_pos hk]
      exact ih st g
    · rw [if_neg hk]
      have hk2 : key ∉ st.graph.names := by simpa [NetGraph.ContainsNode] using hk
      cases checkInputs fuel st.graph ctx.nodes_json key input ⟨true, st.suspect_node, []⟩ with
      | none => simp
      | some c =>
        simp only
        by_cases hc : c.can_insert_node = true
        · rw [if_pos hc]
          have hret := insertNode_returns ctx key c
            { st with should_have_inserted_a_node := true } hk2 g
          cases hins : insertNode ctx key c { st with should_have_inserted_a_node := true } with
          | error o =>
            simp only [ne_eq, Option.some.injEq, Except.error.injEq]
            intro ho
            exact hret (by rw [hins, ho])
          | ok st2 => exact ih st2 g
        · rw [if_neg hc]
          exact ih _ g

theorem insertionLoop_returns (ctx : Context) (fuel : Nat) :
    ∀ (n : Nat) (g : NetGraph) (draws rounds : Nat) (g2 : NetGraph),
      insertionLoop ctx fuel n g draws rounds ≠ some (.error (.addNodeFailed g2)) := by
  intro n
  induction n with
  | zero => intro g draws rounds g2; simp [insertionLoop]
  | succ n ih =>
    intro g draws rounds g2
    simp only [insertionLoop]
    have hs := scanNodes_returns ctx fuel ctx.nodes_json ⟨g, draws, false, false, ""⟩ g2
    cases hscan : scanNodes ctx fuel ctx.nodes_json ⟨g, draws, false, false, ""⟩ with
    | none => simp
    | some r =>
      cases r with
      | error o =>
        rw [hscan] at hs
        simpa using hs
      | ok st =>
        simp only
        split
        · simp
        · split
          · simp
          · exact ih _ _ _ g2


theorem addLossLayersVia_addNode (ds : Option Nat) :
    ∀ (outs : List String) (g : NetGraph),
      addLossLayersVia NetGraph.AddNode ds outs g = addLossLayers ds outs g := by
  intro outs
  induction outs with
  | nil => intro g; rfl
  | cons o rest ih =>
    intro g
    simp only [addLossLayersVia, addLossLayers]
    cases g.GetNode o with
    | none => rfl
    | some i =>
      simp only
      cases g.AddNode ⟨"loss_" ++ o, -1,
          [⟨some i, 0, true⟩, ⟨ds, 1, false⟩, ⟨ds, 3, false⟩], false, .error⟩ with
      | none => rfl
      | some g2 => exact ih g2

/-- The function `AddLayers` is `AddLayersVia` with the `AddNode` of spec 4.1. -/
theorem addLayersVia_addNode (mt19937 : Nat → Nat → Nat) (net_json_ : NetJSON) (fuel : Nat)
    (graph : NetGraph) (seed : Nat) :
    AddLayersVia NetGraph.AddNode mt19937 net_json_ fuel graph seed
      = AddLayers mt19937 net_json_ fuel graph seed := by
  unfold AddLayersVia AddLayers
  simp only [insertionLoopVia_eq addNodeLike_addNode, addLossLayersVia_addNode]

/-- A call that has reached the loop, with `add` for `AddNode`. -/
theorem addLayersVia_reaches_loop {add : NetGraph → NetGraphNode → Option NetGraph}
    (hadd : AddNodeLike add) (mt19937 : Nat → Nat → Nat) (net_json_ : NetJSON) (fuel : Nat)
    (graph : NetGraph) (seed : Nat) (nodes_json : List (String × JSONValue))
    (ds : Option Nat) (tl : List (Option Nat)) (hn : net_json_.nodes = some nodes_json)
    (ht : graph.training_nodes_ = ds :: tl) (hds : net_json_.input = .absent ∨ ds ≠ none) :
    AddLayersVia add mt19937 net_json_ fuel graph seed =
      match insertionLoop (mkContext mt19937 net_json_ nodes_json ds seed) fuel fuel graph 0 0
        with
      | none => none
      | some (.error o) => some o
      | some (.ok e) =>
        some (addLossLayersVia add ds (designated net_json_.output) e.graph) := by
  unfold AddLayersVia
  have hc : ¬ (net_json_.input ≠ .absent ∧ ds = none) := by
    rintro ⟨h1, h2⟩
    rcases hds with h | h
    · exact h1 h
    · exact h h2
  simp only [hn, ht, hc, if_false, insertionLoopVia_eq hadd]
  rfl

/-- A call that does not reach the loop leaves the graph as it was. -/
theorem addLayersVia_before_loop (add : NetGraph → NetGraphNode → Option NetGraph)
    (mt19937 : Nat → Nat → Nat) (net_json_ : NetJSON) (fuel : Nat)
    (graph : NetGraph) (seed : Nat) (o : Outcome)
    (h : AddLayersVia add mt19937 net_json_ fuel graph seed = some o) :
    o.graph = graph ∨
      ∃ nodes_json ds tl, net_json_.nodes = some nodes_json ∧
        graph.training_nodes_ = ds :: tl ∧ (net_json_.input = .absent ∨ ds ≠ none) := by
  unfold AddLayersVia at h
  cases hn : net_json_.nodes with
  | none =>
    simp only [hn, Option.some.injEq] at h
    subst h
    exact Or.inl rfl
  | some nodes_json =>
    cases ht : graph.training_nodes_ with
    | nil =>
      simp only [hn, ht, Option.some.injEq] at h
      subst h
      exact Or.inl rfl
    | cons ds tl =>
      simp only [hn, ht] at h
      split at h
      · simp only [Option.some.injEq] at h
        subst h
        exact Or.inl rfl
      · rename_i hc
        refine Or.inr ⟨nodes_json, ds, tl, rfl, rfl, ?_⟩
        by_cases h1 : net_json_.input = .absent
        · exact Or.inl h1
        · exact Or.inr fun h2 => hc ⟨h1, h2⟩

/-! ## Graphs made by `AddNode` -/

theorem constructed_training {g : NetGraph} (h : g.Constructed) : g.TrainingNodesValid := by
  induction h with
  | fresh => intro p hp; cases hp
  | @addNode g node _ ih =>
    intro p hp
    have hlen : (g.AddNodeUnchecked node).nodes_.length = g.nodes_.length + 1 := by
      simp [unchecked_nodes]
    rw [hlen]
    by_cases hl : node.layer = LayerKind.training
    · have e : (g.AddNodeUnchecked node).training_nodes_
          = g.training_nodes_ ++ [some g.nodes_.length] := by
        simp [NetGraph.AddNodeUnchecked, hl]
      rw [e] at hp
      rcases List.mem_append.1 hp with hp | hp
      · obtain ⟨d, hd, hlt⟩ := ih p hp
        exact ⟨d, hd, by omega⟩
      · simp only [List.mem_singleton] at hp
        exact ⟨_, hp, by omega⟩
    · have e : (g.AddNodeUnchecked node).training_nodes_ = g.training_nodes_ := by
        simp [NetGraph.AddNodeUnchecked, hl]
      rw [e] at hp
      obtain ⟨d, hd, hlt⟩ := ih p hp
      exact ⟨d, hd, by omega⟩

/-- The loss nodes keep the node list in topological order, whatever `AddNode` does with a
name that exists. -/
theorem addLossLayersVia_topological {add : NetGraph → NetGraphNode → Option NetGraph}
    (hadd : AddNodeLike add) (d : Nat) :
    ∀ (outs : List String) (g : NetGraph), g.TopologicalOrder → d < g.nodes_.length →
      (addLossLayersVia add (some d) outs g).graph.TopologicalOrder := by
  intro outs
  induction outs with
  | nil => intro g hg _; exact hg
  | cons o rest ih =>
    intro g hg hd
    simp only [addLossLayersVia]
    cases hget : g.GetNode o with
    | none => exact hg
    | some i =>
      simp only
      cases hcall : add g ⟨"loss_" ++ o, -1,
          [⟨some i, 0, true⟩, ⟨some d, 1, false⟩, ⟨some d, 3, false⟩], false, .error⟩ with
      | none => exact hg
      | some g2 =>
        have e := (hadd _ _).2 g2 hcall
        subst e
        refine ih _ (topological_append hg (unchecked_nodes _ _) ?_) ?_
        · intro c hc
          have hi := (getNode_eq_some hget).2.2
          simp only [List.mem_cons, List.mem_singleton, List.not_mem_nil, or_false] at hc
          rcases hc with rfl | rfl | rfl
          · exact hi
          · exact hd
          · exact hd
        · rw [unchecked_nodes]
          simp only [List.length_append, List.length_singleton]
          omega

/-! ## C1: the number of rounds -/

/-- C1, as stated, fails: for the single declared node `A` (N = 1) the loop is not left
within one round. The first round inserts `A`, and only a second round, which inserts
nothing and finds nothing missing, reaches `break`. -/
theorem insertionLoop_single_node_two_rounds :
    ¬ ∃ fuel e,
      insertionLoop (contextOf countingGenerator singleNodeConfig dataGraph 7) fuel fuel
        dataGraph 0 0 = some (.ok e) ∧
      e.rounds ≤ (contextOf countingGenerator singleNodeConfig dataGraph 7).nodes_json.length := by
  rintro ⟨fuel, e, h, hr⟩
  rcases fuel with _ | _ | fuel
  · cases h
  · have h1 : insertionLoop (contextOf countingGenerator singleNodeConfig dataGraph 7) 1 1
        dataGraph 0 0 = none := by rfl
    rw [h1] at h
    cases h
  · have h2 : (insertionLoop (contextOf countingGenerator singleNodeConfig dataGraph 7)
        (fuel + 2) (fuel + 2) dataGraph 0 0).map (Except.map LoopExit.rounds)
        = some (.ok 2) := by
      rfl
    rw [h] at h2
    simp only [Option.map_some', Except.map, Option.some.injEq, Except.ok.injEq] at h2
    rw [h2] at hr
    exact absurd hr (by decide)

/-- C1, amended: for a configuration of N declared nodes whose input references are single
names (or missing, or empty lists) and are neither dangling nor cyclic, the insertion loop
of `AddLayers`, run with enough fuel, is left by `break` after at most N + 1 rounds, and
then every declared node is a node of the graph. -/
theorem insertionLoop_terminates_within (ctx : Context) (fuel : Nat) (g : NetGraph)
    (draws : Nat) (rank : String → Nat) (htame : NoInputList ctx.nodes_json)
    (hres : Resolvable ctx.nodes_json g rank) (hfuel : ctx.nodes_json.length + 1 ≤ fuel) :
    ∃ e, insertionLoop ctx fuel fuel g draws 0 = some (.ok e) ∧
      e.rounds ≤ ctx.nodes_json.length + 1 ∧ ∀ p ∈ ctx.nodes_json, p.1 ∈ e.graph.names := by
  obtain ⟨f, rfl⟩ : ∃ f, fuel = f + 1 := ⟨fuel - 1, by omega⟩
  obtain ⟨e, he, hr, ha⟩ := insertionLoop_resolvable ctx f rank htame ctx.nodes_json.length g
    draws 0 (f + 1) (List.countP_le_length _) hres hfuel
  exact ⟨e, he, by omega, ha⟩

/-- C1, amended, at the chain `A → B → C` declared as `C`, `A`, `B`. -/
theorem insertionLoop_terminates_within_witness :
    ∃ e, insertionLoop (contextOf countingGenerator chainConfig dataGraph 7) 4 4 dataGraph 0 0
        = some (.ok e) ∧
      e.rounds ≤ (contextOf countingGenerator chainConfig dataGraph 7).nodes_json.length + 1 ∧
      ∀ p ∈ (contextOf countingGenerator chainConfig dataGraph 7).nodes_json,
        p.1 ∈ e.graph.names :=
  insertionLoop_terminates_within (contextOf countingGenerator chainConfig dataGraph 7) 4
    dataGraph 0 chainRank
    (by
      intro p hp a l
      simp only [contextOf, mkContext, chainConfig, Option.getD_some, List.mem_cons,
        List.mem_singleton, List.not_mem_nil, or_false] at hp
      rcases hp with rfl | rfl | rfl <;> simp)
    (by
      intro p hp s hs
      simp only [contextOf, mkContext, chainConfig, Option.getD_some, List.mem_cons,
        List.mem_singleton, List.not_mem_nil, or_false] at hp
      rcases hp with rfl | rfl | rfl
      · simp only [designated, List.mem_singleton] at hs
        subst hs
        exact Or.inr ⟨⟨.str "A", by simp [contextOf, mkContext, chainConfig]⟩, by decide⟩
      · simp [designated] at hs
      · simp only [designated, List.mem_singleton] at hs
        subst hs
        exact Or.inr ⟨⟨.absent, by simp [contextOf, mkContext, chainConfig]⟩, by decide⟩)
    (by decide)

/-! ## C2: topological order -/

/-- C2: let the graph be one that calls of `AddNode` have made of a new `NetGraph`, with
its node list in topological order. Then the node list is in topological order after
`AddLayers`, however the call ends and whatever `AddNode` does with a name that exists
(`AddLayers` itself is the case `add = NetGraph.AddNode`): every connection of every node,
the inserted declared nodes and the attached loss nodes among them, has a source node that
stands before the node, so none leads to the node itself or to a node that is not in the
graph yet. -/
theorem addLayers_keeps_topological_order (add : NetGraph → NetGraphNode → Option NetGraph)
    (hadd : AddNodeLike add) (mt19937 : Nat → Nat → Nat) (net_json_ : NetJSON)
    (fuel : Nat) (graph : NetGraph) (seed : Nat) (o : Outcome)
    (hc : graph.Constructed) (htopo : graph.TopologicalOrder)
    (h : AddLayersVia add mt19937 net_json_ fuel graph seed = some o) :
    o.graph.TopologicalOrder ∧
      ∀ (i : Nat) (hi : i < o.graph.nodes_.length),
        ∀ c ∈ (o.graph.nodes_.get ⟨i, hi⟩).input_connections, ∃ j, c.node = some j ∧ j < i := by
  have key : o.graph.TopologicalOrder := by
    rcases addLayersVia_before_loop add mt19937 net_json_ fuel graph seed o h with
      hsame | ⟨nodes_json, ds, tl, hn, ht, hds⟩
    · rw [hsame]
      exact htopo
    · obtain ⟨d, hd, hlt⟩ := constructed_training hc ds (by rw [ht]; exact List.mem_cons_self _ _)
      subst hd
      rw [addLayersVia_reaches_loop hadd mt19937 net_json_ fuel graph seed nodes_json _ tl hn ht
        hds] at h
      cases hl : insertionLoop (mkContext mt19937 net_json_ nodes_json (some d) seed) fuel fuel
          graph 0 0 with
      | none => rw [hl] at h; cases h
      | some r =>
        have hb := insertionLoop_built (mkContext mt19937 net_json_ nodes_json (some d) seed)
          [] fuel graph _ _ _ _ _ Built.refl hl
        have ht2 := built_topological hb htopo ⟨d, rfl, hlt⟩
        rw [hl] at h
        cases r with
        | error o2 =>
          simp only [Option.some.injEq] at h
          subst h
          exact ht2
        | ok e =>
          simp only [Option.some.injEq] at h
          subst h
          exact addLossLayersVia_topological hadd d _ _ ht2
            (Nat.lt_of_lt_of_le hlt (built_length_le hb))
  refine ⟨key, fun i hi c hmem => ?_⟩
  have hs := key i hi c hmem
  unfold NetGraphConnection.sourceBefore at hs
  cases hnode : c.node with
  | none => rw [hnode] at hs; exact hs.elim
  | some j => rw [hnode] at hs; exact ⟨j, rfl, hs⟩

/-- C2 at the chain `A → B → C` with output `C` on the graph that one call of `AddNode`
with a dataset input node has made. -/
theorem addLayers_keeps_topological_order_witness :
    ∃ o, AddLayers countingGenerator chainOutputConfig 4 dataGraph 7 = some o ∧
      o.graph.names = ["data", "A", "B", "C", "loss_C"] ∧
      o.graph.TopologicalOrder ∧
      ∀ (i : Nat) (hi : i < o.graph.nodes_.length),
        ∀ c ∈ (o.graph.nodes_.get ⟨i, hi⟩).input_connections, ∃ j, c.node = some j ∧ j < i :=
  ⟨_, rfl, by decide,
    addLayers_keeps_topological_order NetGraph.AddNode addNodeLike_addNode countingGenerator
      chainOutputConfig 4 dataGraph 7 _
      (NetGraph.Constructed.addNode ⟨"data", -1, [], false, .training⟩
        NetGraph.Constructed.fresh)
      (by
        intro i hi c hc
        have hi0 : i = 0 := by simpa [dataGraph] using hi
        subst hi0
        simp [dataGraph] at hc)
      rfl⟩

/-! ## C3: dangling references -/

/-- C3, as stated, fails: the declared node `A` refers to `Z`, which is neither a node of
the graph nor declared, but a node named `A` is in the graph already. Line 81 skips `A`,
its input is never looked at, and no call, whatever the fuel, ends with the failure of
line 160. -/
theorem addLayers_skips_present_node :
    (("A", JSONValue.str "Z") ∈ danglingConfig.nodes.getD [] ∧ "Z" ∉ presentGraph.names ∧
      "Z" ∉ (danglingConfig.nodes.getD []).map Prod.fst) ∧
    ¬ ∃ fuel sus g,
      AddLayers countingGenerator danglingConfig fuel presentGraph 7 = some (.invalid sus g) := by
  refine ⟨⟨by decide, by decide, by decide⟩, ?_⟩
  rintro ⟨fuel, sus, g, h⟩
  rcases fuel with _ | fuel
  · cases h
  · have h1 : AddLayers countingGenerator danglingConfig (fuel + 1) presentGraph 7
        = some (.initialized presentGraph) := by rfl
    rw [h1] at h
    cases h

/-- C3, amended: let the configuration contain a declared node that is not yet in the
graph and whose `input` is a single name that is neither a node of the graph nor a declared
node; let no declared node have a non-empty input list, and let the call reach the loop
(a `nodes` entry, a first training node, which is not null if an `input` entry is given).
Then `AddLayers`, run with enough fuel, returns failure at line 160, and the reported
`suspect_node` is a declared node that is not in the graph and whose reference names
neither a node of the graph nor a declared node. -/
theorem addLayers_reports_dangling (mt19937 : Nat → Nat → Nat) (net_json_ : NetJSON)
    (fuel : Nat) (graph : NetGraph) (seed : Nat) (nodes_json : List (String × JSONValue))
    (ds : Option Nat) (tl : List (Option Nat)) (key ref : String)
    (hn : net_json_.nodes = some nodes_json) (hnd : (nodes_json.map Prod.fst).Nodup)
    (htame : NoInputList nodes_json) (ht : graph.training_nodes_ = ds :: tl)
    (hds : net_json_.input = .absent ∨ ds ≠ none)
    (hmem : (key, JSONValue.str ref) ∈ nodes_json) (hkey : key ∉ graph.names)
    (href : ref ∉ graph.names) (hdecl : ref ∉ nodes_json.map Prod.fst)
    (hfuel : nodes_json.length ≤ fuel) :
    ∃ sus g2, AddLayers mt19937 net_json_ fuel graph seed = some (.invalid sus g2) ∧
      ∃ s, (sus, JSONValue.str s) ∈ nodes_json ∧ sus ∉ g2.names ∧ s ∉ g2.names ∧
        s ∉ graph.names ∧ s ∉ nodes_json.map Prod.fst := by
  have hpos : 0 < nodes_json.length := List.length_pos_of_mem hmem
  obtain ⟨f, rfl⟩ : ∃ f, fuel = f + 1 := ⟨fuel - 1, by omega⟩
  obtain ⟨sus, g2, hloop, hb, p, hp, ⟨hp1, s, hp2, hp3, hp4⟩, hsus⟩ :=
    insertionLoop_dangling (mkContext mt19937 net_json_ nodes_json ds seed) f htame hnd key ref
      hmem hdecl nodes_json.length graph 0 0 (f + 1) (List.countP_le_length _) hkey href hfuel
  refine ⟨sus, g2, ?_, s, ?_, ?_, hp3, fun hs => hp3 (mem_names_of_built hb hs), ?_⟩
  · rw [addLayers_reaches_loop mt19937 net_json_ (f + 1) graph seed nodes_json ds tl hn ht hds,
      hloop]
  · obtain ⟨k, v⟩ := p
    simp only at hp2 hsus
    subst hp2 hsus
    exact hp
  · rw [hsus]; exact hp1
  · intro hs
    have hc : (List.map Prod.fst nodes_json).count s ≤ 1 :=
      List.nodup_iff_count_le_one.1 hnd s
    have hc2 : 0 < (List.map Prod.fst nodes_json).count s := List.count_pos_iff.2 hs
    exact hp4 (by
      show (List.map Prod.fst nodes_json).count s = 1
      omega)

/-- C3, amended, at the declared nodes `A` (no input) and `B` (input `Z`). -/
theorem addLayers_reports_dangling_witness :
    ∃ sus g2, AddLayers countingGenerator partialConfig 2 dataGraph 7 = some (.invalid sus g2) ∧
      ∃ s, (sus, JSONValue.str s) ∈ [("A", JSONValue.absent), ("B", JSONValue.str "Z")] ∧
        sus ∉ g2.names ∧ s ∉ g2.names ∧ s ∉ dataGraph.names ∧
        s ∉ [("A", JSONValue.absent), ("B", JSONValue.str "Z")].map Prod.fst :=
  addLayers_reports_dangling countingGenerator partialConfig 2 dataGraph 7
    [("A", .absent), ("B", .str "Z")] (some 0) [] "B" "Z" rfl (by decide)
    (by
      intro p hp a l
      simp only [List.mem_cons, List.mem_singleton, List.not_mem_nil, or_false] at hp
      rcases hp with rfl | rfl <;> simp)
    rfl (Or.inl rfl) (by decide) (by decide) (by decide) (by decide) (by decide)

/-! ## C4: the graph after a failure -/

/-- C4, as stated, fails: with `A` insertable and `B` referring to the unknown `Z`, the
first round inserts `A`, the second round reports `B` and returns failure, and `A` stays in
the graph. -/
theorem addLayers_failure_keeps_inserted_nodes :
    ∃ g, AddLayers countingGenerator partialConfig 3 dataGraph 7 = some (.invalid "B" g) ∧
      g.names = ["data", "A"] ∧ g.nodes_ ≠ dataGraph.nodes_ :=
  ⟨_, rfl, by decide, by decide⟩

/-- C4, amended: however `AddLayers` ends, and so also when it returns failure for a
dangling reference, a cycle or a missing output node, the node list before the call is a
prefix of the node list after the call. Nodes are appended only; nothing is rolled back. -/
theorem addLayers_nodes_extend (mt19937 : Nat → Nat → Nat) (net_json_ : NetJSON)
    (fuel : Nat) (graph : NetGraph) (seed : Nat) (o : Outcome)
    (h : AddLayers mt19937 net_json_ fuel graph seed = some o) :
    graph.nodes_ <+: o.graph.nodes_ :=
  built_extends (addLayers_built mt19937 net_json_ fuel graph seed o h)

/-- C4, amended, at a failing call. -/
theorem addLayers_nodes_extend_witness :
    ∃ g, AddLayers countingGenerator partialConfig 3 dataGraph 7 = some (.invalid "B" g) ∧
      dataGraph.nodes_ <+: g.nodes_ :=
  ⟨_, rfl, addLayers_nodes_extend countingGenerator partialConfig 3 dataGraph 7 _ rfl⟩

/-! ## C5: unique names -/

/-- With an output list without repeated entries whose loss names are new to the graph,
every call of `AddNode` of lines 165-177 is made with a name that is new to the graph. -/
theorem addLossLayersVia_fresh {add : NetGraph → NetGraphNode → Option NetGraph}
    (hadd : AddNodeLike add) (ds : Option Nat) :
    ∀ (outs : List String) (g : NetGraph), outs.Nodup →
      (∀ x ∈ outs, "loss_" ++ x ∉ g.names) →
      addLossLayersVia add ds outs g = addLossLayers ds outs g ∧
        ∀ g2, addLossLayers ds outs g ≠ .addNodeFailed g2 := by
  intro outs
  induction outs with
  | nil => intro g _ _; exact ⟨rfl, fun g2 h => by cases h⟩
  | cons o rest ih =>
    intro g hnd hfree
    simp only [addLossLayersVia, addLossLayers]
    cases g.GetNode o with
    | none => exact ⟨rfl, fun g2 h => by cases h⟩
    | some i =>
      simp only
      have hnew : "loss_" ++ o ∉ g.names := hfree o (List.mem_cons_self _ _)
      have hcall := addNodeLike_fresh hadd g
        ⟨"loss_" ++ o, -1, [⟨some i, 0, true⟩, ⟨ds, 1, false⟩, ⟨ds, 3, false⟩],
          false, .error⟩ hnew
      rw [hcall]
      obtain ⟨g1, h1⟩ := addNode_of_not_mem g
        ⟨"loss_" ++ o, -1, [⟨some i, 0, true⟩, ⟨ds, 1, false⟩, ⟨ds, 3, false⟩],
          false, .error⟩ hnew
      rw [h1]
      simp only
      have hnd2 := List.nodup_cons.1 hnd
      refine ih g1 hnd2.2 fun x hx => ?_
      rw [addNode_names h1]
      intro hmem
      rcases List.mem_append.1 hmem with hmem | hmem
      · exact hfree x (List.mem_cons_of_mem _ hx) hmem
      · simp only [List.mem_singleton] at hmem
        have e := loss_name_injective hmem
        subst e
        exact hnd2.1 hx

/-- C5, as stated, fails: for the output list `[X, X]` line 176 calls `AddNode` a second
time with the name `loss_X`, which a node of the graph bears by then. With an `AddNode`
that takes the node in, `Initialize()` is reached with two nodes named `loss_X`; with an
`AddNode` that refuses a name that exists, the call is made all the same and refused. -/
theorem addLayers_repeated_output_names :
    dataGraph.names.Nodup ∧
      (∃ g, AddLayersVia addNodeAlways countingGenerator repeatedOutputConfig 2 dataGraph 7
          = some (.initialized g) ∧
        g.names = ["data", "X", "loss_X", "loss_X"] ∧ ¬ g.names.Nodup) ∧
      ∃ g, AddLayers countingGenerator repeatedOutputConfig 2 dataGraph 7
          = some (.addNodeFailed g) ∧ "loss_X" ∈ g.names :=
  ⟨by decide, ⟨_, rfl, by decide, by decide⟩, ⟨_, rfl, by decide⟩⟩

/-- C5, amended: whatever `AddNode` does with a name that exists, the insertion loop never
calls it with one (line 81). If moreover the names of the nodes are pairwise distinct
before the call, the output list has no repeated entry and no loss name `"loss_" + o` of a
declared output is the name of a node of the graph or of a declared node, then no call of
`AddNode` at all is made with a name that exists, so that the call of `AddLayers` does not
depend on what `AddNode` does with such a name, and the names of all nodes are pairwise
distinct afterwards, however the call ends. -/
theorem addLayers_calls_with_new_names (add : NetGraph → NetGraphNode → Option NetGraph)
    (hadd : AddNodeLike add) (mt19937 : Nat → Nat → Nat) (net_json_ : NetJSON)
    (fuel : Nat) (graph : NetGraph) (seed : Nat)
    (hnd : graph.names.Nodup) (houts : (designated net_json_.output).Nodup)
    (hfree : ∀ x ∈ designated net_json_.output,
      "loss_" ++ x ∉ graph.names ∧ ∀ p ∈ net_json_.nodes.getD [], p.1 ≠ "loss_" ++ x) :
    (∀ (ctx : Context) (n : Nat) (g : NetGraph) (draws rounds : Nat),
      insertionLoopVia add ctx fuel n g draws rounds = insertionLoop ctx fuel n g draws rounds ∧
        ∀ g2, insertionLoop ctx fuel n g draws rounds ≠ some (.error (.addNodeFailed g2))) ∧
    AddLayersVia add mt19937 net_json_ fuel graph seed
      = AddLayers mt19937 net_json_ fuel graph seed ∧
    ∀ o, AddLayers mt19937 net_json_ fuel graph seed = some o →
      (∀ g2, o ≠ .addNodeFailed g2) ∧ o.graph.names.Nodup := by
  have hloop : ∀ (ctx : Context) (n : Nat) (g : NetGraph) (draws rounds : Nat),
      insertionLoopVia add ctx fuel n g draws rounds = insertionLoop ctx fuel n g draws rounds ∧
        ∀ g2, insertionLoop ctx fuel n g draws rounds ≠ some (.error (.addNodeFailed g2)) :=
    fun ctx n g draws rounds =>
      ⟨insertionLoopVia_eq hadd ctx fuel n g draws rounds,
        insertionLoop_returns ctx fuel n g draws rounds⟩
  -- the loss names are new to the graph that the loop hands on
  have hafter : ∀ (nodes_json : List (String × JSONValue)) (ds : Option Nat) (e : LoopExit),
      net_json_.nodes = some nodes_json →
      insertionLoop (mkContext mt19937 net_json_ nodes_json ds seed) fuel fuel graph 0 0
        = some (.ok e) →
      ∀ x ∈ designated net_json_.output, "loss_" ++ x ∉ e.graph.names := by
    intro nodes_json ds e hn hl x hx hmem
    have hb := insertionLoop_built (mkContext mt19937 net_json_ nodes_json ds seed)
      [] fuel graph _ _ _ _ _ Built.refl hl
    rcases built_loop_names hb _ hmem with h1 | ⟨input, h1, _⟩
    · exact (hfree x hx).1 h1
    · refine (hfree x hx).2 ("loss_" ++ x, input) ?_ rfl
      rw [hn]
      exact h1
  have heq : AddLayersVia add mt19937 net_json_ fuel graph seed
      = AddLayers mt19937 net_json_ fuel graph seed := by
    unfold AddLayersVia AddLayers
    cases hn : net_json_.nodes with
    | none => rfl
    | some nodes_json =>
      cases ht : graph.training_nodes_ with
      | nil => rfl
      | cons ds tl =>
        simp only [insertionLoopVia_eq hadd]
        split
        · rfl
        · cases hl : insertionLoop (mkContext mt19937 net_json_ nodes_json ds seed) fuel fuel
              graph 0 0 with
          | none => rfl
          | some r =>
            cases r with
            | error o => rfl
            | ok e =>
              simp only
              have e2 := (addLossLayersVia_fresh hadd ds _ e.graph houts
                (hafter nodes_json ds e hn hl)).1
              exact congrArg some e2
  refine ⟨hloop, heq, fun o ho => ⟨fun g2 hg2 => ?_, ?_⟩⟩
  · subst hg2
    unfold AddLayers at ho
    cases hn : net_json_.nodes with
    | none => simp [hn] at ho
    | some nodes_json =>
      cases ht : graph.training_nodes_ with
      | nil => simp [hn, ht] at ho
      | cons ds tl =>
        simp only [hn, ht] at ho
        split at ho
        · simp at ho
        · cases hl : insertionLoop (mkContext mt19937 net_json_ nodes_json ds seed) fuel fuel
              graph 0 0 with
          | none => rw [hl] at ho; cases ho
          | some r =>
            rw [hl] at ho
            cases r with
            | error o2 =>
              simp only [Option.some.injEq] at ho
              subst ho
              exact insertionLoop_returns _ _ _ _ _ _ g2 hl
            | ok e =>
              simp only [Option.some.injEq] at ho
              exact (addLossLayersVia_fresh hadd ds _ e.graph houts
                (hafter nodes_json ds e hn hl)).2 g2 ho
  · exact built_names_nodup (addLayers_built mt19937 net_json_ fuel graph seed o ho) hnd

/-- C5, amended, at the chain `A → B → C` with output `C`, for the `AddNode` that takes in
every node. -/
theorem addLayers_calls_with_new_names_witness :
    AddLayersVia addNodeAlways countingGenerator chainOutputConfig 4 dataGraph 7
      = AddLayers countingGenerator chainOutputConfig 4 dataGraph 7 ∧
    ∃ g, AddLayers countingGenerator chainOutputConfig 4 dataGraph 7 = some (.initialized g) ∧
      g.names = ["data", "A", "B", "C", "loss_C"] ∧ g.names.Nodup :=
  ⟨(addLayers_calls_with_new_names addNodeAlways addNodeLike_always countingGenerator
      chainOutputConfig 4 dataGraph 7 (by decide) (by decide) (by decide)).2.1,
    _, rfl, by decide,
    ((addLayers_calls_with_new_names addNodeAlways addNodeLike_always countingGenerator
      chainOutputConfig 4 dataGraph 7 (by decide) (by decide) (by decide)).2.2 _ rfl).2⟩

/-! ## C6: the connections of an inserted node -/

/-- C6, as stated, fails: the node `A` is named twice in the `input` array of the
configuration, and the loop of lines 139-144 pushes one connection to the dataset input
node for each of the two entries. -/
theorem addLayers_repeated_input_designation :
    ∃ g, AddLayers countingGenerator doubleInputConfig 2 sourceGraph 7 = some (.initialized g) ∧
      g.nodes_.map (fun n => (n.unique_name, n.input_connections)) =
        [("data", []), ("src", []),
          ("A", [⟨some 1, 0, true⟩, ⟨some 0, 0, false⟩, ⟨some 0, 0, false⟩])] :=
  ⟨_, rfl, by decide⟩

/-- C6, amended: a declared node that `AddLayers` has inserted and whose `input` is the
single name `s` has, in this order, one connection (the graph node named `s`, buffer 0,
backprop enabled) and then one connection (dataset input node, buffer 0, backprop disabled)
for every entry of the declared input designations that equals its name: none if there is
no such entry, exactly one if the name is designated once. Its `is_output` flag is set if
and only if its name is among the declared output designations. -/
theorem addLayers_declared_node_connections (mt19937 : Nat → Nat → Nat) (net_json_ : NetJSON)
    (fuel : Nat) (graph : NetGraph) (seed : Nat) (o : Outcome)
    (nodes_json : List (String × JSONValue)) (hn : net_json_.nodes = some nodes_json)
    (hnd : (nodes_json.map Prod.fst).Nodup)
    (h : AddLayers mt19937 net_json_ fuel graph seed = some o)
    (i : Nat) (hi : i < o.graph.nodes_.length) (hnew : graph.nodes_.length ≤ i) (sd : Nat)
    (hj : (o.graph.nodes_.get ⟨i, hi⟩).layer = .json sd) (s : String)
    (hin : ((o.graph.nodes_.get ⟨i, hi⟩).unique_name, JSONValue.str s) ∈ nodes_json) :
    s ∈ o.graph.names ∧
      (o.graph.nodes_.get ⟨i, hi⟩).input_connections =
        ⟨o.graph.GetNode s, 0, true⟩ ::
          List.replicate
            ((designated net_json_.input).count (o.graph.nodes_.get ⟨i, hi⟩).unique_name)
            ⟨graph.datasetInputNode, 0, false⟩ ∧
      (o.graph.nodes_.get ⟨i, hi⟩).is_output =
        decide ((o.graph.nodes_.get ⟨i, hi⟩).unique_name ∈ designated net_json_.output) := by
  obtain ⟨input, h1, h2, h3, h4⟩ :=
    built_declared_shape (addLayers_built mt19937 net_json_ fuel graph seed o h) i hi hnew sd hj
  have hnj : (contextOf mt19937 net_json_ graph seed).nodes_json = nodes_json := by
    simp [contextOf, mkContext, hn]
  rw [hnj] at h1
  have e := eq_of_nodup_keys hnd h1 hin
  subst e
  refine ⟨h2 s (by simp [designated]), ?_, h4⟩
  rw [h3]
  simp [designated, contextOf, mkContext]

/-- C6, amended, at the node `A` with input `src`, designated once as input and as
output. -/
theorem addLayers_declared_node_connections_witness :
    ∃ o, AddLayers countingGenerator inputOutputConfig 2 sourceGraph 7 = some o ∧
      ∃ hi : 2 < o.graph.nodes_.length,
        (o.graph.nodes_.get ⟨2, hi⟩).unique_name = "A" ∧
        (o.graph.nodes_.get ⟨2, hi⟩).input_connections =
          [⟨some 1, 0, true⟩, ⟨some 0, 0, false⟩] ∧
        (o.graph.nodes_.get ⟨2, hi⟩).is_output = true :=
  ⟨_, rfl, by decide, by decide,
    (addLayers_declared_node_connections countingGenerator inputOutputConfig 2 sourceGraph 7 _
      [("A", .str "src")] rfl (by decide) rfl 2 (by decide) (by decide) 7 (by decide) "src"
      (by decide)).2.1.trans (by decide),
    (addLayers_declared_node_connections countingGenerator inputOutputConfig 2 sourceGraph 7 _
      [("A", .str "src")] rfl (by decide) rfl 2 (by decide) (by decide) 7 (by decide) "src"
      (by decide)).2.2.trans (by decide)⟩

/-! ## C7: a list of input names -/

/-- C7: the node `N` lists the one source `data`, which is in the graph, yet no call of
`AddLayers`, whatever the fuel, comes back: the loop of lines 100-110 does not advance `i`
and never ends, so `N` is never inserted. -/
theorem addLayers_list_input_diverges (fuel : Nat) :
    AddLayers countingGenerator listInputConfig fuel dataGraph 7 = none := by
  rw [addLayers_reaches_loop countingGenerator listInputConfig fuel dataGraph 7
    [("N", .arr ["data"])] (some 0) [] rfl rfl (Or.inl rfl)]
  cases fuel with
  | zero => rfl
  | succ n =>
    have hs := scanNodes_array_diverges
      (mkContext countingGenerator listInputConfig [("N", .arr ["data"])] (some 0) 7) (n + 1)
      "N" "data" [] [] ⟨dataGraph, 0, false, false, ""⟩ (by decide)
    have hl : insertionLoop
        (mkContext countingGenerator listInputConfig [("N", .arr ["data"])] (some 0) 7) (n + 1)
        (n + 1) dataGraph 0 0 = none := by
      simp only [insertionLoop]
      rw [show (mkContext countingGenerator listInputConfig [("N", .arr ["data"])] (some 0)
        7).nodes_json = [("N", .arr ["data"])] from rfl, hs]
    rw [hl]

/-! ## C8: the loss node of an output -/

/-- C8, as stated, fails: `A` is a declared output and a node of the graph after the loop,
but the output `Z` declared before it is not, so line 169 returns failure before a loss
node for `A` is made. -/
theorem addLayers_stops_at_missing_output :
    ∃ g, AddLayers countingGenerator missingFirstOutputConfig 3 dataGraph 7
        = some (.missingOutput "Z" g) ∧
      "A" ∈ designated missingFirstOutputConfig.output ∧ "A" ∈ g.names ∧
      "loss_A" ∉ g.names :=
  ⟨_, rfl, by decide, by decide, by decide⟩

/-- C8, amended: let `o` be a declared output such that `o` and the outputs declared
before it are pairwise distinct nodes of the graph after the loop, and no node of that
graph bears one of their loss names. Then lines 165-177 append, at the position that
follows the loss nodes of the earlier outputs, a loss node named `"loss_" + o` whose
connections are, in this order, (node `o`, buffer 0, backprop enabled), (dataset input
node, buffer 1, backprop disabled), (dataset input node, buffer 3, backprop disabled). -/
theorem addLossLayers_attaches_loss_node (dataset_input_node : Option Nat)
    (pre post : List String) (o : String) (g : NetGraph)
    (hin : ∀ x ∈ pre ++ [o], x ∈ g.names)
    (hfree : ∀ x ∈ pre ++ [o], "loss_" ++ x ∉ g.names) (hnd : (pre ++ [o]).Nodup) :
    ∃ n, (addLossLayers dataset_input_node (pre ++ o :: post) g).graph.nodes_[
          g.nodes_.length + pre.length]? = some n ∧
      n.unique_name = "loss_" ++ o ∧
      n.input_connections =
        [⟨(addLossLayers dataset_input_node (pre ++ o :: post) g).graph.GetNode o, 0, true⟩,
          ⟨dataset_input_node, 1, false⟩, ⟨dataset_input_node, 3, false⟩] ∧
      n.layer = .error ∧
      (addLossLayers dataset_input_node (pre ++ o :: post) g).graph.GetNode o = g.GetNode o ∧
      o ∈ g.names :=
  have ho : o ∈ g.names := hin o (by simp)
  have hres := addLossLayers_nth dataset_input_node pre g o post _ rfl hin hfree hnd
  hres.elim fun n hn => ⟨n, hn.1, hn.2.1, hn.2.2.1, hn.2.2.2,
    getNode_of_extends (addLossLayers_extends dataset_input_node _ g) ho, ho⟩

/-- C8, amended, at the outputs `data` and `src` of a graph with these two nodes. -/
theorem addLossLayers_attaches_loss_node_witness :
    ∃ n, (addLossLayers (some 0) (["data"] ++ "src" :: []) sourceGraph).graph.nodes_[
          sourceGraph.nodes_.length + ["data"].length]? = some n ∧
      n.unique_name = "loss_" ++ "src" ∧
      n.input_connections =
        [⟨(addLossLayers (some 0) (["data"] ++ "src" :: []) sourceGraph).graph.GetNode "src",
            0, true⟩,
          ⟨some 0, 1, false⟩, ⟨some 0, 3, false⟩] ∧
      n.layer = .error ∧
      (addLossLayers (some 0) (["data"] ++ "src" :: []) sourceGraph).graph.GetNode "src"
        = sourceGraph.GetNode "src" ∧
      "src" ∈ sourceGraph.names :=
  addLossLayers_attaches_loss_node (some 0) ["data"] [] "src" sourceGraph (by decide)
    (by decide) (by decide)

/-! ## C9: one loss node per output entry -/

/-- C10, as stated, fails: visiting the declared nodes in the order `C`, `A`, `B`, the
first round inserts `A` and, in the same round, `B`, whose source `A` is in the graph by
the time `B` is visited. -/
theorem chain_first_round_inserts_two :
    ∃ st, scanNodes (contextOf countingGenerator chainConfig dataGraph 7) 3
        (contextOf countingGenerator chainConfig dataGraph 7).nodes_json
        ⟨dataGraph, 0, false, false, ""⟩ = some (.ok st) ∧
      st.graph.names = ["data", "A", "B"] :=
  ⟨_, rfl, by decide⟩

/-- C10, amended: for the chain `A → B → C` declared as `C`, `A`, `B`, on a graph with a
dataset input node, `AddLayers` reaches `Initialize()` with the nodes inserted in the order
`A`, `B`, `C`. Visiting the nodes in the declared order, round 1 inserts `A` and `B`,
round 2 inserts `C`, and round 3 inserts nothing and leaves the loop; visiting them in the
order of their keys, round 1 inserts all three and round 2 leaves the loop. -/
theorem chain_rounds :
    (∃ g, AddLayers countingGenerator chainConfig 3 dataGraph 7 = some (.initialized g) ∧
      g.names = ["data", "A", "B", "C"]) ∧
    (∃ st1 st2 st3,
      scanNodes (contextOf countingGenerator chainConfig dataGraph 7) 3
        (contextOf countingGenerator chainConfig dataGraph 7).nodes_json
        ⟨dataGraph, 0, false, false, ""⟩ = some (.ok st1) ∧
      st1.graph.names = ["data", "A", "B"] ∧
      scanNodes (contextOf countingGenerator chainConfig dataGraph 7) 3
        (contextOf countingGenerator chainConfig dataGraph 7).nodes_json
        ⟨st1.graph, st1.draws, false, false, ""⟩ = some (.ok st2) ∧
      st2.graph.names = ["data", "A", "B", "C"] ∧
      scanNodes (contextOf countingGenerator chainConfig dataGraph 7) 3
        (contextOf countingGenerator chainConfig dataGraph 7).nodes_json
        ⟨st2.graph, st2.draws, false, false, ""⟩ = some (.ok st3) ∧
      st3.graph = st2.graph ∧ st3.inserted_a_node = false ∧
      st3.should_have_inserted_a_node = false) ∧
    (∃ e, insertionLoop (contextOf countingGenerator chainConfig dataGraph 7) 3 3
        dataGraph 0 0 = some (.ok e) ∧ e.rounds = 3) ∧
    (∃ st, scanNodes (contextOf countingGenerator chainConfigByKey dataGraph 7) 3
        (contextOf countingGenerator chainConfigByKey dataGraph 7).nodes_json
        ⟨dataGraph, 0, false, false, ""⟩ = some (.ok st) ∧
      st.graph.names = ["data", "A", "B", "C"]) ∧
    (∃ e, insertionLoop (contextOf countingGenerator chainConfigByKey dataGraph 7) 3 3
        dataGraph 0 0 = some (.ok e) ∧ e.rounds = 2) :=
  ⟨⟨_, rfl, by decide⟩,
    ⟨_, _, _, rfl, by decide, rfl, by decide, rfl, by decide, by decide, by decide⟩,
    ⟨_, rfl, by decide⟩, ⟨_, rfl, by decide⟩, ⟨_, rfl, by decide⟩⟩

/-! ## What a scan does, for every configuration -/

theorem seedsFrom_succ (rand : Nat → Nat) (d m : Nat) :
    seedsFrom rand d (m + 1) = LayerKind.json (rand d) :: seedsFrom rand (d + 1) m := by
  simp [seedsFrom, List.range'_succ]

/-- A scan that comes back has not returned from the call; the nodes it has appended carry
the values of the generator in the order of the draws, one draw per node; and if it has
inserted nothing, the graph is the same and `should_have_inserted_a_node` tells whether a
declared node is missing. -/
theorem scanNodes_run (ctx : Context) (fuel : Nat) :
    ∀ (rest : List (String × JSONValue)) (st : ScanState) (r : Except Outcome ScanState),
      scanNodes ctx fuel rest st = some r →
      ∃ st2 new, r = .ok st2 ∧ st2.graph.nodes_ = st.graph.nodes_ ++ new ∧
        new.map NetGraphNode.layer = seedsFrom ctx.rand st.draws new.length ∧
        st2.draws = st.draws + new.length ∧
        (st.inserted_a_node = true → st2.inserted_a_node = true) ∧
        (st.should_have_inserted_a_node = true → st2.should_have_inserted_a_node = true) ∧
        (st2.inserted_a_node = false → st2.graph = st.graph) ∧
        (st2.inserted_a_node = false → (∃ p ∈ rest, p.1 ∉ st.graph.names) →
          st2.should_have_inserted_a_node = true) := by
  intro rest
  induction rest with
  | nil =>
    intro st r h
    simp only [scanNodes, Option.some.injEq] at h
    subst h
    exact ⟨st, [], rfl, by simp, by simp [seedsFrom], by simp, id, id, fun _ => rfl,
      fun _ ⟨p, hp, _⟩ => by cases hp⟩
  | cons hd rest ih =>
    obtain ⟨key, input⟩ := hd
    intro st r h
    by_cases hk : key ∈ st.graph.names
    · rw [scanNodes_skip ctx fuel key input rest st hk] at h
      obtain ⟨st2, new, hr, h1, h2, h3, h4, h5, h6, h7⟩ := ih st r h
      refine ⟨st2, new, hr, h1, h2, h3, h4, h5, h6, fun hi ⟨p, hp, hpa⟩ => ?_⟩
      rcases List.mem_cons.1 hp with rfl | hp
      · exact absurd hk hpa
      · exact h7 hi ⟨p, hp, hpa⟩
    · have hk2 := (containsNode_eq_false_iff _ _).2 hk
      simp only [scanNodes, hk2, Bool.false_eq_true, if_false] at h
      split at h
      · cases h
      · rename_i c hc
        obtain ⟨hconn, hcan⟩ := checkInputs_some hc
        simp only [List.nil_append] at hconn
        split at h
        · rename_i hins
          rw [hcan] at hins
          simp only [Bool.true_and, List.all_eq_true, containsNode_iff] at hins
          have hI := insertNode_of_sources ctx key input c
            { st with should_have_inserted_a_node := true } hconn hins
          obtain ⟨g2, hadd⟩ := addNode_of_not_mem st.graph
            (declaredNode ctx st.graph key input (ctx.rand st.draws)) hk
          simp only [hadd] at hI
          simp only [hI] at h
          obtain ⟨st2, new, hr, h1, h2, h3, h4, h5, _, _⟩ := ih _ r h
          have hi2 : st2.inserted_a_node = true := h4 rfl
          refine ⟨st2, { declaredNode ctx st.graph key input (ctx.rand st.draws) with
              unique_id := st.graph.last_uid + 1 } :: new, hr, ?_, ?_, ?_, fun _ => hi2,
            fun _ => h5 rfl, ?_, ?_⟩
          · rw [h1]
            show g2.nodes_ ++ new = _
            rw [(addNode_some hadd).2]
            simp
          · rw [List.map_cons, List.length_cons, seedsFrom_succ, h2]
            rfl
          · rw [h3, List.length_cons]
            show st.draws + 1 + new.length = _
            omega
          · intro hi; rw [hi2] at hi; cases hi
          · intro hi; rw [hi2] at hi; cases hi
        · obtain ⟨st2, new, hr, h1, h2, h3, h4, h5, h6, _⟩ := ih _ r h
          exact ⟨st2, new, hr, h1, h2, h3, h4, fun _ => h5 rfl, h6, fun _ _ => h5 rfl⟩

/-- The effect of a round that inserts nothing while a declared node is missing. -/
theorem insertionLoop_stalled (ctx : Context) (fuel n : Nat) (g : NetGraph)
    (draws rounds : Nat) (st : ScanState)
    (hscan : scanNodes ctx fuel ctx.nodes_json ⟨g, draws, false, false, ""⟩ = some (.ok st))
    (hins : st.inserted_a_node = false) (habs : ∃ p ∈ ctx.nodes_json, p.1 ∉ st.graph.names) :
    st.graph = g ∧
      insertionLoop ctx fuel (n + 1) g draws rounds
        = some (.error (.invalid st.suspect_node g)) := by
  obtain ⟨st2, new, hr, _, _, _, _, _, h6, h7⟩ := scanNodes_run ctx fuel _ _ _ hscan
  simp only [Except.ok.injEq] at hr
  subst hr
  have hg : st.graph = g := h6 hins
  have hsh : st.should_have_inserted_a_node = true := h7 hins (by
    obtain ⟨p, hp, hpa⟩ := habs
    exact ⟨p, hp, by rw [hg] at hpa; exact hpa⟩)
  refine ⟨hg, ?_⟩
  simp [insertionLoop, hscan, hins, hsh, hg]

/-- The scan of the cycle `A → B → A` on a graph without `A` and `B`. -/
theorem scanNodes_cycle (ctx : Context) (fuel : Nat) (g : NetGraph) (draws : Nat)
    (hn : ctx.nodes_json = [("A", .str "B"), ("B", .str "A")])
    (ha : "A" ∉ g.names) (hb : "B" ∉ g.names) :
    scanNodes ctx fuel ctx.nodes_json ⟨g, draws, false, false, ""⟩
      = some (.ok ⟨g, draws, false, true, ""⟩) := by
  have ha2 := (containsNode_eq_false_iff _ _).2 ha
  have hb2 := (containsNode_eq_false_iff _ _).2 hb
  have hcA : jsonCount ctx.nodes_json "A" = 1 := by rw [hn]; decide
  have hcB : jsonCount ctx.nodes_json "B" = 1 := by rw [hn]; decide
  rw [hn]
  simp only [scanNodes, ha2, hb2, checkInputs, checkInput, hcA, hcB]
  simp

theorem seedsFrom_add (rand : Nat → Nat) (d a b : Nat) :
    seedsFrom rand d (a + b) = seedsFrom rand d a ++ seedsFrom rand (d + a) b := by
  induction a generalizing d with
  | zero => simp [seedsFrom]
  | succ a ih =>
    rw [show a + 1 + b = (a + b) + 1 by omega, seedsFrom_succ, seedsFrom_succ, ih]
    rw [show d + 1 + a = d + (a + 1) by omega]
    rfl

/-- The nodes that the loop appends carry the values of the generator in the order of the
draws, and a loop left by `break` has drawn as many values as it has appended nodes. -/
theorem insertionLoop_seeds (ctx : Context) (fuel : Nat) :
    ∀ (n : Nat) (g : NetGraph) (draws rounds : Nat) (res : Except Outcome LoopExit),
      insertionLoop ctx fuel n g draws rounds = some res →
      ∃ new, (exitGraph LoopExit.graph res).nodes_ = g.nodes_ ++ new ∧
        new.map NetGraphNode.layer = seedsFrom ctx.rand draws new.length ∧
        ∀ e, res = .ok e → e.draws = draws + new.length := by
  intro n
  induction n with
  | zero => intro g draws rounds res h; simp [insertionLoop] at h
  | succ n ih =>
    intro g draws rounds res h
    simp only [insertionLoop] at h
    split at h
    · cases h
    · rename_i o hs
      obtain ⟨_, _, hr, _⟩ := scanNodes_run ctx fuel _ _ _ hs
      cases hr
    · rename_i st hs
      obtain ⟨st2, new, hr, h1, h2, h3, _⟩ := scanNodes_run ctx fuel _ _ _ hs
      simp only [Except.ok.injEq] at hr
      subst hr
      simp only at h1 h2 h3
      split at h
      · simp only [Option.some.injEq] at h
        subst h
        exact ⟨new, h1, h2, fun e he => by
          simp only [Except.ok.injEq] at he
          subst he
          exact h3⟩
      · split at h
        · simp only [Option.some.injEq] at h
          subst h
          exact ⟨new, h1, h2, fun e he => by cases he⟩
        · obtain ⟨new2, k1, k2, k3⟩ := ih _ _ _ res h
          refine ⟨new ++ new2, ?_, ?_, fun e he => ?_⟩
          · rw [k1, h1, List.append_assoc]
          · rw [List.map_append, List.length_append, seedsFrom_add, h2, k2, h3]
          · rw [k3 e he, h3, List.length_append]
            omega

/-- The nodes that lines 165-177 append are error layers. -/
theorem addLossLayers_layers (ds : Option Nat) :
    ∀ (outs : List String) (g : NetGraph),
      ∃ losses, (addLossLayers ds outs g).graph.nodes_ = g.nodes_ ++ losses ∧
        ∀ n ∈ losses, n.layer = LayerKind.error := by
  intro outs
  induction outs with
  | nil => intro g; exact ⟨[], by simp [addLossLayers, Outcome.graph], by simp⟩
  | cons o rest ih =>
    intro g
    simp only [addLossLayers]
    cases hget : g.GetNode o with
    | none => exact ⟨[], by simp [Outcome.graph], by simp⟩
    | some i =>
      simp only
      split
      · exact ⟨[], by simp [Outcome.graph], by simp⟩
      · rename_i g2 hadd
        obtain ⟨losses, h1, h2⟩ := ih g2
        obtain ⟨x, hx, hxl⟩ : ∃ x, g2.nodes_ = g.nodes_ ++ [x] ∧ x.layer = LayerKind.error :=
          ⟨_, (addNode_some hadd).2, rfl⟩
        refine ⟨x :: losses, ?_, ?_⟩
        · rw [h1, hx]
          simp
        · intro n hn
          rcases List.mem_cons.1 hn with rfl | hn
          · exact hxl
          · exact h2 n hn

/-! ## The fuel does not change what a call yields -/

theorem checkInputs_fuel {f1 f2 : Nat} {graph : NetGraph}
    {nodes_json : List (String × JSONValue)} {key : String} {input : JSONValue}
    {c c1 c2 : InputCheck} (h1 : checkInputs f1 graph nodes_json key input c = some c1)
    (h2 : checkInputs f2 graph nodes_json key input c = some c2) : c1 = c2 := by
  cases input with
  | absent => simp [checkInputs] at h1 h2; rw [← h1, ← h2]
  | other => simp [checkInputs] at h1 h2; rw [← h1, ← h2]
  | str s => simp [checkInputs] at h1 h2; rw [← h1, ← h2]
  | arr l =>
    simp only [checkInputs] at h1 h2
    rw [(inputArrayLoop_some _ _ _ _ h1).2, (inputArrayLoop_some _ _ _ _ h2).2]

theorem scanNodes_fuel (ctx : Context) (f1 f2 : Nat) :
    ∀ (rest : List (String × JSONValue)) (st : ScanState) (r1 r2 : Except Outcome ScanState),
      scanNodes ctx f1 rest st = some r1 → scanNodes ctx f2 rest st = some r2 → r1 = r2 := by
  intro rest
  induction rest with
  | nil =>
    intro st r1 r2 h1 h2
    simp only [scanNodes, Option.some.injEq] at h1 h2
    rw [← h1, ← h2]
  | cons hd rest ih =>
    obtain ⟨key, input⟩ := hd
    intro st r1 r2 h1 h2
    simp only [scanNodes] at h1 h2
    split at h1
    · rename_i hk
      rw [if_pos hk] at h2
      exact ih st r1 r2 h1 h2
    · rename_i hk
      rw [if_neg hk] at h2
      split at h1
      · cases h1
      · rename_i c1 hc1
        split at h2
        · cases h2
        · rename_i c2 hc2
          have hc := checkInputs_fuel hc1 hc2
          subst hc
          split at h1
          · rename_i hins
            rw [if_pos hins] at h2
            split at h1
            · rename_i o ho
              rw [ho] at h2
              simp only [Option.some.injEq] at h1 h2
              rw [← h1, ← h2]
            · rename_i st2 ho
              rw [ho] at h2
              exact ih st2 r1 r2 h1 h2
          · rename_i hins
            rw [if_neg hins] at h2
            exact ih _ r1 r2 h1 h2

theorem insertionLoop_fuel (ctx : Context) (f1 f2 : Nat) :
    ∀ (n1 n2 : Nat) (g : NetGraph) (draws rounds : Nat) (r1 r2 : Except Outcome LoopExit),
      insertionLoop ctx f1 n1 g draws rounds = some r1 →
      insertionLoop ctx f2 n2 g draws rounds = some r2 → r1 = r2 := by
  intro n1
  induction n1 with
  | zero => intro n2 g draws rounds r1 r2 h1; simp [insertionLoop] at h1
  | succ n1 ih =>
    intro n2 g draws rounds r1 r2 h1 h2
    cases n2 with
    | zero => simp [insertionLoop] at h2
    | succ n2 =>
      simp only [insertionLoop] at h1 h2
      cases hs1 : scanNodes ctx f1 ctx.nodes_json ⟨g, draws, false, false, ""⟩ with
      | none => rw [hs1] at h1; cases h1
      | some x1 =>
        cases hs2 : scanNodes ctx f2 ctx.nodes_json ⟨g, draws, false, false, ""⟩ with
        | none => rw [hs2] at h2; cases h2
        | some x2 =>
          have hx := scanNodes_fuel ctx f1 f2 _ _ _ _ hs1 hs2
          subst hx
          rw [hs1] at h1
          rw [hs2] at h2
          cases x1 with
          | error o =>
            simp only [Option.some.injEq] at h1 h2
            rw [← h1, ← h2]
          | ok st =>
            simp only at h1 h2
            split at h1
            · rename_i hc
              rw [if_pos hc] at h2
              simp only [Option.some.injEq] at h1 h2
              rw [← h1, ← h2]
            · rename_i hc
              rw [if_neg hc] at h2
              split at h1
              · rename_i hc2
                rw [if_pos hc2] at h2
                simp only [Option.some.injEq] at h1 h2
                rw [← h1, ← h2]
              · rename_i hc2
                rw [if_neg hc2] at h2
                exact ih n2 _ _ _ r1 r2 h1 h2

/-- Two calls that differ in the fuel only and both come back yield the same outcome. -/
theorem addLayers_fuel (mt19937 : Nat → Nat → Nat) (net_json_ : NetJSON) (f1 f2 : Nat)
    (graph : NetGraph) (seed : Nat) (o1 o2 : Outcome)
    (h1 : AddLayers mt19937 net_json_ f1 graph seed = some o1)
    (h2 : AddLayers mt19937 net_json_ f2 graph seed = some o2) : o1 = o2 := by
  unfold AddLayers at h1 h2
  cases hn : net_json_.nodes with
  | none =>
    simp only [hn, Option.some.injEq] at h1 h2
    rw [← h1, ← h2]
  | some nodes_json =>
    cases ht : graph.training_nodes_ with
    | nil =>
      simp only [hn, ht, Option.some.injEq] at h1 h2
      rw [← h1, ← h2]
    | cons ds tl =>
      simp only [hn, ht] at h1 h2
      split at h1
      · rename_i hc
        rw [if_pos hc] at h2
        simp only [Option.some.injEq] at h1 h2
        rw [← h1, ← h2]
      · rename_i hc
        rw [if_neg hc] at h2
        cases hl1 : insertionLoop (mkContext mt19937 net_json_ nodes_json ds seed) f1 f1 graph
            0 0 with
        | none => rw [hl1] at h1; cases h1
        | some x1 =>
          cases hl2 : insertionLoop (mkContext mt19937 net_json_ nodes_json ds seed) f2 f2
              graph 0 0 with
          | none => rw [hl2] at h2; cases h2
          | some x2 =>
            have hx := insertionLoop_fuel _ f1 f2 f1 f2 _ _ _ _ _ hl1 hl2
            subst hx
            rw [hl1] at h1
            rw [hl2] at h2
            cases x1 with
            | error o =>
              simp only [Option.some.injEq] at h1 h2
              rw [← h1, ← h2]
            | ok e =>
              simp only [Option.some.injEq] at h1 h2
              rw [← h1, ← h2]

/-! ## C11: a round without progress -/

/-- C11: on a graph that contains neither `A` nor `B`, the insertion loop over the
configuration `{A: input B, B: input A}` returns failure (line 160) at the end of its first
round with the graph as it was, and so does `AddLayers` once it has reached the loop. More
generally, whenever a full round inserts no node while a declared node is absent from the
graph, the loop returns failure at the end of that round, reporting `suspect_node`. -/
theorem insertionLoop_fails_without_progress (ctx : Context) (fuel n : Nat) (g : NetGraph)
    (draws rounds : Nat) :
    (ctx.nodes_json = [("A", .str "B"), ("B", .str "A")] → "A" ∉ g.names → "B" ∉ g.names →
      insertionLoop ctx fuel (n + 1) g draws rounds = some (.error (.invalid "" g))) ∧
    (∀ (mt19937 : Nat → Nat → Nat) (net_json_ : NetJSON) (seed : Nat) (ds : Option Nat)
        (tl : List (Option Nat)),
      net_json_.nodes = some [("A", .str "B"), ("B", .str "A")] →
      g.training_nodes_ = ds :: tl → (net_json_.input = .absent ∨ ds ≠ none) →
      "A" ∉ g.names → "B" ∉ g.names →
      AddLayers mt19937 net_json_ (n + 1) g seed = some (.invalid "" g)) ∧
    (∀ st, scanNodes ctx fuel ctx.nodes_json ⟨g, draws, false, false, ""⟩ = some (.ok st) →
      st.inserted_a_node = false → (∃ p ∈ ctx.nodes_json, p.1 ∉ st.graph.names) →
      st.graph = g ∧
        insertionLoop ctx fuel (n + 1) g draws rounds
          = some (.error (.invalid st.suspect_node g))) := by
  refine ⟨fun hn ha hb => ?_, fun mt19937 net_json_ seed ds tl hn ht hds ha hb => ?_,
    fun st hscan hins habs => insertionLoop_stalled ctx fuel n g draws rounds st hscan hins habs⟩
  · have hscan := scanNodes_cycle ctx fuel g draws hn ha hb
    exact (insertionLoop_stalled ctx fuel n g draws rounds _ hscan rfl
      ⟨("A", .str "B"), by rw [hn]; simp, ha⟩).2
  · rw [addLayers_reaches_loop mt19937 net_json_ (n + 1) g seed _ ds tl hn ht hds]
    have hscan := scanNodes_cycle
      (mkContext mt19937 net_json_ [("A", .str "B"), ("B", .str "A")] ds seed) (n + 1) g 0 rfl
      ha hb
    rw [(insertionLoop_stalled _ (n + 1) n g 0 0 _ hscan rfl
      ⟨("A", .str "B"), by simp [mkContext], ha⟩).2]

/-- C11 at the cycle on a graph that holds a dataset input node only. -/
theorem insertionLoop_fails_without_progress_witness :
    AddLayers countingGenerator cycleConfig 1 dataGraph 7 = some (.invalid "" dataGraph) ∧
      insertionLoop (contextOf countingGenerator cycleConfig dataGraph 7) 1 1 dataGraph 0 0
        = some (.error (.invalid "" dataGraph)) :=
  ⟨(insertionLoop_fails_without_progress (contextOf countingGenerator cycleConfig dataGraph 7)
      1 0 dataGraph 0 0).2.1 countingGenerator cycleConfig 7 (some 0) [] rfl rfl (Or.inl rfl)
      (by decide) (by decide),
    (insertionLoop_fails_without_progress (contextOf countingGenerator cycleConfig dataGraph 7)
      1 0 dataGraph 0 0).1 rfl (by decide) (by decide)⟩

/-! ## C12: no `nodes` entry -/

/-- C12: if the configuration has no `nodes` entry, `AddLayers` returns failure (line 28),
for every graph, seed and fuel, and the graph is the one it was given: the check comes
before the first use of the graph. -/
theorem addLayers_without_nodes (mt19937 : Nat → Nat → Nat) (net_json_ : NetJSON)
    (fuel : Nat) (graph : NetGraph) (seed : Nat) (h : net_json_.nodes = none) :
    AddLayers mt19937 net_json_ fuel graph seed = some (.noNodes graph) ∧
      (Outcome.noNodes graph).graph = graph ∧
      ∀ (Initialize : NetGraph → NetGraph) (IsComplete : NetGraph → Bool),
        Outcome.returned Initialize IsComplete (.noNodes graph) = some false := by
  refine ⟨?_, rfl, fun _ _ => rfl⟩
  unfold AddLayers
  rw [h]

/-- C12 at a configuration with `input` and `output` but without `nodes`. -/
theorem addLayers_without_nodes_witness :
    AddLayers countingGenerator noNodesConfig 0 dataGraph 7 = some (.noNodes dataGraph) ∧
      (Outcome.noNodes dataGraph).graph = dataGraph ∧
      ∀ (Initialize : NetGraph → NetGraph) (IsComplete : NetGraph → Bool),
        Outcome.returned Initialize IsComplete (.noNodes dataGraph) = some false :=
  addLayers_without_nodes countingGenerator noNodesConfig 0 dataGraph 7 rfl

/-! ## C13: the dataset input node -/

/-- C13: on a graph whose list of training nodes is empty, line 35 reads element 0 of the
empty list before anything is checked, whatever the fuel: no failure is returned. -/
theorem addLayers_reads_empty_training_list (fuel : Nat) :
    noTrainingGraph.training_nodes_ = [] ∧ datasetFedConfig.input ≠ .absent ∧
      AddLayers countingGenerator datasetFedConfig fuel noTrainingGraph 7
        = some (.outOfBounds noTrainingGraph) ∧
      ∀ (Initialize : NetGraph → NetGraph) (IsComplete : NetGraph → Bool),
        Outcome.returned Initialize IsComplete (.outOfBounds noTrainingGraph) = none :=
  ⟨rfl, by decide, rfl, fun _ _ => rfl⟩

/-! ## C14: the seeds of the inserted nodes -/

/-- C14: however a call of `AddLayers` ends, the nodes it has appended to the graph are the
nodes inserted by the loop, followed by the loss nodes, and the `k`-th node inserted by the
loop carries the `k`-th value (counting from 0) of the generator made from `seed`. A loop
that is left by `break` has drawn exactly as many values as it has inserted nodes. Every
call with the same configuration, graph and seed that comes back yields the same outcome,
whatever its fuel. -/
theorem addLayers_seeds (mt19937 : Nat → Nat → Nat) (net_json_ : NetJSON) (fuel : Nat)
    (graph : NetGraph) (seed : Nat) (o : Outcome)
    (h : AddLayers mt19937 net_json_ fuel graph seed = some o) :
    (∃ inserted losses, o.graph.nodes_ = graph.nodes_ ++ inserted ++ losses ∧
      inserted.map NetGraphNode.layer =
        (List.range inserted.length).map (fun k => LayerKind.json (mt19937 seed k)) ∧
      ∀ n ∈ losses, n.layer = LayerKind.error) ∧
    (∀ (ctx : Context) (n : Nat) (e : LoopExit),
      insertionLoop ctx fuel n graph 0 0 = some (.ok e) →
      e.graph.nodes_.length = graph.nodes_.length + e.draws) ∧
    (∀ fuel2 o2, AddLayers mt19937 net_json_ fuel2 graph seed = some o2 → o2 = o) := by
  refine ⟨?_, fun ctx n e he => ?_,
    fun fuel2 o2 h2 => addLayers_fuel mt19937 net_json_ fuel2 fuel graph seed o2 o h2 h⟩
  · unfold AddLayers at h
    split at h
    · simp only [Option.some.injEq] at h
      subst h
      exact ⟨[], [], by simp [Outcome.graph], by simp, by simp⟩
    · rename_i nodes_json hn
      split at h
      · simp only [Option.some.injEq] at h
        subst h
        exact ⟨[], [], by simp [Outcome.graph], by simp, by simp⟩
      · rename_i ds tl ht
        split at h
        · simp only [Option.some.injEq] at h
          subst h
          exact ⟨[], [], by simp [Outcome.graph], by simp, by simp⟩
        · simp only at h
          split at h
          · cases h
          · rename_i out hl
            simp only [Option.some.injEq] at h
            subst h
            obtain ⟨new, h1, h2, _⟩ := insertionLoop_seeds _ fuel _ _ _ _ _ hl
            refine ⟨new, [], by simpa [exitGraph] using h1, ?_, by simp⟩
            rw [h2]
            simp [seedsFrom, mkContext, List.range_eq_range']
          · rename_i e hl
            simp only [Option.some.injEq] at h
            subst h
            obtain ⟨new, h1, h2, _⟩ := insertionLoop_seeds _ fuel _ _ _ _ _ hl
            obtain ⟨losses, k1, k2⟩ := addLossLayers_layers ds
              (mkContext mt19937 net_json_ nodes_json ds seed).output_nodes e.graph
            refine ⟨new, losses, ?_, ?_, k2⟩
            · rw [k1]
              simp only [exitGraph] at h1
              rw [h1]
            · rw [h2]
              simp [seedsFrom, mkContext, List.range_eq_range']
  · obtain ⟨new, h1, _, h3⟩ := insertionLoop_seeds ctx fuel _ _ _ _ _ he
    simp only [exitGraph] at h1
    rw [h1, h3 e rfl]
    simp

/-- C14 at the chain `A → B → C` with output `C` and seed 7: the seeds are 7, 8, 9. -/
theorem addLayers_seeds_witness :
    ∃ o, AddLayers countingGenerator chainOutputConfig 4 dataGraph 7 = some o ∧
      o.graph.nodes_.map NetGraphNode.layer =
        [.training, .json 7, .json 8, .json 9, .error] ∧
      (∃ inserted losses, o.graph.nodes_ = dataGraph.nodes_ ++ inserted ++ losses ∧
        inserted.map NetGraphNode.layer =
          (List.range inserted.length).map (fun k => LayerKind.json (countingGenerator 7 k)) ∧
        ∀ n ∈ losses, n.layer = LayerKind.error) :=
  ⟨_, rfl, by decide,
    (addLayers_seeds countingGenerator chainOutputConfig 4 dataGraph 7 _ rfl).1⟩

/-! ## The dataset input layer: one batch slot -/

theorem adjustWeights_eq (rnd : Generator) (L : DatasetInputLayer) (weight : CombinedTensor)
    (s e : Nat) (f : Bool) :
    ∃ g w, L.adjustWeights rnd weight s e f
        = { L with generator_ := g, localized_error_data := w } ∧
      (L.testing_ = true → g = L.generator_) ∧ (f = true → w s = .cleared) ∧
      ∀ x, x ≠ s → w x = L.localized_error_data x := by
  unfold DatasetInputLayer.adjustWeights
  dsimp only
  have hkeep : ∀ (y : WeightData) (w0 : Nat → WeightData) (x : Nat), x ≠ s →
      Function.update w0 s y x = w0 x := fun y w0 x hx => Function.update_noteq hx y w0
  cases hs : (L.writeWeight s (WeightData.loaded L.testing_ e)).samplesLoss f <;> cases f
  · refine ⟨_, _, rfl, fun _ => rfl, fun hf => ?_, fun x hx => ?_⟩
    · cases hf
    · simp [DatasetInputLayer.writeWeight, hkeep, hx]
  · refine ⟨_, _, rfl, fun _ => rfl, fun _ => ?_, fun x hx => ?_⟩
    · simp [DatasetInputLayer.writeWeight]
    · simp [DatasetInputLayer.writeWeight, hkeep, hx]
  · refine ⟨_, _, rfl, fun ht => ?_, fun hf => ?_, fun x hx => ?_⟩
    · simp [DatasetInputLayer.samplesLoss, DatasetInputLayer.writeWeight, ht] at hs
    · cases hf
    · simp [DatasetInputLayer.writeWeight, hkeep, hx]
  · simp [DatasetInputLayer.samplesLoss] at hs

/-- A load that returns has changed the generator and the weights at most; in testing mode
it has left the generator alone, and with `force_no_weight` it has cleared the slot. -/
theorem loadSample_ok {rnd : Generator} {L L2 : DatasetInputLayer} {s e : Nat} {f : Bool}
    (h : L.loadSample rnd s e f = .ok L2) :
    ∃ g w, L2 = { L with generator_ := g, localized_error_data := w } ∧
      (L.testing_ = true → g = L.generator_) ∧ (f = true → w s = .cleared) ∧
      ∀ x, x ≠ s → w x = L.localized_error_data x := by
  unfold DatasetInputLayer.loadSample at h
  split at h
  · dsimp only at h
    split at h
    · cases h
    · split at h
      · cases h
      · simp only [Except.ok.injEq] at h
        subst h
        exact adjustWeights_eq rnd L _ s e f
  · cases h

/-- On a connected layer whose dataset delivers, the load returns. -/
theorem loadSample_delivers (rnd : Generator) (L : DatasetInputLayer) (s e : Nat) (f : Bool)
    (hc : L.Connected) (hd : L.active_dataset_.Delivers) :
    ∃ L2, L.loadSample rnd s e f = .ok L2 := by
  obtain ⟨h1, h2, h3, h4⟩ := hc
  obtain ⟨d, hd1⟩ := Option.ne_none_iff_exists'.1 h1
  obtain ⟨l, hl1⟩ := Option.ne_none_iff_exists'.1 h2
  obtain ⟨hp, hh1⟩ := Option.ne_none_iff_exists'.1 h3
  obtain ⟨w, hw1⟩ := Option.ne_none_iff_exists'.1 h4
  have hf : L.fetchSample s e = true := by
    unfold DatasetInputLayer.fetchSample
    split
    · exact (hd s e).2.1
    · exact (hd s e).1
  have hm : L.fetchMetadata s e true = true := by
    unfold DatasetInputLayer.fetchMetadata
    split
    · split
      · exact (hd s e).2.2.2
      · exact (hd s e).2.2.1
    · rfl
  exact ⟨L.adjustWeights rnd w s e f,
    by simp [DatasetInputLayer.loadSample, hd1, hl1, hh1, hw1, hf, hm]⟩

theorem selectElement_testing_next (rnd : Generator) (L : DatasetInputLayer)
    (ht : L.testing_ = true) (hlt : L.current_element_testing_ < L.elements_testing_) :
    L.selectElement rnd = .ok (L.current_element_testing_, false,
      { L with current_element_testing_ := L.current_element_testing_ + 1 }) := by
  simp [DatasetInputLayer.selectElement, ht, Nat.not_le.2 hlt]

theorem selectElement_testing_done (rnd : Generator) (L : DatasetInputLayer)
    (ht : L.testing_ = true) (hge : L.elements_testing_ ≤ L.current_element_testing_) :
    L.selectElement rnd = .ok (0, true, L) := by
  simp [DatasetInputLayer.selectElement, ht, hge]

theorem selectElement_training_mid (rnd : Generator) (L : DatasetInputLayer)
    (ht : L.testing_ = false) (hlt : L.current_element_ + 1 < L.perm_.length) :
    L.selectElement rnd = .ok (L.perm_.getD L.current_element_ 0, false,
      { L with current_element_ := L.current_element_ + 1 }) := by
  have h : L.current_element_ < L.perm_.length := by omega
  simp [DatasetInputLayer.selectElement, ht, h, Nat.not_le.2 hlt, List.getD_eq_getElem]

theorem selectElement_training_last (rnd : Generator) (L : DatasetInputLayer)
    (ht : L.testing_ = false) (hlast : L.current_element_ + 1 = L.perm_.length) :
    L.selectElement rnd = .ok (L.perm_.getD L.current_element_ 0, false,
      DatasetInputLayer.RedoPermutation rnd { L with current_element_ := 0 }) := by
  have h : L.current_element_ < L.perm_.length := by omega
  simp [DatasetInputLayer.selectElement, ht, h, hlast.symm.le, List.getD_eq_getElem]

theorem selectElement_training_outside (rnd : Generator) (L : DatasetInputLayer)
    (ht : L.testing_ = false) (hge : L.perm_.length ≤ L.current_element_) :
    L.selectElement rnd = .error .outOfBounds := by
  simp [DatasetInputLayer.selectElement, ht, Nat.not_lt.2 hge]

/-- The selection keeps the cursors and the permutation valid and leaves the sizes, the
mode and the batch size alone. -/
theorem selectElement_valid {rnd : Generator} (hsh : rnd.Shuffles) {L L1 : DatasetInputLayer}
    {x : Nat} {f : Bool} (h : L.selectElement rnd = .ok (x, f, L1)) (hv : L.CursorsValid) :
    L1.CursorsValid ∧ L1.elements_training_ = L.elements_training_ ∧
      L1.elements_testing_ = L.elements_testing_ ∧ L1.testing_ = L.testing_ ∧
      L1.batch_size_ = L.batch_size_ := by
  obtain ⟨hp, hc, hte⟩ := hv
  have hlen : L.perm_.length = L.elements_training_ := by
    rw [hp.length_eq, List.length_range]
  cases ht : L.testing_ with
  | true =>
    by_cases hlt : L.current_element_testing_ < L.elements_testing_
    · rw [selectElement_testing_next rnd L ht hlt] at h
      simp only [Except.ok.injEq, Prod.mk.injEq] at h
      obtain ⟨_, _, rfl⟩ := h
      exact ⟨⟨hp, hc, hlt⟩, rfl, rfl, ht, rfl⟩
    · rw [selectElement_testing_done rnd L ht (Nat.not_lt.1 hlt)] at h
      simp only [Except.ok.injEq, Prod.mk.injEq] at h
      obtain ⟨_, _, rfl⟩ := h
      exact ⟨⟨hp, hc, hte⟩, rfl, rfl, ht, rfl⟩
  | false =>
    by_cases hin : L.current_element_ < L.perm_.length
    · by_cases hlt : L.current_element_ + 1 < L.perm_.length
      · rw [selectElement_training_mid rnd L ht hlt] at h
        simp only [Except.ok.injEq, Prod.mk.injEq] at h
        obtain ⟨_, _, rfl⟩ := h
        exact ⟨⟨hp, fun _ => hlt, hte⟩, rfl, rfl, ht, rfl⟩
      · rw [selectElement_training_last rnd L ht (by omega)] at h
        simp only [Except.ok.injEq, Prod.mk.injEq] at h
        obtain ⟨_, _, rfl⟩ := h
        refine ⟨⟨(hsh _ _).trans hp, fun _ => ?_, hte⟩, rfl, rfl, ht, rfl⟩
        show 0 < ((rnd.shuffle L.generator_ L.perm_).1).length
        rw [(hsh _ _).length_eq]
        omega
    · rw [selectElement_training_outside rnd L ht (Nat.not_lt.1 hin)] at h
      cases h

/-- One passage through the body of the loop keeps the cursors and the permutation valid. -/
theorem sampleStep_valid {rnd : Generator} (hsh : rnd.Shuffles) {L L2 : DatasetInputLayer}
    {s : Nat} {sel : Selection} (h : L.sampleStep rnd s = .ok (L2, sel))
    (hv : L.CursorsValid) :
    L2.CursorsValid ∧ L2.elements_training_ = L.elements_training_ ∧
      L2.elements_testing_ = L.elements_testing_ ∧ L2.testing_ = L.testing_ ∧
      L2.batch_size_ = L.batch_size_ := by
  unfold DatasetInputLayer.sampleStep at h
  split at h
  · cases h
  · rename_i x f L1 hsel
    split at h
    · cases h
    · rename_i L3 hload
      simp only [Except.ok.injEq, Prod.mk.injEq] at h
      obtain ⟨rfl, _⟩ := h
      obtain ⟨g, w, rfl, _, _⟩ := loadSample_ok hload
      obtain ⟨⟨a1, a2, a3⟩, a4, a5, a6, a7⟩ := selectElement_valid hsh hsel hv
      exact ⟨⟨a1, a2, a3⟩, a4, a5, a6, a7⟩

theorem setActiveDataset_valid {rnd : Generator} (hsh : rnd.Shuffles) (L : DatasetInputLayer)
    (dataset : Dataset) : (L.SetActiveDataset rnd dataset).CursorsValid := by
  refine ⟨?_, fun hpos => ?_, Nat.zero_le _⟩
  · exact hsh _ _
  · show 0 < ((rnd.shuffle L.generator_ (List.range dataset.GetTrainingSamples)).1).length
    rw [(hsh _ _).length_eq, List.length_range]
    exact hpos

theorem setTestingMode_valid (L : DatasetInputLayer) (testing : Bool) (hv : L.CursorsValid) :
    (L.SetTestingMode testing).CursorsValid := by
  obtain ⟨hp, hc, hte⟩ := hv
  unfold DatasetInputLayer.SetTestingMode
  dsimp only
  split
  · split
    · exact ⟨hp, hc, Nat.zero_le _⟩
    · exact ⟨hp, hc, hte⟩
  · exact ⟨hp, hc, hte⟩

/-- One passage through the body of the loop, given the selection, on a connected layer
whose dataset delivers. -/
theorem sampleStep_of_select (rnd : Generator) (L L1 : DatasetInputLayer) (s x : Nat)
    (f : Bool) (hsel : L.selectElement rnd = .ok (x, f, L1)) (hc : L1.Connected)
    (hd : L1.active_dataset_.Delivers) :
    ∃ L2 g w, L.sampleStep rnd s = .ok (L2, ⟨s, x, L.testing_, f⟩) ∧
      L2 = { L1 with generator_ := g, localized_error_data := w } ∧
      (L1.testing_ = true → g = L1.generator_) ∧ (f = true → w s = .cleared) ∧
      ∀ y, y ≠ s → w y = L1.localized_error_data y := by
  obtain ⟨L2, hload⟩ := loadSample_delivers rnd L1 s x f hc hd
  obtain ⟨g, w, hL2, h1, h2, h3⟩ := loadSample_ok hload
  exact ⟨L2, g, w, by simp [DatasetInputLayer.sampleStep, hsel, hload], hL2, h1, h2, h3⟩

theorem sampleSteps_cons (rnd : Generator) (L L1 L2 : DatasetInputLayer) (s : Nat)
    (rest : List Nat) (sel : Selection) (sels : List Selection)
    (h1 : L.sampleStep rnd s = .ok (L1, sel))
    (h2 : DatasetInputLayer.sampleSteps rnd rest L1 = .ok (L2, sels)) :
    DatasetInputLayer.sampleSteps rnd (s :: rest) L = .ok (L2, sel :: sels) := by
  simp [DatasetInputLayer.sampleSteps, h1, h2]

/-- In testing mode, while samples are left, the slots get the testing samples in their
order; only the testing cursor and the weights change. -/
theorem sampleSteps_testing (rnd : Generator) :
    ∀ (slots : List Nat) (L : DatasetInputLayer), L.testing_ = true →
      L.current_element_testing_ + slots.length ≤ L.elements_testing_ →
      L.Connected → L.active_dataset_.Delivers →
      ∃ L2 sels w, DatasetInputLayer.sampleSteps rnd slots L = .ok (L2, sels) ∧
        sels.map Selection.selected_element
          = List.range' L.current_element_testing_ slots.length ∧
        sels.map Selection.sample = slots ∧
        (∀ x ∈ sels, x.testing = true ∧ x.force_no_weight = false) ∧
        L2 = { L with current_element_testing_ := L.current_element_testing_ + slots.length
                      localized_error_data := w } := by
  intro slots
  induction slots with
  | nil =>
    intro L _ _ _ _
    exact ⟨L, [], L.localized_error_data, rfl, rfl, rfl, by simp, rfl⟩
  | cons s rest ih =>
    intro L ht hle hc hd
    simp only [List.length_cons] at hle
    have hsel := selectElement_testing_next rnd L ht (by omega)
    obtain ⟨L1, g, w, hstep, hL1, hg, _, _⟩ :=
      sampleStep_of_select rnd L _ s _ false hsel hc hd
    have hg2 : g = L.generator_ := hg ht
    subst hg2
    obtain ⟨L2, sels, w2, hrest, k1, k2, k3, k4⟩ := ih L1 (by rw [hL1]; exact ht)
      (by rw [hL1]; show L.current_element_testing_ + 1 + rest.length ≤ L.elements_testing_
          omega)
      (by rw [hL1]; exact hc) (by rw [hL1]; exact hd)
    refine ⟨L2, _ :: sels, w2, sampleSteps_cons rnd _ _ _ _ _ _ _ hstep hrest, ?_, ?_, ?_, ?_⟩
    · rw [List.map_cons, k1, hL1, List.length_cons, List.range'_succ]
    · rw [List.map_cons, k2]
    · intro x hx
      rcases List.mem_cons.1 hx with rfl | hx
      · exact ⟨ht, rfl⟩
      · exact k3 x hx
    · rw [k4, hL1]
      simp only [List.length_cons]
      congr 1
      omega

/-- The slots of two runs, one after the other, make one run: the layer is carried from a
call of `SelectAndLoadSamples` to the next. -/
theorem sampleSteps_append (rnd : Generator) :
    ∀ (a b : List Nat) (L L1 L2 : DatasetInputLayer) (s1 s2 : List Selection),
      DatasetInputLayer.sampleSteps rnd a L = .ok (L1, s1) →
      DatasetInputLayer.sampleSteps rnd b L1 = .ok (L2, s2) →
      DatasetInputLayer.sampleSteps rnd (a ++ b) L = .ok (L2, s1 ++ s2) := by
  intro a
  induction a with
  | nil =>
    intro b L L1 L2 s1 s2 h1 h2
    simp only [DatasetInputLayer.sampleSteps, Except.ok.injEq, Prod.mk.injEq] at h1
    obtain ⟨rfl, rfl⟩ := h1
    exact h2
  | cons x a ih =>
    intro b L L1 L2 s1 s2 h1 h2
    simp only [DatasetInputLayer.sampleSteps] at h1
    split at h1
    · cases h1
    · rename_i L3 sel hstep
      split at h1
      · cases h1
      · rename_i L4 sels hrest
        simp only [Except.ok.injEq, Prod.mk.injEq] at h1
        obtain ⟨rfl, rfl⟩ := h1
        exact sampleSteps_cons rnd _ _ _ _ _ _ _ hstep (ih b _ _ _ _ _ hrest h2)

theorem reversingGenerator_shuffles : reversingGenerator.Shuffles :=
  fun _ l => List.reverse_perm l

theorem smallDataset_delivers : smallDataset.Delivers :=
  fun _ _ => ⟨rfl, rfl, rfl, rfl⟩

/-! ## Runs of batch slots whose fetches succeed -/

/-- On a connected layer the load returns if its fetches succeed. -/
theorem loadSample_loads (rnd : Generator) (L : DatasetInputLayer) (s e : Nat) (f : Bool)
    (hc : L.Connected) (hl : L.Loads s e) : ∃ L2, L.loadSample rnd s e f = .ok L2 := by
  obtain ⟨h1, h2, h3, h4⟩ := hc
  obtain ⟨d, hd1⟩ := Option.ne_none_iff_exists'.1 h1
  obtain ⟨l, hl1⟩ := Option.ne_none_iff_exists'.1 h2
  obtain ⟨hp, hh1⟩ := Option.ne_none_iff_exists'.1 h3
  obtain ⟨w, hw1⟩ := Option.ne_none_iff_exists'.1 h4
  obtain ⟨hf, hm⟩ := hl
  have hm2 : L.fetchMetadata s e (L.fetchSample s e) = true := by rw [hf]; exact hm
  exact ⟨L.adjustWeights rnd w s e f,
    by simp [DatasetInputLayer.loadSample, hd1, hl1, hh1, hw1, hf, hm]⟩

/-- A load whose fetch of the sample or of the metadata fails ends in `FATAL`. -/
theorem loadSample_fatal (rnd : Generator) (L : DatasetInputLayer) (s e : Nat) (f : Bool)
    (hc : L.Connected) (hl : ¬ L.Loads s e) :
    ∃ m, L.loadSample rnd s e f = .error (.fatal m) := by
  obtain ⟨h1, h2, h3, h4⟩ := hc
  obtain ⟨d, hd1⟩ := Option.ne_none_iff_exists'.1 h1
  obtain ⟨l, hl1⟩ := Option.ne_none_iff_exists'.1 h2
  obtain ⟨hp, hh1⟩ := Option.ne_none_iff_exists'.1 h3
  obtain ⟨w, hw1⟩ := Option.ne_none_iff_exists'.1 h4
  cases hf : L.fetchSample s e with
  | false =>
    exact ⟨"Cannot load samples from Dataset!",
      by simp [DatasetInputLayer.loadSample, hd1, hl1, hh1, hw1, hf]⟩
  | true =>
    cases hm : L.fetchMetadata s e true with
    | false =>
      exact ⟨"Cannot load metadata from Dataset!",
        by simp [DatasetInputLayer.loadSample, hd1, hl1, hh1, hw1, hf, hm]⟩
    | true => exact absurd ⟨hf, hm⟩ hl

/-- One passage through the body of the loop, given the selection, on a connected layer,
when the fetches for the selected sample succeed. -/
theorem sampleStep_of_loads (rnd : Generator) (L L1 : DatasetInputLayer) (s x : Nat)
    (f : Bool) (hsel : L.selectElement rnd = .ok (x, f, L1)) (hc : L1.Connected)
    (hl : L1.Loads s x) :
    ∃ L2 g w, L.sampleStep rnd s = .ok (L2, ⟨s, x, L.testing_, f⟩) ∧
      L2 = { L1 with generator_ := g, localized_error_data := w } ∧
      (L1.testing_ = true → g = L1.generator_) ∧ (f = true → w s = .cleared) ∧
      ∀ y, y ≠ s → w y = L1.localized_error_data y := by
  obtain ⟨L2, hload⟩ := loadSample_loads rnd L1 s x f hc hl
  obtain ⟨g, w, hL2, h1, h2, h3⟩ := loadSample_ok hload
  exact ⟨L2, g, w, by simp [DatasetInputLayer.sampleStep, hsel, hload], hL2, h1, h2, h3⟩

/-- In testing mode, while samples are left, the slots get the testing samples in their
order; only the testing cursor and the weights change. -/
theorem sampleSteps_testing_loads (rnd : Generator) :
    ∀ (slots : List Nat) (L : DatasetInputLayer), L.testing_ = true →
      L.current_element_testing_ + slots.length ≤ L.elements_testing_ →
      L.Connected →
      (∀ p ∈ slots.zip (List.range' L.current_element_testing_ slots.length),
        L.Loads p.1 p.2) →
      ∃ L2 sels w, DatasetInputLayer.sampleSteps rnd slots L = .ok (L2, sels) ∧
        sels.map Selection.selected_element
          = List.range' L.current_element_testing_ slots.length ∧
        sels.map Selection.sample = slots ∧
        (∀ x ∈ sels, x.testing = true ∧ x.force_no_weight = false) ∧
        L2 = { L with current_element_testing_ := L.current_element_testing_ + slots.length
                      localized_error_data := w } ∧
        ∀ s, s ∉ slots → w s = L.localized_error_data s := by
  intro slots
  induction slots with
  | nil =>
    intro L _ _ _ _
    exact ⟨L, [], L.localized_error_data, rfl, rfl, rfl, by simp, rfl, fun _ _ => rfl⟩
  | cons s rest ih =>
    intro L ht hle hc hl
    simp only [List.length_cons] at hle
    have hsel := selectElement_testing_next rnd L ht (by omega)
    have hl0 : L.Loads s L.current_element_testing_ :=
      hl (s, L.current_element_testing_) (by simp [List.range'_succ])
    obtain ⟨L1, g, w, hstep, hL1, hg, _, hkeep⟩ :=
      sampleStep_of_loads rnd L _ s _ false hsel hc hl0
    have hg2 : g = L.generator_ := hg ht
    subst hg2
    obtain ⟨L2, sels, w2, hrest, k1, k2, k3, k4, k5⟩ := ih L1 (by rw [hL1]; exact ht)
      (by rw [hL1]; show L.current_element_testing_ + 1 + rest.length ≤ L.elements_testing_
          omega)
      (by rw [hL1]; exact hc)
      (by
        rw [hL1]
        intro p hp
        exact hl p (by
          simp only [List.length_cons, List.range'_succ, List.zip_cons_cons]
          exact List.mem_cons_of_mem _ hp))
    refine ⟨L2, _ :: sels, w2, sampleSteps_cons rnd _ _ _ _ _ _ _ hstep hrest, ?_, ?_, ?_, ?_,
      ?_⟩
    · rw [List.map_cons, k1, hL1, List.length_cons, List.range'_succ]
    · rw [List.map_cons, k2]
    · intro x hx
      rcases List.mem_cons.1 hx with rfl | hx
      · exact ⟨ht, rfl⟩
      · exact k3 x hx
    · rw [k4, hL1]
      simp only [List.length_cons]
      congr 1
      omega
    · intro x hx
      simp only [List.mem_cons, not_or] at hx
      rw [k5 x hx.2, hL1]
      exact hkeep x hx.1

/-- In testing mode, once no sample is left, every slot gets testing sample 0 with its
weights cleared; only the weights change. -/
theorem sampleSteps_exhausted_loads (rnd : Generator) :
    ∀ (slots : List Nat) (L : DatasetInputLayer), L.testing_ = true →
      L.elements_testing_ ≤ L.current_element_testing_ →
      L.Connected → (∀ s ∈ slots, L.Loads s 0) →
      ∃ L2 w, DatasetInputLayer.sampleSteps rnd slots L
          = .ok (L2, slots.map fun s => ⟨s, 0, true, true⟩) ∧
        L2 = { L with localized_error_data := w } ∧
        (∀ s ∈ slots, w s = .cleared) ∧ ∀ s, s ∉ slots → w s = L.localized_error_data s := by
  intro slots
  induction slots with
  | nil =>
    intro L _ _ _ _
    exact ⟨L, L.localized_error_data, rfl, rfl, by simp, fun _ _ => rfl⟩
  | cons s rest ih =>
    intro L ht hge hc hl
    have hsel := selectElement_testing_done rnd L ht hge
    obtain ⟨L1, g, w, hstep, hL1, hg, hcl, hkeep⟩ :=
      sampleStep_of_loads rnd L _ s _ true hsel hc (hl s (List.mem_cons_self _ _))
    have hg2 : g = L.generator_ := hg ht
    subst hg2
    obtain ⟨L2, w2, hrest, k1, k2, k3⟩ := ih L1 (by rw [hL1]; exact ht)
      (by rw [hL1]; exact hge) (by rw [hL1]; exact hc)
      (by rw [hL1]; exact fun x hx => hl x (List.mem_cons_of_mem _ hx))
    refine ⟨L2, w2, ?_, ?_, ?_, ?_⟩
    · rw [List.map_cons]
      refine sampleSteps_cons rnd _ _ _ _ _ _ _ ?_ hrest
      rw [hstep, ht]
    · rw [k1, hL1]
    · intro x hx
      rcases List.mem_cons.1 hx with rfl | hx
      · by_cases hin : x ∈ rest
        · exact k2 x hin
        · rw [k3 x hin, hL1]
          exact hcl rfl
      · exact k2 x hx
    · intro x hx
      simp only [List.mem_cons, not_or] at hx
      rw [k3 x hx.2, hL1]
      exact hkeep x hx.1

/-- In training mode, the slots that use up the rest of the permutation get its entries in
their order; then the cursor is 0 and the permutation is shuffled anew. -/
theorem sampleSteps_epoch_loads (rnd : Generator) :
    ∀ (slots : List Nat) (L : DatasetInputLayer), L.testing_ = false → slots ≠ [] →
      L.current_element_ + slots.length = L.perm_.length →
      L.Connected →
      (∀ p ∈ slots.zip (L.perm_.drop L.current_element_), L.Loads p.1 p.2) →
      ∃ L2 sels g0 g w, DatasetInputLayer.sampleSteps rnd slots L = .ok (L2, sels) ∧
        sels.map Selection.selected_element = L.perm_.drop L.current_element_ ∧
        sels.map Selection.sample = slots ∧
        (∀ x ∈ sels, x.testing = false ∧ x.force_no_weight = false) ∧
        L2 = { L with current_element_ := 0
                      perm_ := (rnd.shuffle g0 L.perm_).1
                      generator_ := g
                      localized_error_data := w } := by
  intro slots
  induction slots with
  | nil => intro L _ hne; exact absurd rfl hne
  | cons s rest ih =>
    intro L ht _ hlen hc hl
    simp only [List.length_cons] at hlen
    have hin : L.current_element_ < L.perm_.length := by omega
    have hdrop : L.perm_.drop L.current_element_
        = L.perm_.getD L.current_element_ 0 :: L.perm_.drop (L.current_element_ + 1) := by
      rw [List.getD_eq_getElem _ _ hin]
      exact List.drop_eq_getElem_cons hin
    have hl0 : L.Loads s (L.perm_.getD L.current_element_ 0) :=
      hl (s, L.perm_.getD L.current_element_ 0) (by rw [hdrop]; simp)
    cases rest with
    | nil =>
      simp only [List.length_nil] at hlen
      have hsel := selectElement_training_last rnd L ht hlen
      obtain ⟨L1, g, w, hstep, hL1, _, _, _⟩ :=
        sampleStep_of_loads rnd L _ s _ false hsel hc hl0
      refine ⟨L1, [_], L.generator_, g, w,
        sampleSteps_cons rnd _ _ _ _ _ _ _ hstep rfl, ?_, rfl, ?_, hL1⟩
      · rw [hdrop, hlen, List.drop_length]
        rfl
      · intro x hx
        simp only [List.mem_singleton] at hx
        subst hx
        exact ⟨ht, rfl⟩
    | cons s2 rest2 =>
      simp only [List.length_cons] at hlen
      have hsel := selectElement_training_mid rnd L ht (by omega)
      obtain ⟨L1, g, w, hstep, hL1, _, _, _⟩ :=
        sampleStep_of_loads rnd L _ s _ false hsel hc hl0
      obtain ⟨L2, sels, g0, g2, w2, hrest, k1, k2, k3, k4⟩ := ih L1 (by rw [hL1]; exact ht)
        (by simp)
        (by rw [hL1]; show L.current_element_ + 1 + (s2 :: rest2).length = L.perm_.length
            simp only [List.length_cons]
            omega)
        (by rw [hL1]; exact hc)
        (by
          rw [hL1]
          intro p hp
          exact hl p (by
            rw [hdrop, List.zip_cons_cons]
            exact List.mem_cons_of_mem _ hp))
      refine ⟨L2, _ :: sels, g0, g2, w2, sampleSteps_cons rnd _ _ _ _ _ _ _ hstep hrest,
        ?_, ?_, ?_, ?_⟩
      · rw [List.map_cons, k1, hdrop, hL1]
      · rw [List.map_cons, k2]
      · intro x hx
        rcases List.mem_cons.1 hx with rfl | hx
        · exact ⟨ht, rfl⟩
        · exact k3 x hx
      · rw [k4, hL1]

/-- In every layer at the head of the loop body the cursors and the permutation are
valid. -/
theorem slotReachable_valid {rnd : Generator} (hsh : rnd.Shuffles) {L : DatasetInputLayer}
    (h : DatasetInputLayer.SlotReachable rnd L) : L.CursorsValid := by
  induction h with
  | setActive L dataset => exact setActiveDataset_valid hsh L dataset
  | slot _ _ hstep ih => exact (sampleStep_valid hsh hstep ih).1
  | setTesting testing _ ih => exact setTestingMode_valid _ testing ih

theorem slotReachable_steps {rnd : Generator} :
    ∀ (slots : List Nat) (L L2 : DatasetInputLayer) (sels : List Selection),
      DatasetInputLayer.SlotReachable rnd L →
      DatasetInputLayer.sampleSteps rnd slots L = .ok (L2, sels) →
      DatasetInputLayer.SlotReachable rnd L2 := by
  intro slots
  induction slots with
  | nil =>
    intro L L2 sels hr h
    simp only [DatasetInputLayer.sampleSteps, Except.ok.injEq, Prod.mk.injEq] at h
    obtain ⟨rfl, _⟩ := h
    exact hr
  | cons s rest ih =>
    intro L L2 sels hr h
    simp only [DatasetInputLayer.sampleSteps] at h
    split at h
    · cases h
    · rename_i L1 sel hstep
      split at h
      · cases h
      · rename_i L3 sels2 hrest
        simp only [Except.ok.injEq, Prod.mk.injEq] at h
        obtain ⟨rfl, _⟩ := h
        exact ih L1 L3 sels2 (DatasetInputLayer.SlotReachable.slot s hr hstep) hrest

/-- The layers between whole calls are among those at the head of the loop body. -/
theorem slotReachable_of_reachable {rnd : Generator} {L : DatasetInputLayer}
    (h : DatasetInputLayer.Reachable rnd L) : DatasetInputLayer.SlotReachable rnd L := by
  induction h with
  | setActive L dataset => exact DatasetInputLayer.SlotReachable.setActive L dataset
  | select _ hsel ih => exact slotReachable_steps _ _ _ _ ih hsel
  | setTesting testing _ ih => exact DatasetInputLayer.SlotReachable.setTesting testing ih


theorem secondEpochLayer_reachable :
    DatasetInputLayer.SlotReachable reversingGenerator secondEpochLayer :=
  slotReachable_steps [0, 1, 0] checkedTrainingLayer secondEpochLayer
    [⟨0, 2, false, false⟩, ⟨1, 1, false, false⟩, ⟨0, 0, false, false⟩]
    (DatasetInputLayer.SlotReachable.setActive _ _) rfl

/-! ## C15: epochs of the training permutation -/

/-- C15: in every layer at the head of the loop body, within a call or between calls,
`perm_` is a permutation of `0, ..., elements_training_ - 1` (`std::shuffle` yields a
permutation of its argument). In training mode, on a connected layer, `elements_training_`
consecutive passages through the loop body that start with `current_element_ = 0`, and
whose fetches succeed, select the entries of `perm_` in their order, hence every training
sample index exactly once; after them the cursor is 0 again, `perm_` is a shuffle of the old
`perm_`, and the layer is again one at the head of the loop body. -/
theorem training_epoch (rnd : Generator) (hsh : rnd.Shuffles) (L : DatasetInputLayer)
    (hreach : DatasetInputLayer.SlotReachable rnd L) :
    L.perm_.Perm (List.range L.elements_training_) ∧
    ∀ slots : List Nat, L.testing_ = false → L.current_element_ = 0 →
      slots.length = L.elements_training_ → L.Connected →
      (∀ p ∈ slots.zip L.perm_, L.Loads p.1 p.2) →
      ∃ L2 sels, DatasetInputLayer.sampleSteps rnd slots L = .ok (L2, sels) ∧
        sels.map Selection.sample = slots ∧
        sels.map Selection.selected_element = L.perm_ ∧
        (sels.map Selection.selected_element).Perm (List.range L.elements_training_) ∧
        L2.current_element_ = 0 ∧ (∃ g0, L2.perm_ = (rnd.shuffle g0 L.perm_).1) ∧
        L2.perm_.Perm (List.range L2.elements_training_) ∧
        L2.elements_training_ = L.elements_training_ ∧ L2.testing_ = false ∧
        DatasetInputLayer.SlotReachable rnd L2 := by
  have hv := slotReachable_valid hsh hreach
  have hlen : L.perm_.length = L.elements_training_ := by
    rw [hv.1.length_eq, List.length_range]
  refine ⟨hv.1, fun slots ht hcur hsl hc hl => ?_⟩
  cases slots with
  | nil =>
    have hnil : L.perm_ = [] := List.length_eq_zero.1 (by rw [hlen, ← hsl]; rfl)
    refine ⟨L, [], rfl, rfl, by rw [hnil]; rfl, by rw [← hsl]; exact List.Perm.refl _, hcur,
      ⟨0, ?_⟩, hv.1, rfl, ht, hreach⟩
    rw [hnil]
    exact (List.perm_nil.1 (hsh 0 [])).symm
  | cons s rest =>
    obtain ⟨L2, sels, g0, g, w, hrun, k1, k2, _, k4⟩ :=
      sampleSteps_epoch_loads rnd (s :: rest) L ht (by simp) (by rw [hcur, hsl, hlen]; omega) hc
        (by rw [hcur, List.drop_zero]; exact hl)
    rw [hcur, List.drop_zero] at k1
    have hr2 := slotReachable_steps _ _ _ _ hreach hrun
    refine ⟨L2, sels, hrun, k2, k1, by rw [k1]; exact hv.1, ?_, ⟨g0, ?_⟩, ?_, ?_, ?_, hr2⟩
    · rw [k4]
    · rw [k4]
    · rw [k4]
      exact (hsh g0 L.perm_).trans hv.1
    · rw [k4]
    · rw [k4]
      exact ht

/-- C15 at a layer whose dataset has 3 training samples and refuses every other index,
with batch size 2: for the slots 0, 1, 0 of the first epoch, and for the slots 1, 0, 1 of the
second epoch, which begins in the middle of the second batch. -/
theorem training_epoch_witness :
    (∃ L2 sels, DatasetInputLayer.sampleSteps reversingGenerator [0, 1, 0] checkedTrainingLayer
        = .ok (L2, sels) ∧
      sels.map Selection.sample = [0, 1, 0] ∧
      sels.map Selection.selected_element = checkedTrainingLayer.perm_ ∧
      (sels.map Selection.selected_element).Perm
        (List.range checkedTrainingLayer.elements_training_) ∧
      L2.current_element_ = 0 ∧
      (∃ g0, L2.perm_ = (reversingGenerator.shuffle g0 checkedTrainingLayer.perm_).1) ∧
      L2.perm_.Perm (List.range L2.elements_training_) ∧
      L2.elements_training_ = checkedTrainingLayer.elements_training_ ∧ L2.testing_ = false ∧
      DatasetInputLayer.SlotReachable reversingGenerator L2) ∧
    (∃ L2 sels, DatasetInputLayer.sampleSteps reversingGenerator [1, 0, 1] secondEpochLayer
        = .ok (L2, sels) ∧
      sels.map Selection.sample = [1, 0, 1] ∧
      sels.map Selection.selected_element = secondEpochLayer.perm_ ∧
      (sels.map Selection.selected_element).Perm
        (List.range secondEpochLayer.elements_training_) ∧
      L2.current_element_ = 0 ∧
      (∃ g0, L2.perm_ = (reversingGenerator.shuffle g0 secondEpochLayer.perm_).1) ∧
      L2.perm_.Perm (List.range L2.elements_training_) ∧
      L2.elements_training_ = secondEpochLayer.elements_training_ ∧ L2.testing_ = false ∧
      DatasetInputLayer.SlotReachable reversingGenerator L2) :=
  ⟨(training_epoch reversingGenerator reversingGenerator_shuffles checkedTrainingLayer
      (DatasetInputLayer.SlotReachable.setActive _ _)).2 [0, 1, 0] rfl rfl rfl
      ⟨by decide, by decide, by decide, by decide⟩ (by decide),
    (training_epoch reversingGenerator reversingGenerator_shuffles secondEpochLayer
      secondEpochLayer_reachable).2 [1, 0, 1] rfl rfl rfl
      ⟨by decide, by decide, by decide, by decide⟩ (by decide)⟩

/-! ## C16: the testing samples in their order -/

/-- C16: in testing mode, on a connected layer, starting from the testing cursor `c` with
`c + k ≤ elements_testing_`, the next `k` passages through the body of the loop, if the
fetches of the testing samples `c, ..., c + k - 1` for their slots succeed, select these
samples in this order, and `perm_`, `current_element_` and the state of the generator are
as before; the testing cursor is `c + k`. -/
theorem testing_sequential (rnd : Generator) (L : DatasetInputLayer) (slots : List Nat)
    (ht : L.testing_ = true)
    (hle : L.current_element_testing_ + slots.length ≤ L.elements_testing_)
    (hc : L.Connected)
    (hl : ∀ p ∈ slots.zip (List.range' L.current_element_testing_ slots.length),
      L.Loads p.1 p.2) :
    ∃ L2 sels, DatasetInputLayer.sampleSteps rnd slots L = .ok (L2, sels) ∧
      sels.map Selection.sample = slots ∧
      sels.map Selection.selected_element
        = List.range' L.current_element_testing_ slots.length ∧
      (∀ x ∈ sels, x.testing = true ∧ x.force_no_weight = false) ∧
      L2.perm_ = L.perm_ ∧ L2.current_element_ = L.current_element_ ∧
      L2.generator_ = L.generator_ ∧
      L2.current_element_testing_ = L.current_element_testing_ + slots.length := by
  obtain ⟨L2, sels, w, hrun, k1, k2, k3, k4, _⟩ :=
    sampleSteps_testing_loads rnd slots L ht hle hc hl
  refine ⟨L2, sels, hrun, k2, k1, k3, ?_, ?_, ?_, ?_⟩ <;> rw [k4]

/-- C16 at a layer whose dataset has 2 testing samples and refuses every other index, for
the slots of one batch of size 2. -/
theorem testing_sequential_witness :
    ∃ L2 sels, DatasetInputLayer.sampleSteps reversingGenerator [0, 1] checkedTestingLayer
        = .ok (L2, sels) ∧
      sels.map Selection.sample = [0, 1] ∧
      sels.map Selection.selected_element
        = List.range' checkedTestingLayer.current_element_testing_ [0, 1].length ∧
      (∀ x ∈ sels, x.testing = true ∧ x.force_no_weight = false) ∧
      L2.perm_ = checkedTestingLayer.perm_ ∧
      L2.current_element_ = checkedTestingLayer.current_element_ ∧
      L2.generator_ = checkedTestingLayer.generator_ ∧
      L2.current_element_testing_
        = checkedTestingLayer.current_element_testing_ + [0, 1].length :=
  testing_sequential reversingGenerator checkedTestingLayer [0, 1] rfl (by decide)
    ⟨by decide, by decide, by decide, by decide⟩ (by decide)

/-! ## C17: the output buffers -/

/-- C17: for every task and method of the active dataset, `CreateOutputs` with an empty
input list returns success and appends exactly four tensors to `outputs`, bound to
`data_output`, `label_output`, `helper_output` and `localized_error_output` in this order,
so that the label is the second and the weight the fourth of them, which is the order of the
descriptions "Data Output", "Label", "Helper", "Weight" that `CreateBufferDescriptors`
appends. With a non-empty input list it returns failure and `outputs` is as it was. -/
theorem createOutputs_four_buffers (L : DatasetInputLayer)
    (outputs : List (Option CombinedTensor)) (buffers : List NetGraphBuffer) :
    ((L.CreateOutputs [] outputs).1 = true ∧
      ∃ created, (L.CreateOutputs [] outputs).2 = outputs ++ created ∧
        created.map (Option.map CombinedTensor.role)
          = [some .data_output, some .label_output, some .helper_output,
              some .localized_error_output]) ∧
    (DatasetInputLayer.CreateBufferDescriptors buffers).map NetGraphBuffer.description
      = buffers.map NetGraphBuffer.description ++ ["Data Output", "Label", "Helper", "Weight"] ∧
    (∀ inputs : List (Option CombinedTensor), inputs ≠ [] →
      L.CreateOutputs inputs outputs = (false, outputs)) := by
  refine ⟨?_, by simp [DatasetInputLayer.CreateBufferDescriptors], ?_⟩
  · cases ht : L.active_dataset_.GetTask <;> cases hm : L.active_dataset_.GetMethod <;>
      exact ⟨by simp [DatasetInputLayer.CreateOutputs, ht, hm], (L.CreateOutputs [] []).2,
        by simp [DatasetInputLayer.CreateOutputs, ht, hm],
        by simp [DatasetInputLayer.CreateOutputs, ht, hm]⟩
  · intro inputs hne
    have hlen : inputs.length ≠ 0 := fun h => hne (List.length_eq_zero.1 h)
    simp [DatasetInputLayer.CreateOutputs, hlen]

/-! ## C18: the number of tensors handed to `Connect` -/

/-- A call of `Connect` with fewer than four outputs reads past the end of `outputs`. -/
theorem connect_short (L : DatasetInputLayer) (inputs outputs : List (Option CombinedTensor))
    (h : outputs.length < 4) : L.Connect inputs outputs = .error .outOfBounds := by
  match outputs, h with
  | [], _ => rfl
  | [_], _ => rfl
  | [_, _], _ => rfl
  | [_, _, _], _ => rfl
  | _ :: _ :: _ :: _ :: _, h => simp at h; omega

/-- C18: with three outputs, or with none, `Connect` does not return failure: lines 180-183
read `outputs[0]` to `outputs[3]` before line 189 compares `outputs.size()` with 4. -/
theorem connect_reads_past_outputs :
    trainingLayer.Connect []
        [some ⟨.data_output, 2, 4, 4, 3, false⟩, some ⟨.label_output, 2, 4, 4, 2, false⟩,
          some ⟨.helper_output, 2, 4, 4, 2, false⟩] = .error .outOfBounds ∧
      trainingLayer.Connect [] [] = .error .outOfBounds :=
  ⟨connect_short _ _ _ (by decide), connect_short _ _ _ (by decide)⟩

/-! ## C19: the cursor of the training permutation -/

/-- C20: in every layer at the head of the loop body, within a call or between calls, the
testing cursor is at most `elements_testing_`. In testing mode, on a connected layer, let
the slots `a` use up the testing samples that are left (none, if the cursor equals
`elements_testing_` already) and let the slots `b` follow, in the same call or in later
ones. If the fetches succeed, the slots `a` get the samples that were left in their order,
and every slot of `b` is filled from testing sample 0 with `force_no_weight` set: the cursor
stays at `elements_testing_` and the weights of the slot are cleared. -/
theorem testing_exhaustion (rnd : Generator) (hsh : rnd.Shuffles) (L : DatasetInputLayer)
    (hreach : DatasetInputLayer.SlotReachable rnd L) :
    L.current_element_testing_ ≤ L.elements_testing_ ∧
    ∀ a b : List Nat, L.testing_ = true →
      L.current_element_testing_ + a.length = L.elements_testing_ → L.Connected →
      (∀ p ∈ a.zip (List.range' L.current_element_testing_ a.length), L.Loads p.1 p.2) →
      (∀ s ∈ b, L.Loads s 0) →
      ∃ L2 sels, DatasetInputLayer.sampleSteps rnd (a ++ b) L
          = .ok (L2, sels ++ b.map fun s => ⟨s, 0, true, true⟩) ∧
        sels.map Selection.sample = a ∧
        sels.map Selection.selected_element
          = List.range' L.current_element_testing_ a.length ∧
        (∀ x ∈ sels, x.testing = true ∧ x.force_no_weight = false) ∧
        L2.current_element_testing_ = L.elements_testing_ ∧
        L2.elements_testing_ = L.elements_testing_ ∧
        (∀ s ∈ b, L2.localized_error_data s = .cleared) ∧
        DatasetInputLayer.SlotReachable rnd L2 := by
  refine ⟨(slotReachable_valid hsh hreach).2.2, fun a b ht heq hc hla hlb => ?_⟩
  obtain ⟨L1, sels, w, hrun1, k1, k2, k3, k4, _⟩ :=
    sampleSteps_testing_loads rnd a L ht heq.le hc hla
  obtain ⟨L2, w2, hrun2, m1, m2, _⟩ := sampleSteps_exhausted_loads rnd b L1
    (by rw [k4]; exact ht) (by rw [k4]; exact heq.ge) (by rw [k4]; exact hc)
    (by rw [k4]; exact hlb)
  have hrun := sampleSteps_append rnd a b L L1 L2 _ _ hrun1 hrun2
  refine ⟨L2, sels, hrun, k2, k1, k3, ?_, ?_, fun s hs => ?_,
    slotReachable_steps _ _ _ _ hreach hrun⟩
  · rw [m1, k4]
    exact heq
  · rw [m1, k4]
  · rw [m1]
    exact m2 s hs

/-- C20 at a layer whose dataset has 2 testing samples and refuses every other index, for
one call with batch size 3: the slots 0 and 1 get the samples 0 and 1, the slot 2 is filled
from sample 0 and its weights are cleared. -/
theorem testing_exhaustion_witness :
    wideTestingLayer.current_element_testing_ ≤ wideTestingLayer.elements_testing_ ∧
    ∃ L2 sels, wideTestingLayer.SelectAndLoadSamples reversingGenerator
        = .ok (L2, sels ++ [2].map fun s => ⟨s, 0, true, true⟩) ∧
      sels.map Selection.sample = [0, 1] ∧
      sels.map Selection.selected_element
        = List.range' wideTestingLayer.current_element_testing_ [0, 1].length ∧
      (∀ x ∈ sels, x.testing = true ∧ x.force_no_weight = false) ∧
      L2.current_element_testing_ = wideTestingLayer.elements_testing_ ∧
      L2.elements_testing_ = wideTestingLayer.elements_testing_ ∧
      (∀ s ∈ [2], L2.localized_error_data s = .cleared) ∧
      DatasetInputLayer.SlotReachable reversingGenerator L2 :=
  ⟨(testing_exhaustion reversingGenerator reversingGenerator_shuffles wideTestingLayer
      (DatasetInputLayer.SlotReachable.setActive _ _)).1,
    (testing_exhaustion reversingGenerator reversingGenerator_shuffles wideTestingLayer
      (DatasetInputLayer.SlotReachable.setActive _ _)).2 [0, 1] [2] rfl rfl
      ⟨by decide, by decide, by decide, by decide⟩ (by decide) (by decide)⟩

/-! ## C21: the switch between training and testing -/

theorem setTestingMode_eq (L : DatasetInputLayer) (b : Bool) :
    L.SetTestingMode b
      = { L with testing_ := b
                 current_element_testing_ :=
                   if b = true ∧ L.testing_ = false then 0 else L.current_element_testing_ } := by
  cases b <;> cases h : L.testing_ <;> simp [DatasetInputLayer.SetTestingMode, h]

theorem setTestingMode_same (L : DatasetInputLayer) (b : Bool) (h : L.testing_ = b) :
    L.SetTestingMode b = L := by
  cases L
  cases b <;> simp_all [DatasetInputLayer.SetTestingMode]

theorem setTestingMode_first (rnd : Generator) (L : DatasetInputLayer) (s : Nat)
    (ht : L.testing_ = true) (h0 : L.current_element_testing_ = 0) (hc : L.Connected)
    (hd : L.active_dataset_.Delivers) :
    ∃ L2 f, L.sampleStep rnd s = .ok (L2, ⟨s, 0, true, f⟩) := by
  by_cases hlt : L.current_element_testing_ < L.elements_testing_
  · have hsel := selectElement_testing_next rnd L ht hlt
    obtain ⟨L2, _, _, hstep, _⟩ := sampleStep_of_select rnd L _ s _ _ hsel hc hd
    rw [h0, ht] at hstep
    exact ⟨L2, false, hstep⟩
  · have hsel := selectElement_testing_done rnd L ht (Nat.le_of_not_lt hlt)
    obtain ⟨L2, _, _, hstep, _⟩ := sampleStep_of_select rnd L _ s _ _ hsel hc hd
    rw [ht] at hstep
    exact ⟨L2, true, hstep⟩

/-- C21: `SetTestingMode (b)` sets the mode to `b`; it assigns 0 to the testing cursor if
`b` is true and the layer was in training mode, and leaves the cursor as it was otherwise;
`perm_`, `current_element_` and the generator are as before. Called with the mode that is in
effect it changes nothing, so that a second call with the same argument changes nothing.
After a switch from training to testing, on a connected layer whose dataset delivers, the
first passage through the body of the loop selects testing sample 0, and the first `k`
passages, `k ≤ elements_testing_`, select the samples `0, ..., k - 1`. -/
theorem setTestingMode_resets_cursor (rnd : Generator) (L : DatasetInputLayer) (b : Bool) :
    (L.SetTestingMode b).testing_ = b ∧
    (L.SetTestingMode b).current_element_testing_
      = (if b = true ∧ L.testing_ = false then 0 else L.current_element_testing_) ∧
    (L.SetTestingMode b).perm_ = L.perm_ ∧
    (L.SetTestingMode b).current_element_ = L.current_element_ ∧
    (L.SetTestingMode b).generator_ = L.generator_ ∧
    (L.testing_ = b → L.SetTestingMode b = L) ∧
    (L.SetTestingMode b).SetTestingMode b = L.SetTestingMode b ∧
    (L.testing_ = false → L.Connected → L.active_dataset_.Delivers →
      (∀ s, ∃ L2 f, (L.SetTestingMode true).sampleStep rnd s = .ok (L2, ⟨s, 0, true, f⟩)) ∧
      ∀ slots : List Nat, slots.length ≤ L.elements_testing_ →
        ∃ L2 sels, DatasetInputLayer.sampleSteps rnd slots (L.SetTestingMode true)
            = .ok (L2, sels) ∧
          sels.map Selection.selected_element = List.range slots.length) := by
  have heq := setTestingMode_eq L b
  refine ⟨by rw [heq], by rw [heq], by rw [heq], by rw [heq], by rw [heq],
    setTestingMode_same L b, setTestingMode_same _ b (by rw [heq]), fun ht hc hd => ?_⟩
  have heq2 := setTestingMode_eq L true
  have hmode : (L.SetTestingMode true).testing_ = true := by rw [heq2]
  have hcur : (L.SetTestingMode true).current_element_testing_ = 0 := by
    rw [heq2]
    simp [ht]
  have hc2 : (L.SetTestingMode true).Connected := by
    rw [heq2]
    exact hc
  have hd2 : (L.SetTestingMode true).active_dataset_.Delivers := by
    rw [heq2]
    exact hd
  refine ⟨fun s => setTestingMode_first rnd _ s hmode hcur hc2 hd2, fun slots hle => ?_⟩
  obtain ⟨L2, sels, _, hrun, hsel, _⟩ :=
    sampleSteps_testing rnd slots (L.SetTestingMode true) hmode
      (by rw [hcur, heq2]; simpa using hle) hc2 hd2
  refine ⟨L2, sels, hrun, ?_⟩
  rw [hsel, hcur, List.range_eq_range']

/-- C21 at a layer in testing mode, for a call with `true`, and at a layer in training mode
with 2 testing samples, for the switch to testing and the slots of one batch of size 2. -/
theorem setTestingMode_resets_cursor_witness :
    testingLayer.SetTestingMode true = testingLayer ∧
    ((∀ s, ∃ L2 f, (trainingLayer.SetTestingMode true).sampleStep reversingGenerator s
        = .ok (L2, ⟨s, 0, true, f⟩)) ∧
      ∀ slots : List Nat, slots.length ≤ trainingLayer.elements_testing_ →
        ∃ L2 sels, DatasetInputLayer.sampleSteps reversingGenerator slots
            (trainingLayer.SetTestingMode true) = .ok (L2, sels) ∧
          sels.map Selection.selected_element = List.range slots.length) :=
  ⟨(setTestingMode_resets_cursor reversingGenerator testingLayer true).2.2.2.2.2.1 rfl,
    (setTestingMode_resets_cursor reversingGenerator trainingLayer true).2.2.2.2.2.2.2 rfl
      ⟨by decide, by decide, by decide, by decide⟩ smallDataset_delivers⟩

/-! ## C22: the shape of the label tensor -/

theorem getElem?_append_second {α : Type} (l : List α) (a b : α) (r : List α) :
    (l ++ a :: b :: r)[l.length + 1]? = some b := by
  rw [List.getElem?_append_right (Nat.le_add_right _ _)]
  simp

/-- What `CreateOutputs` appends for a dataset whose task is not detection: the label, the
helper and the weight tensor have the width `GetLabelWidth ()` and the height
`GetLabelHeight ()`. -/
theorem createOutputs_append (L : DatasetInputLayer) (out : List (Option CombinedTensor))
    (h : L.active_dataset_.GetTask ≠ Task.DETECTION) :
    (L.CreateOutputs [] out).2 = out ++
      [some ⟨.data_output, L.batch_size_, L.active_dataset_.GetWidth,
          L.active_dataset_.GetHeight, L.input_maps_, false⟩,
        some ⟨.label_output, L.batch_size_, L.GetLabelWidth, L.GetLabelHeight, L.label_maps_,
          false⟩,
        some ⟨.helper_output, L.batch_size_, L.GetLabelWidth, L.GetLabelHeight, 2, false⟩,
        some ⟨.localized_error_output, L.batch_size_, L.GetLabelWidth, L.GetLabelHeight, 1,
          false⟩] := by
  cases ht : L.active_dataset_.GetTask <;> cases hm : L.active_dataset_.GetMethod <;>
    first
    | exact absurd ht h
    | simp [DatasetInputLayer.CreateOutputs, DatasetInputLayer.GetLabelWidth,
        DatasetInputLayer.GetLabelHeight, ht, hm]

/-- C22: for a dataset whose task is semantic segmentation or classification,
`CreateOutputs` with an empty input list appends the label tensor as the second of the four
tensors (at index 1 of an `outputs` that was empty), with the width `GetLabelWidth ()` and
the height `GetLabelHeight ()`; these are the width and the height of the dataset for `FCN`
semantic segmentation and 1 and 1 otherwise. -/
theorem createOutputs_label_shape (L : DatasetInputLayer)
    (outputs : List (Option CombinedTensor))
    (h : L.active_dataset_.GetTask ≠ Task.DETECTION) :
    ∃ label, (L.CreateOutputs [] outputs).2[outputs.length + 1]? = some (some label) ∧
      (L.CreateOutputs [] []).2[1]? = some (some label) ∧
      label.role = .label_output ∧
      label.width = L.GetLabelWidth ∧ label.height = L.GetLabelHeight ∧
      (L.GetLabelWidth, L.GetLabelHeight)
        = (if L.active_dataset_.GetTask = Task.SEMANTIC_SEGMENTATION
              ∧ L.active_dataset_.GetMethod = Method.FCN
            then (L.active_dataset_.GetWidth, L.active_dataset_.GetHeight) else (1, 1)) := by
  have key : ∀ out : List (Option CombinedTensor),
      (L.CreateOutputs [] out).2[out.length + 1]?
        = some (some ⟨.label_output, L.batch_size_, L.GetLabelWidth, L.GetLabelHeight,
            L.label_maps_, false⟩) := by
    intro out
    rw [createOutputs_append L out h]
    exact getElem?_append_second _ _ _ _
  refine ⟨_, key outputs, key [], rfl, rfl, rfl, ?_⟩
  cases ht : L.active_dataset_.GetTask <;> cases hm : L.active_dataset_.GetMethod <;>
    simp [DatasetInputLayer.GetLabelWidth, DatasetInputLayer.GetLabelHeight, ht, hm]

/-- C22 at the layer for `smallDataset` (`FCN` semantic segmentation, 4 by 4) and at the
layer for `emptyDataset` (classification). -/
theorem createOutputs_label_shape_witness :
    (∃ label, (trainingLayer.CreateOutputs [] []).2[([] : List (Option CombinedTensor)).length + 1]?
          = some (some label) ∧
        (trainingLayer.CreateOutputs [] []).2[1]? = some (some label) ∧
        label.role = .label_output ∧
        label.width = trainingLayer.GetLabelWidth ∧
        label.height = trainingLayer.GetLabelHeight ∧
        (trainingLayer.GetLabelWidth, trainingLayer.GetLabelHeight)
          = (if trainingLayer.active_dataset_.GetTask = Task.SEMANTIC_SEGMENTATION
                ∧ trainingLayer.active_dataset_.GetMethod = Method.FCN
              then (trainingLayer.active_dataset_.GetWidth, trainingLayer.active_dataset_.GetHeight)
              else (1, 1))) ∧
      trainingLayer.GetLabelWidth = 4 ∧ emptyLayer.GetLabelWidth = 1 :=
  ⟨createOutputs_label_shape trainingLayer [] (by decide), by decide, by decide⟩

end Conv
